import Mathlib

/-!
# Shallow embedding of the rspamd CSS block consumer (`src/libserver/css/css_parser.cxx`)

The tokenizer is external to the parser (spec §1, §6.1): an input is modelled as the
list of tokens the tokenizer would produce, and `next_token` yields `eof` forever past
the end, exactly matching the tokenizer contract the consumer relies on.

The mutually recursive consumers are total functions indexed by an explicit fuel
parameter (structural recursion on the fuel).  Exhausting the fuel returns the same
result shape as the recursion-guard trip (`false` plus a `BAD_NESTING` error); the
public wrappers supply `8 * remaining + 8` fuel, which strictly exceeds the longest
possible chain of consumer activations between two token consumptions (at most six:
top loop → rule consumer → rule loop → simple-block consumer → simple-block loop →
component consumer → component loop), so the exhaustion branch is unreachable from
the wrappers.
-/

namespace RspamdCss

/-- Token discriminants (spec §3; `css_parser_token::token_type` in css_tokeniser.hxx,
referenced throughout css_parser.cxx). -/
inductive token_type : Type where
  | eof_token
  | whitespace_token
  | ident_token
  | function_token
  | at_keyword_token
  | hash_token
  | string_token
  | number_token
  | percentage_token
  | dimension_token
  | url_token
  | cdo_token
  | cdc_token
  | semicolon_token
  | comma_token
  | delim_token
  | obrace_token
  | ebrace_token
  | osqbrace_token
  | esqbrace_token
  | ocurlbrace_token
  | ecurlbrace_token
  | unicode_range_token
  deriving DecidableEq, Repr

/-- A token: the consumer dispatches only on the discriminant (spec §3); the payload is
kept opaque as a number so that distinct tokens stay distinguishable. -/
structure css_parser_token where
  type : token_type
  value : Nat := 0
  deriving DecidableEq, Repr

/-- `css_consumed_block::parser_tag_type` (css_parser.cxx lines 66-89). -/
inductive parser_tag_type : Type where
  | css_top_block
  | css_qualified_rule
  | css_at_rule
  | css_simple_block
  | css_function
  | css_function_arg
  | css_component
  | css_eof_block
  deriving DecidableEq, Repr

mutual
/-- A consumed block: a tag plus a content variant (spec §3 "Consumed block"). -/
inductive css_consumed_block : Type where
  | mk (tag : parser_tag_type) (content : block_content)

/-- The four content shapes of `css_consumed_block::content`
(monostate / child vector / single token / function record). -/
inductive block_content : Type where
  | monostate : block_content
  | blocks (children : List css_consumed_block)
  | token (t : css_parser_token)
  | func (fb : css_function_block)

/-- `css_function_block`: the function header token plus its argument blocks. -/
inductive css_function_block : Type where
  | mk (fn : css_parser_token) (args : List css_consumed_block)
end

def css_consumed_block.tag : css_consumed_block → parser_tag_type
  | .mk t _ => t

def css_consumed_block.content : css_consumed_block → block_content
  | .mk _ c => c

/-- `css_consumed_block::attach_block` (css_parser.cxx lines 34-48): switch a
monostate content to a child vector, append to a child vector, and fail (leaving the
node unchanged) on any other content shape.  The C++ mutates in place and returns a
bool; here the pair (bool, updated node) is returned. -/
def css_consumed_block.attach_block (b : css_consumed_block) (block : css_consumed_block) :
    Bool × css_consumed_block :=
  match b with
  | .mk tag .monostate => (true, .mk tag (.blocks [block]))
  | .mk tag (.blocks l) => (true, .mk tag (.blocks (l ++ [block])))
  | b => (false, b)

/-- `css_consumed_block::add_function_argument` (css_parser.cxx lines 50-59): append
to the function record's argument vector, fail (unchanged) on any other shape. -/
def css_consumed_block.add_function_argument (b : css_consumed_block)
    (block : css_consumed_block) : Bool × css_consumed_block :=
  match b with
  | .mk tag (.func (.mk fn args)) => (true, .mk tag (.func (.mk fn (args ++ [block]))))
  | b => (false, b)

/-- Modelled from the spec: `get_blocks_or_empty` is declared in css_parser.hxx (not
under src/); per spec §3/§4.9 it yields the node's child list when the content is a
child list and the empty sequence otherwise. -/
def css_consumed_block.get_blocks_or_empty : css_consumed_block → List css_consumed_block
  | .mk _ (.blocks l) => l
  | _ => []

mutual
/-- Total number of nodes of a consumed-block tree (the node itself, its children,
and function-argument blocks). -/
def css_consumed_block.node_count : css_consumed_block → Nat
  | .mk _ c => 1 + block_content.content_node_count c

def block_content.content_node_count : block_content → Nat
  | .monostate => 0
  | .token _ => 0
  | .blocks l => block_list_node_count l
  | .func (.mk _ args) => block_list_node_count args

def block_list_node_count : List css_consumed_block → Nat
  | [] => 0
  | b :: bs => b.node_count + block_list_node_count bs
end

/-- Parse-error kinds surfaced by the parser (spec §3 "Parse error"); only
`BAD_NESTING` and `INVALID_SYNTAX` are emitted from the core. -/
inductive css_parse_error_type : Type where
  | PARSE_ERROR_INVALID_SYNTAX
  | PARSE_ERROR_BAD_NESTING
  | PARSE_ERROR_UNKNOWN_OPTION
  deriving DecidableEq, Repr

structure css_parse_error where
  type : css_parse_error_type
  description : String := ""
  deriving DecidableEq, Repr

def bad_nesting_error : css_parse_error :=
  { type := .PARSE_ERROR_BAD_NESTING }

/-- The tokenizer as seen by the consumer (spec §6.1): remaining token list plus the
single depth-1 pushback slot. -/
structure css_tokeniser where
  tokens : List css_parser_token
  pushback : Option css_parser_token
  deriving DecidableEq, Repr

def css_parser_eof_token : css_parser_token := { type := .eof_token }

/-- `next_token`: the pushback slot first, then the stream, then `eof` forever. -/
def css_tokeniser.next_token : css_tokeniser → css_parser_token × css_tokeniser
  | ⟨ts, some t⟩ => (t, ⟨ts, none⟩)
  | ⟨[], none⟩ => (css_parser_eof_token, ⟨[], none⟩)
  | ⟨t :: ts, none⟩ => (t, ⟨ts, none⟩)

/-- `pushback_token`: fill the depth-1 slot. -/
def css_tokeniser.pushback_token (tk : css_tokeniser) (t : css_parser_token) :
    css_tokeniser :=
  ⟨tk.tokens, some t⟩

/-- Number of tokens the tokenizer can still yield before the synthetic eof. -/
def css_tokeniser.remaining (tk : css_tokeniser) : Nat :=
  tk.tokens.length + (match tk.pushback with | some _ => 1 | none => 0)

/-- The mutable state the five consumers share on the `css_parser` object
(css_parser.cxx lines 162-171): tokenizer, recursion counter, eof flag and the
recorded parse error (default-constructed in C++, so an `Option` here). -/
structure parser_state where
  tokeniser : css_tokeniser
  rec_level : Nat
  eof : Bool
  error : Option css_parse_error
  deriving DecidableEq, Repr

/-- `max_rec` (css_parser.cxx line 170). -/
def max_rec : Nat := 20

def parser_state.next_token (s : parser_state) : css_parser_token × parser_state :=
  match s.tokeniser.next_token with
  | (t, tk) => (t, { s with tokeniser := tk })

def parser_state.pushback_token (s : parser_state) (t : css_parser_token) : parser_state :=
  { s with tokeniser := s.tokeniser.pushback_token t }

def parser_state.remaining (s : parser_state) : Nat := s.tokeniser.remaining

/-- Token budget plus one unit for the not-yet-consumed synthetic eof; the measure
that decreases across consumer activity. -/
def parser_state.mu (s : parser_state) : Nat :=
  s.remaining + (if s.eof then 0 else 1)

/-- Result of one consumer invocation: the C++ bool return, the (possibly updated)
block the consumer was handed, and the parser state. -/
abbrev consumer_result := Bool × css_consumed_block × parser_state

/-- The recursion-guard trip (`if (++rec_level > max_rec) { error = BAD_NESTING;
return false; }`): note the early return skips the `--rec_level`, so the counter
stays one above its entry value.  Fuel exhaustion returns the same shape. -/
def nesting_failure (s : parser_state) (top : css_consumed_block) : consumer_result :=
  (false, top, { s with rec_level := s.rec_level + 1, error := some bad_nesting_error })

/-- Loop body of `css_parser::function_consumer` (css_parser.cxx lines 231-256):
whitespace, comma, delim and obrace are skipped, ebrace ends with success, eof sets
the flag and ends with success, and any other token is appended to the function node
as a `css_function_arg` (the bool result of `add_function_argument` is discarded, as
in the source). -/
def function_consumer_loop : Nat → parser_state → css_consumed_block →
    css_consumed_block × parser_state
  | 0, s, top => (top, s)
  | fuel + 1, s, top =>
    if s.eof then (top, s)
    else
      match s.next_token with
      | (t, s1) =>
        match t.type with
        | .eof_token => (top, { s1 with eof := true })
        | .whitespace_token => function_consumer_loop fuel s1 top
        | .ebrace_token => (top, s1)
        | .comma_token => function_consumer_loop fuel s1 top
        | .delim_token => function_consumer_loop fuel s1 top
        | .obrace_token => function_consumer_loop fuel s1 top
        | _ =>
          function_consumer_loop fuel s1
            (top.add_function_argument (.mk .css_function_arg (.token t))).2

/-- `css_parser::function_consumer` (css_parser.cxx lines 218-261): recursion guard,
loop, decrement on exit. -/
def function_consumer_fuel : Nat → parser_state → css_consumed_block → consumer_result
  | 0, s, top => nesting_failure s top
  | fuel + 1, s, top =>
    if s.rec_level + 1 > max_rec then nesting_failure s top
    else
      match function_consumer_loop fuel { s with rec_level := s.rec_level + 1 } top with
      | (top1, s2) => (true, top1, { s2 with rec_level := s2.rec_level - 1 })

mutual
/-- `css_parser::component_value_consumer` (css_parser.cxx lines 440-515): recursion
guard, single-component loop, decrement on exit. -/
def component_value_consumer_fuel : Nat → parser_state → css_consumed_block →
    consumer_result
  | 0, s, top => nesting_failure s top
  | fuel + 1, s, top =>
    if s.rec_level + 1 > max_rec then nesting_failure s top
    else
      match component_value_consumer_loop fuel { s with rec_level := s.rec_level + 1 } top with
      | (ret, top1, s2) => (ret, top1, { s2 with rec_level := s2.rec_level - 1 })

/-- Loop body of `component_value_consumer` (css_parser.cxx lines 453-510): pulls one
token; `{`/`(`/`[` open a fresh simple block filled in place (`consume_current =
true`), `function` opens a function node filled by the function consumer, whitespace
re-loops, eof ends without a node, anything else becomes a `css_component`; on
success the produced node (if any) is attached to the argument block. -/
def component_value_consumer_loop : Nat → parser_state → css_consumed_block →
    consumer_result
  | 0, s, top => nesting_failure s top
  | fuel + 1, s, top =>
    if s.eof then (true, top, s)
    else
      match s.next_token with
      | (t, s1) =>
        match t.type with
        | .eof_token => (true, top, { s1 with eof := true })
        | .ocurlbrace_token =>
          match simple_block_consumer_fuel fuel s1 (.mk .css_simple_block .monostate)
              .ecurlbrace_token true with
          | (ret, block1, s2) =>
            if ret then (ret, (top.attach_block block1).2, s2) else (ret, top, s2)
        | .obrace_token =>
          match simple_block_consumer_fuel fuel s1 (.mk .css_simple_block .monostate)
              .ebrace_token true with
          | (ret, block1, s2) =>
            if ret then (ret, (top.attach_block block1).2, s2) else (ret, top, s2)
        | .osqbrace_token =>
          match simple_block_consumer_fuel fuel s1 (.mk .css_simple_block .monostate)
              .esqbrace_token true with
          | (ret, block1, s2) =>
            if ret then (ret, (top.attach_block block1).2, s2) else (ret, top, s2)
        | .whitespace_token => component_value_consumer_loop fuel s1 top
        | .function_token =>
          match function_consumer_fuel fuel s1 (.mk .css_function (.func (.mk t []))) with
          | (ret, block1, s2) =>
            if ret then (ret, (top.attach_block block1).2, s2) else (ret, top, s2)
        | _ => (true, (top.attach_block (.mk .css_component (.token t))).2, s1)

/-- `css_parser::simple_block_consumer` (css_parser.cxx lines 263-317).  With
`consume_current = true` the caller's block is filled directly: no recursion-guard
bump, no fresh node, no attach.  With `consume_current = false` a fresh
`css_simple_block` node is filled and attached to the parent on success. -/
def simple_block_consumer_fuel : Nat → parser_state → css_consumed_block → token_type →
    Bool → consumer_result
  | 0, s, top, _, _ => nesting_failure s top
  | fuel + 1, s, top, expected_end, consume_current =>
    if consume_current then simple_block_consumer_loop fuel s top expected_end
    else
      if s.rec_level + 1 > max_rec then nesting_failure s top
      else
        match simple_block_consumer_loop fuel { s with rec_level := s.rec_level + 1 }
            (.mk .css_simple_block .monostate) expected_end with
        | (ret, block1, s2) =>
          (ret, if ret then (top.attach_block block1).2 else top,
            { s2 with rec_level := s2.rec_level - 1 })

/-- Loop body of `simple_block_consumer` (css_parser.cxx lines 285-304): stop on the
expected end token (consumed and discarded), set the eof flag and stop on eof, skip
whitespace, push anything else back and run the component-value consumer on the
target block. -/
def simple_block_consumer_loop : Nat → parser_state → css_consumed_block → token_type →
    consumer_result
  | 0, s, top, _ => nesting_failure s top
  | fuel + 1, s, top, expected_end =>
    if s.eof then (true, top, s)
    else
      match s.next_token with
      | (t, s1) =>
        if t.type = expected_end then (true, top, s1)
        else
          match t.type with
          | .eof_token => (true, top, { s1 with eof := true })
          | .whitespace_token => simple_block_consumer_loop fuel s1 top expected_end
          | _ =>
            match component_value_consumer_fuel fuel (s1.pushback_token t) top with
            | (ret, top1, s2) =>
              if ret then simple_block_consumer_loop fuel s2 top1 expected_end
              else (ret, top1, s2)
end

/-- Loop body of `css_parser::qualified_rule_consumer` (css_parser.cxx lines
334-363): eof sets the flag and stops; cdo/cdc are discarded (the source checks the
caller's tag but both arms are no-ops); `{` runs the simple-block consumer with
`consume_current = false` and stops wanting more; whitespace is skipped; anything
else is pushed back into the component-value consumer on the rule node. -/
def qualified_rule_consumer_loop : Nat → parser_state → css_consumed_block →
    consumer_result
  | 0, s, block => nesting_failure s block
  | fuel + 1, s, block =>
    if s.eof then (true, block, s)
    else
      match s.next_token with
      | (t, s1) =>
        match t.type with
        | .eof_token => (true, block, { s1 with eof := true })
        | .cdo_token => qualified_rule_consumer_loop fuel s1 block
        | .cdc_token => qualified_rule_consumer_loop fuel s1 block
        | .ocurlbrace_token =>
          simple_block_consumer_fuel fuel s1 block .ecurlbrace_token false
        | .whitespace_token => qualified_rule_consumer_loop fuel s1 block
        | _ =>
          match component_value_consumer_fuel fuel (s1.pushback_token t) block with
          | (ret, block1, s2) =>
            if ret then qualified_rule_consumer_loop fuel s2 block1 else (ret, block1, s2)

/-- `css_parser::qualified_rule_consumer` (css_parser.cxx lines 319-376): recursion
guard, fresh `css_qualified_rule` node, loop, then attach to the caller's node only
when that node's tag is `css_top_block`, and decrement on exit. -/
def qualified_rule_consumer_fuel : Nat → parser_state → css_consumed_block →
    consumer_result
  | 0, s, top => nesting_failure s top
  | fuel + 1, s, top =>
    if s.rec_level + 1 > max_rec then nesting_failure s top
    else
      match qualified_rule_consumer_loop fuel { s with rec_level := s.rec_level + 1 }
          (.mk .css_qualified_rule .monostate) with
      | (ret, block1, s2) =>
        let top1 :=
          if ret then
            if top.tag = parser_tag_type.css_top_block then (top.attach_block block1).2
            else top
          else top
        (ret, top1, { s2 with rec_level := s2.rec_level - 1 })

/-- Loop body of `css_parser::at_rule_consumer` (css_parser.cxx lines 393-425):
identical to the qualified-rule loop plus the `semicolon` terminator. -/
def at_rule_consumer_loop : Nat → parser_state → css_consumed_block → consumer_result
  | 0, s, block => nesting_failure s block
  | fuel + 1, s, block =>
    if s.eof then (true, block, s)
    else
      match s.next_token with
      | (t, s1) =>
        match t.type with
        | .eof_token => (true, block, { s1 with eof := true })
        | .cdo_token => at_rule_consumer_loop fuel s1 block
        | .cdc_token => at_rule_consumer_loop fuel s1 block
        | .ocurlbrace_token =>
          simple_block_consumer_fuel fuel s1 block .ecurlbrace_token false
        | .whitespace_token => at_rule_consumer_loop fuel s1 block
        | .semicolon_token => (true, block, s1)
        | _ =>
          match component_value_consumer_fuel fuel (s1.pushback_token t) block with
          | (ret, block1, s2) =>
            if ret then at_rule_consumer_loop fuel s2 block1 else (ret, block1, s2)

/-- `css_parser::at_rule_consumer` (css_parser.cxx lines 378-438): recursion guard,
fresh `css_at_rule` node, loop, attach to the caller's node only when its tag is
`css_top_block`, decrement on exit. -/
def at_rule_consumer_fuel : Nat → parser_state → css_consumed_block → consumer_result
  | 0, s, top => nesting_failure s top
  | fuel + 1, s, top =>
    if s.rec_level + 1 > max_rec then nesting_failure s top
    else
      match at_rule_consumer_loop fuel { s with rec_level := s.rec_level + 1 }
          (.mk .css_at_rule .monostate) with
      | (ret, block1, s2) =>
        let top1 :=
          if ret then
            if top.tag = parser_tag_type.css_top_block then (top.attach_block block1).2
            else top
          else top
        (ret, top1, { s2 with rec_level := s2.rec_level - 1 })

/-- Loop of `css_parser::consume_css_blocks` (css_parser.cxx lines 526-546):
whitespace skipped, eof sets the flag and stops, an `at_keyword` is pushed back into
the at-rule consumer, anything else into the qualified-rule consumer; the loop stops
when a consumer reports failure. -/
def consume_css_blocks_loop : Nat → parser_state → css_consumed_block →
    css_consumed_block × parser_state
  | 0, s, top => (top, s)
  | fuel + 1, s, top =>
    if s.eof then (top, s)
    else
      match s.next_token with
      | (t, s1) =>
        match t.type with
        | .whitespace_token => consume_css_blocks_loop fuel s1 top
        | .eof_token => (top, { s1 with eof := true })
        | .at_keyword_token =>
          match at_rule_consumer_fuel fuel (s1.pushback_token t) top with
          | (ret, top1, s2) =>
            if ret then consume_css_blocks_loop fuel s2 top1 else (top1, s2)
        | _ =>
          match qualified_rule_consumer_fuel fuel (s1.pushback_token t) top with
          | (ret, top1, s2) =>
            if ret then consume_css_blocks_loop fuel s2 top1 else (top1, s2)

/-- Fuel supplied by the public wrappers: strictly more than the longest chain of
consumer activations between two token consumptions ever needs. -/
def parse_fuel (s : parser_state) : Nat := 8 * s.remaining + 8

/-- A fresh parser over an input token stream (css_parser.cxx line 149, 169-171). -/
def initial_state (input : List css_parser_token) : parser_state :=
  { tokeniser := { tokens := input, pushback := none },
    rec_level := 0, eof := false, error := none }

/-- `css_parser::consume_css_blocks` (css_parser.cxx lines 517-551): build the
`css_top_block` tree from a fresh parser over the input; also returns the final
parser state (recursion counter, eof flag, recorded error). -/
def consume_css_blocks (input : List css_parser_token) :
    css_consumed_block × parser_state :=
  let s := initial_state input
  consume_css_blocks_loop (parse_fuel s) s (.mk .css_top_block .monostate)

def component_value_consumer (s : parser_state) (top : css_consumed_block) :
    consumer_result :=
  component_value_consumer_fuel (parse_fuel s) s top

def function_consumer (s : parser_state) (top : css_consumed_block) : consumer_result :=
  function_consumer_fuel (parse_fuel s) s top

def simple_block_consumer (s : parser_state) (top : css_consumed_block)
    (expected_end : token_type) (consume_current : Bool) : consumer_result :=
  simple_block_consumer_fuel (parse_fuel s) s top expected_end consume_current

def qualified_rule_consumer (s : parser_state) (top : css_consumed_block) :
    consumer_result :=
  qualified_rule_consumer_fuel (parse_fuel s) s top

def at_rule_consumer (s : parser_state) (top : css_consumed_block) : consumer_result :=
  at_rule_consumer_fuel (parse_fuel s) s top

/-- The structural filter of the rule assembler (css_parser.cxx lines 568-577): a
top-level rule is examined further only when it has more than one child, its first
child is a `css_component`, and some child is a `css_simple_block`. -/
def consume_input_rule_filter (rule : css_consumed_block) : Bool :=
  let children := rule.get_blocks_or_empty
  decide (children.length > 1) &&
    (match children.head? with
     | some c0 => c0.tag = parser_tag_type.css_component
     | none => false) &&
    children.any (fun bl => decide (bl.tag = parser_tag_type.css_simple_block))

/-- `css_parser::consume_input` (css_parser.cxx lines 553-644).  Its boolean result
is `false` exactly when the consumed tree has no top-level children (line 558);
otherwise a style sheet object is created and `true` is returned.  The population of
the style sheet runs the external selector/declaration parsers
(`process_selector_tokens`, `process_declaration_tokens`, not under src/) and does
not influence the return value, so only the boolean and the parser state are
modelled. -/
def consume_input (input : List css_parser_token) : Bool × parser_state :=
  match consume_css_blocks input with
  | (consumed_blocks, s) => (!consumed_blocks.get_blocks_or_empty.isEmpty, s)

/-- The produced style sheet; its contents are external to the core (spec §3), and no
claim inspects them, so it carries no data. -/
structure css_style_sheet where
  deriving DecidableEq, Repr

/-- `parse_css` (css_parser.cxx lines 683-694): on `consume_input` success the style
object is returned (`get_object_maybe` takes the style-object branch, since
`consume_input` only returns true after creating it); otherwise a fresh
`INVALID_SYNTAX` error with message "cannot parse input" is returned — the error
recorded inside the parser is not consulted on this path. -/
def parse_css (input : List css_parser_token) :
    Except css_parse_error css_style_sheet :=
  if (consume_input input).1 then Except.ok {}
  else Except.error { type := .PARSE_ERROR_INVALID_SYNTAX, description := "cannot parse input" }

/-- The error kind of a parse result, if any. -/
def parse_error_kind : Except css_parse_error css_style_sheet →
    Option css_parse_error_type
  | .error e => some e.type
  | .ok _ => none

/-- `get_selectors_parser_functor` (css_parser.cxx lines 646-677): consumes the
blocks of the input and iterates over the children of the *first* top-level rule.
The C++ dereferences `rules.begin()` without checking that a first rule exists
(undefined behaviour on an empty child list); the embedded access is an `Option`,
`none` when the lookup is out of bounds.  The returned functor's output sequence is
exactly that child list, so the list stands for the functor. -/
def get_selectors_parser_functor (input : List css_parser_token) :
    Option (List css_consumed_block) :=
  match consume_css_blocks input with
  | (consumed_blocks, _) =>
    match consumed_blocks.get_blocks_or_empty.head? with
    | some first_rule => some first_rule.get_blocks_or_empty
    | none => none

/-! ## Basic facts about the tokenizer and the parser state -/

theorem css_parser_eof_token_type : css_parser_eof_token.type = token_type.eof_token := rfl

/-- Pulling a token keeps the counter, error and eof flag; it empties the pushback
slot; and it either consumes one unit of the budget or yields the synthetic eof on an
exhausted stream. -/
theorem next_token_spec (s : parser_state) (t : css_parser_token) (s1 : parser_state)
    (h : s.next_token = (t, s1)) :
    s1.rec_level = s.rec_level ∧ s1.error = s.error ∧ s1.eof = s.eof ∧
      s1.tokeniser.pushback = none ∧
      (s1.remaining + 1 = s.remaining ∨
        (t = css_parser_eof_token ∧ s1 = s ∧ s.remaining = 0 ∧
          s.tokeniser.pushback = none)) := by
  rcases s with ⟨⟨ts, pb⟩, rec, eo, err⟩
  rcases pb with _ | pt
  · rcases ts with _ | ⟨t0, ts⟩
    · simp only [parser_state.next_token, css_tokeniser.next_token, Prod.mk.injEq] at h
      obtain ⟨rfl, rfl⟩ := h
      simp [parser_state.remaining, css_tokeniser.remaining]
    · simp only [parser_state.next_token, css_tokeniser.next_token, Prod.mk.injEq] at h
      obtain ⟨rfl, rfl⟩ := h
      simp [parser_state.remaining, css_tokeniser.remaining]
  · simp only [parser_state.next_token, css_tokeniser.next_token, Prod.mk.injEq] at h
    obtain ⟨rfl, rfl⟩ := h
    simp [parser_state.remaining, css_tokeniser.remaining]

theorem next_token_consumes (s : parser_state) (t : css_parser_token) (s1 : parser_state)
    (h : s.next_token = (t, s1)) (ht : t.type ≠ token_type.eof_token) :
    s1.remaining + 1 = s.remaining := by
  rcases (next_token_spec s t s1 h).2.2.2.2 with h1 | ⟨rfl, _⟩
  · exact h1
  · exact absurd css_parser_eof_token_type ht

theorem pushback_token_spec (s : parser_state) (t : css_parser_token) :
    (s.pushback_token t).rec_level = s.rec_level ∧
      (s.pushback_token t).error = s.error ∧ (s.pushback_token t).eof = s.eof ∧
      (s.pushback_token t).tokeniser.pushback = some t ∧
      (s.pushback_token t).remaining = s.tokeniser.tokens.length + 1 := by
  rcases s with ⟨⟨ts, pb⟩, rec, eo, err⟩
  simp [parser_state.pushback_token, css_tokeniser.pushback_token,
    parser_state.remaining, css_tokeniser.remaining]

/-- Pulling a real token and pushing it straight back restores the budget exactly. -/
theorem pushback_after_next (s : parser_state) (t : css_parser_token) (s1 : parser_state)
    (h : s.next_token = (t, s1)) (ht : t.type ≠ token_type.eof_token) :
    (s1.pushback_token t).remaining = s.remaining ∧
      (s1.pushback_token t).rec_level = s.rec_level ∧
      (s1.pushback_token t).error = s.error ∧
      (s1.pushback_token t).eof = s.eof := by
  obtain ⟨hrec, herr, heof, hpb, _⟩ := next_token_spec s t s1 h
  have hcons := next_token_consumes s t s1 h ht
  obtain ⟨prec, perr, peof, _, prem⟩ := pushback_token_spec s1 t
  refine ⟨?_, by rw [prec, hrec], by rw [perr, herr], by rw [peof, heof]⟩
  have : s1.remaining = s1.tokeniser.tokens.length := by
    simp [parser_state.remaining, css_tokeniser.remaining, hpb]
  omega

theorem mu_le_of_next (s : parser_state) (t : css_parser_token) (s1 : parser_state)
    (h : s.next_token = (t, s1)) : s1.mu ≤ s.mu := by
  obtain ⟨_, _, heof, _, hrem⟩ := next_token_spec s t s1 h
  rcases hrem with h1 | ⟨_, rfl, _⟩
  · simp only [parser_state.mu, heof]; omega
  · exact le_rfl

/-! ## Single-step equations for the fuel-indexed consumers

These restate each branch of each consumer as a conditional rewrite, so the later
inductions never have to re-unfold the bodies. -/

theorem function_consumer_loop_eof_flag (fuel : Nat) (s : parser_state)
    (top : css_consumed_block) (hE : s.eof = true) :
    function_consumer_loop (fuel + 1) s top = (top, s) := by
  simp [function_consumer_loop, hE]

theorem function_consumer_loop_eof (fuel : Nat) (s : parser_state)
    (top : css_consumed_block) (t : css_parser_token) (s1 : parser_state)
    (hE : s.eof = false) (hnt : s.next_token = (t, s1))
    (ht : t.type = token_type.eof_token) :
    function_consumer_loop (fuel + 1) s top = (top, { s1 with eof := true }) := by
  rcases t with ⟨ty, v⟩
  cases ty <;> simp_all [function_consumer_loop]

theorem function_consumer_loop_skip (fuel : Nat) (s : parser_state)
    (top : css_consumed_block) (t : css_parser_token) (s1 : parser_state)
    (hE : s.eof = false) (hnt : s.next_token = (t, s1))
    (ht : t.type = token_type.whitespace_token ∨ t.type = token_type.comma_token ∨
      t.type = token_type.delim_token ∨ t.type = token_type.obrace_token) :
    function_consumer_loop (fuel + 1) s top = function_consumer_loop fuel s1 top := by
  rcases t with ⟨ty, v⟩
  cases ty <;> simp_all [function_consumer_loop]

theorem function_consumer_loop_ebrace (fuel : Nat) (s : parser_state)
    (top : css_consumed_block) (t : css_parser_token) (s1 : parser_state)
    (hE : s.eof = false) (hnt : s.next_token = (t, s1))
    (ht : t.type = token_type.ebrace_token) :
    function_consumer_loop (fuel + 1) s top = (top, s1) := by
  rcases t with ⟨ty, v⟩
  cases ty <;> simp_all [function_consumer_loop]

theorem function_consumer_loop_arg (fuel : Nat) (s : parser_state)
    (top : css_consumed_block) (t : css_parser_token) (s1 : parser_state)
    (hE : s.eof = false) (hnt : s.next_token = (t, s1))
    (h1 : t.type ≠ token_type.eof_token) (h2 : t.type ≠ token_type.whitespace_token)
    (h3 : t.type ≠ token_type.ebrace_token) (h4 : t.type ≠ token_type.comma_token)
    (h5 : t.type ≠ token_type.delim_token) (h6 : t.type ≠ token_type.obrace_token) :
    function_consumer_loop (fuel + 1) s top =
      function_consumer_loop fuel s1
        (top.add_function_argument (.mk .css_function_arg (.token t))).2 := by
  rcases t with ⟨ty, v⟩
  cases ty <;> simp_all [function_consumer_loop]

theorem function_consumer_fuel_guard (fuel : Nat) (s : parser_state)
    (top : css_consumed_block) (hG : s.rec_level + 1 > max_rec) :
    function_consumer_fuel (fuel + 1) s top = nesting_failure s top := by
  simp [function_consumer_fuel, hG]

theorem function_consumer_fuel_succ (fuel : Nat) (s : parser_state)
    (top top1 : css_consumed_block) (s2 : parser_state)
    (hG : ¬ s.rec_level + 1 > max_rec)
    (hL : function_consumer_loop fuel { s with rec_level := s.rec_level + 1 } top =
      (top1, s2)) :
    function_consumer_fuel (fuel + 1) s top =
      (true, top1, { s2 with rec_level := s2.rec_level - 1 }) := by
  simp [function_consumer_fuel, hG, hL]

theorem component_value_consumer_fuel_guard (fuel : Nat) (s : parser_state)
    (top : css_consumed_block) (hG : s.rec_level + 1 > max_rec) :
    component_value_consumer_fuel (fuel + 1) s top = nesting_failure s top := by
  simp [component_value_consumer_fuel, hG]

theorem component_value_consumer_fuel_succ (fuel : Nat) (s : parser_state)
    (top top1 : css_consumed_block) (ret : Bool) (s2 : parser_state)
    (hG : ¬ s.rec_level + 1 > max_rec)
    (hL : component_value_consumer_loop fuel { s with rec_level := s.rec_level + 1 } top =
      (ret, top1, s2)) :
    component_value_consumer_fuel (fuel + 1) s top =
      (ret, top1, { s2 with rec_level := s2.rec_level - 1 }) := by
  simp [component_value_consumer_fuel, hG, hL]

theorem component_value_consumer_loop_eof_flag (fuel : Nat) (s : parser_state)
    (top : css_consumed_block) (hE : s.eof = true) :
    component_value_consumer_loop (fuel + 1) s top = (true, top, s) := by
  simp [component_value_consumer_loop, hE]

theorem component_value_consumer_loop_eof (fuel : Nat) (s : parser_state)
    (top : css_consumed_block) (t : css_parser_token) (s1 : parser_state)
    (hE : s.eof = false) (hnt : s.next_token = (t, s1))
    (ht : t.type = token_type.eof_token) :
    component_value_consumer_loop (fuel + 1) s top =
      (true, top, { s1 with eof := true }) := by
  rcases t with ⟨ty, v⟩
  cases ty <;> simp_all [component_value_consumer_loop]

theorem component_value_consumer_loop_ws (fuel : Nat) (s : parser_state)
    (top : css_consumed_block) (t : css_parser_token) (s1 : parser_state)
    (hE : s.eof = false) (hnt : s.next_token = (t, s1))
    (ht : t.type = token_type.whitespace_token) :
    component_value_consumer_loop (fuel + 1) s top =
      component_value_consumer_loop fuel s1 top := by
  rcases t with ⟨ty, v⟩
  cases ty <;> simp_all [component_value_consumer_loop]

theorem component_value_consumer_loop_ocurl (fuel : Nat) (s : parser_state)
    (top block1 : css_consumed_block) (t : css_parser_token) (s1 s2 : parser_state)
    (ret : Bool) (hE : s.eof = false) (hnt : s.next_token = (t, s1))
    (ht : t.type = token_type.ocurlbrace_token)
    (hS : simple_block_consumer_fuel fuel s1 (.mk .css_simple_block .monostate)
      .ecurlbrace_token true = (ret, block1, s2)) :
    component_value_consumer_loop (fuel + 1) s top =
      if ret then (ret, (top.attach_block block1).2, s2) else (ret, top, s2) := by
  rcases t with ⟨ty, v⟩
  cases ty <;> simp_all [component_value_consumer_loop]

theorem component_value_consumer_loop_obrace (fuel : Nat) (s : parser_state)
    (top block1 : css_consumed_block) (t : css_parser_token) (s1 s2 : parser_state)
    (ret : Bool) (hE : s.eof = false) (hnt : s.next_token = (t, s1))
    (ht : t.type = token_type.obrace_token)
    (hS : simple_block_consumer_fuel fuel s1 (.mk .css_simple_block .monostate)
      .ebrace_token true = (ret, block1, s2)) :
    component_value_consumer_loop (fuel + 1) s top =
      if ret then (ret, (top.attach_block block1).2, s2) else (ret, top, s2) := by
  rcases t with ⟨ty, v⟩
  cases ty <;> simp_all [component_value_consumer_loop]

theorem component_value_consumer_loop_osqbrace (fuel : Nat) (s : parser_state)
    (top block1 : css_consumed_block) (t : css_parser_token) (s1 s2 : parser_state)
    (ret : Bool) (hE : s.eof = false) (hnt : s.next_token = (t, s1))
    (ht : t.type = token_type.osqbrace_token)
    (hS : simple_block_consumer_fuel fuel s1 (.mk .css_simple_block .monostate)
      .esqbrace_token true = (ret, block1, s2)) :
    component_value_consumer_loop (fuel + 1) s top =
      if ret then (ret, (top.attach_block block1).2, s2) else (ret, top, s2) := by
  rcases t with ⟨ty, v⟩
  cases ty <;> simp_all [component_value_consumer_loop]

theorem component_value_consumer_loop_function (fuel : Nat) (s : parser_state)
    (top block1 : css_consumed_block) (t : css_parser_token) (s1 s2 : parser_state)
    (ret : Bool) (hE : s.eof = false) (hnt : s.next_token = (t, s1))
    (ht : t.type = token_type.function_token)
    (hF : function_consumer_fuel fuel s1 (.mk .css_function (.func (.mk t []))) =
      (ret, block1, s2)) :
    component_value_consumer_loop (fuel + 1) s top =
      if ret then (ret, (top.attach_block block1).2, s2) else (ret, top, s2) := by
  rcases t with ⟨ty, v⟩
  cases ty <;> simp_all [component_value_consumer_loop]

theorem component_value_consumer_loop_component (fuel : Nat) (s : parser_state)
    (top : css_consumed_block) (t : css_parser_token) (s1 : parser_state)
    (hE : s.eof = false) (hnt : s.next_token = (t, s1))
    (h1 : t.type ≠ token_type.eof_token) (h2 : t.type ≠ token_type.whitespace_token)
    (h3 : t.type ≠ token_type.ocurlbrace_token) (h4 : t.type ≠ token_type.obrace_token)
    (h5 : t.type ≠ token_type.osqbrace_token) (h6 : t.type ≠ token_type.function_token) :
    component_value_consumer_loop (fuel + 1) s top =
      (true, (top.attach_block (.mk .css_component (.token t))).2, s1) := by
  rcases t with ⟨ty, v⟩
  cases ty <;> simp_all [component_value_consumer_loop]

theorem simple_block_consumer_fuel_cc (fuel : Nat) (s : parser_state)
    (top : css_consumed_block) (expected_end : token_type) :
    simple_block_consumer_fuel (fuel + 1) s top expected_end true =
      simple_block_consumer_loop fuel s top expected_end := by
  simp [simple_block_consumer_fuel]

theorem simple_block_consumer_fuel_guard (fuel : Nat) (s : parser_state)
    (top : css_consumed_block) (expected_end : token_type)
    (hG : s.rec_level + 1 > max_rec) :
    simple_block_consumer_fuel (fuel + 1) s top expected_end false =
      nesting_failure s top := by
  simp [simple_block_consumer_fuel, hG]

theorem simple_block_consumer_fuel_succ (fuel : Nat) (s : parser_state)
    (top block1 : css_consumed_block) (expected_end : token_type) (ret : Bool)
    (s2 : parser_state) (hG : ¬ s.rec_level + 1 > max_rec)
    (hL : simple_block_consumer_loop fuel { s with rec_level := s.rec_level + 1 }
      (.mk .css_simple_block .monostate) expected_end = (ret, block1, s2)) :
    simple_block_consumer_fuel (fuel + 1) s top expected_end false =
      (ret, if ret then (top.attach_block block1).2 else top,
        { s2 with rec_level := s2.rec_level - 1 }) := by
  simp [simple_block_consumer_fuel, hG, hL]

theorem simple_block_consumer_loop_eof_flag (fuel : Nat) (s : parser_state)
    (top : css_consumed_block) (expected_end : token_type) (hE : s.eof = true) :
    simple_block_consumer_loop (fuel + 1) s top expected_end = (true, top, s) := by
  simp [simple_block_consumer_loop, hE]

theorem simple_block_consumer_loop_end (fuel : Nat) (s : parser_state)
    (top : css_consumed_block) (expected_end : token_type) (t : css_parser_token)
    (s1 : parser_state) (hE : s.eof = false) (hnt : s.next_token = (t, s1))
    (ht : t.type = expected_end) :
    simple_block_consumer_loop (fuel + 1) s top expected_end = (true, top, s1) := by
  simp [simple_block_consumer_loop, hE, hnt, ht]

theorem simple_block_consumer_loop_eof (fuel : Nat) (s : parser_state)
    (top : css_consumed_block) (expected_end : token_type) (t : css_parser_token)
    (s1 : parser_state) (hE : s.eof = false) (hnt : s.next_token = (t, s1))
    (ht : t.type = token_type.eof_token) (hne : t.type ≠ expected_end) :
    simple_block_consumer_loop (fuel + 1) s top expected_end =
      (true, top, { s1 with eof := true }) := by
  rcases t with ⟨ty, v⟩
  cases ty <;> simp_all [simple_block_consumer_loop]

theorem simple_block_consumer_loop_ws (fuel : Nat) (s : parser_state)
    (top : css_consumed_block) (expected_end : token_type) (t : css_parser_token)
    (s1 : parser_state) (hE : s.eof = false) (hnt : s.next_token = (t, s1))
    (ht : t.type = token_type.whitespace_token) (hne : t.type ≠ expected_end) :
    simple_block_consumer_loop (fuel + 1) s top expected_end =
      simple_block_consumer_loop fuel s1 top expected_end := by
  rcases t with ⟨ty, v⟩
  cases ty <;> simp_all [simple_block_consumer_loop]

theorem simple_block_consumer_loop_component (fuel : Nat) (s : parser_state)
    (top top1 : css_consumed_block) (expected_end : token_type) (t : css_parser_token)
    (s1 s2 : parser_state) (ret : Bool) (hE : s.eof = false)
    (hnt : s.next_token = (t, s1)) (hne : t.type ≠ expected_end)
    (h1 : t.type ≠ token_type.eof_token) (h2 : t.type ≠ token_type.whitespace_token)
    (hC : component_value_consumer_fuel fuel (s1.pushback_token t) top =
      (ret, top1, s2)) :
    simple_block_consumer_loop (fuel + 1) s top expected_end =
      if ret then simple_block_consumer_loop fuel s2 top1 expected_end
      else (ret, top1, s2) := by
  rcases t with ⟨ty, v⟩
  cases ty <;> simp_all [simple_block_consumer_loop]

theorem qualified_rule_consumer_fuel_guard (fuel : Nat) (s : parser_state)
    (top : css_consumed_block) (hG : s.rec_level + 1 > max_rec) :
    qualified_rule_consumer_fuel (fuel + 1) s top = nesting_failure s top := by
  simp [qualified_rule_consumer_fuel, hG]

theorem qualified_rule_consumer_fuel_succ (fuel : Nat) (s : parser_state)
    (top block1 : css_consumed_block) (ret : Bool) (s2 : parser_state)
    (hG : ¬ s.rec_level + 1 > max_rec)
    (hL : qualified_rule_consumer_loop fuel { s with rec_level := s.rec_level + 1 }
      (.mk .css_qualified_rule .monostate) = (ret, block1, s2)) :
    qualified_rule_consumer_fuel (fuel + 1) s top =
      (ret,
        if ret then
          if top.tag = parser_tag_type.css_top_block then (top.attach_block block1).2
          else top
        else top,
        { s2 with rec_level := s2.rec_level - 1 }) := by
  simp [qualified_rule_consumer_fuel, hG, hL]

theorem qualified_rule_consumer_loop_eof_flag (fuel : Nat) (s : parser_state)
    (block : css_consumed_block) (hE : s.eof = true) :
    qualified_rule_consumer_loop (fuel + 1) s block = (true, block, s) := by
  simp [qualified_rule_consumer_loop, hE]

theorem qualified_rule_consumer_loop_eof (fuel : Nat) (s : parser_state)
    (block : css_consumed_block) (t : css_parser_token) (s1 : parser_state)
    (hE : s.eof = false) (hnt : s.next_token = (t, s1))
    (ht : t.type = token_type.eof_token) :
    qualified_rule_consumer_loop (fuel + 1) s block =
      (true, block, { s1 with eof := true }) := by
  rcases t with ⟨ty, v⟩
  cases ty <;> simp_all [qualified_rule_consumer_loop]

theorem qualified_rule_consumer_loop_skip (fuel : Nat) (s : parser_state)
    (block : css_consumed_block) (t : css_parser_token) (s1 : parser_state)
    (hE : s.eof = false) (hnt : s.next_token = (t, s1))
    (ht : t.type = token_type.cdo_token ∨ t.type = token_type.cdc_token ∨
      t.type = token_type.whitespace_token) :
    qualified_rule_consumer_loop (fuel + 1) s block =
      qualified_rule_consumer_loop fuel s1 block := by
  rcases t with ⟨ty, v⟩
  cases ty <;> simp_all [qualified_rule_consumer_loop]

theorem qualified_rule_consumer_loop_ocurl (fuel : Nat) (s : parser_state)
    (block : css_consumed_block) (t : css_parser_token) (s1 : parser_state)
    (hE : s.eof = false) (hnt : s.next_token = (t, s1))
    (ht : t.type = token_type.ocurlbrace_token) :
    qualified_rule_consumer_loop (fuel + 1) s block =
      simple_block_consumer_fuel fuel s1 block .ecurlbrace_token false := by
  rcases t with ⟨ty, v⟩
  cases ty <;> simp_all [qualified_rule_consumer_loop]

theorem qualified_rule_consumer_loop_component (fuel : Nat) (s : parser_state)
    (block block1 : css_consumed_block) (t : css_parser_token) (s1 s2 : parser_state)
    (ret : Bool) (hE : s.eof = false) (hnt : s.next_token = (t, s1))
    (h1 : t.type ≠ token_type.eof_token) (h2 : t.type ≠ token_type.cdo_token)
    (h3 : t.type ≠ token_type.cdc_token) (h4 : t.type ≠ token_type.ocurlbrace_token)
    (h5 : t.type ≠ token_type.whitespace_token)
    (hC : component_value_consumer_fuel fuel (s1.pushback_token t) block =
      (ret, block1, s2)) :
    qualified_rule_consumer_loop (fuel + 1) s block =
      if ret then qualified_rule_consumer_loop fuel s2 block1 else (ret, block1, s2) := by
  rcases t with ⟨ty, v⟩
  cases ty <;> simp_all [qualified_rule_consumer_loop]

theorem at_rule_consumer_fuel_guard (fuel : Nat) (s : parser_state)
    (top : css_consumed_block) (hG : s.rec_level + 1 > max_rec) :
    at_rule_consumer_fuel (fuel + 1) s top = nesting_failure s top := by
  simp [at_rule_consumer_fuel, hG]

theorem at_rule_consumer_fuel_succ (fuel : Nat) (s : parser_state)
    (top block1 : css_consumed_block) (ret : Bool) (s2 : parser_state)
    (hG : ¬ s.rec_level + 1 > max_rec)
    (hL : at_rule_consumer_loop fuel { s with rec_level := s.rec_level + 1 }
      (.mk .css_at_rule .monostate) = (ret, block1, s2)) :
    at_rule_consumer_fuel (fuel + 1) s top =
      (ret,
        if ret then
          if top.tag = parser_tag_type.css_top_block then (top.attach_block block1).2
          else top
        else top,
        { s2 with rec_level := s2.rec_level - 1 }) := by
  simp [at_rule_consumer_fuel, hG, hL]

theorem at_rule_consumer_loop_eof_flag (fuel : Nat) (s : parser_state)
    (block : css_consumed_block) (hE : s.eof = true) :
    at_rule_consumer_loop (fuel + 1) s block = (true, block, s) := by
  simp [at_rule_consumer_loop, hE]

theorem at_rule_consumer_loop_eof (fuel : Nat) (s : parser_state)
    (block : css_consumed_block) (t : css_parser_token) (s1 : parser_state)
    (hE : s.eof = false) (hnt : s.next_token = (t, s1))
    (ht : t.type = token_type.eof_token) :
    at_rule_consumer_loop (fuel + 1) s block =
      (true, block, { s1 with eof := true }) := by
  rcases t with ⟨ty, v⟩
  cases ty <;> simp_all [at_rule_consumer_loop]

theorem at_rule_consumer_loop_skip (fuel : Nat) (s : parser_state)
    (block : css_consumed_block) (t : css_parser_token) (s1 : parser_state)
    (hE : s.eof = false) (hnt : s.next_token = (t, s1))
    (ht : t.type = token_type.cdo_token ∨ t.type = token_type.cdc_token ∨
      t.type = token_type.whitespace_token) :
    at_rule_consumer_loop (fuel + 1) s block =
      at_rule_consumer_loop fuel s1 block := by
  rcases t with ⟨ty, v⟩
  cases ty <;> simp_all [at_rule_consumer_loop]

theorem at_rule_consumer_loop_ocurl (fuel : Nat) (s : parser_state)
    (block : css_consumed_block) (t : css_parser_token) (s1 : parser_state)
    (hE : s.eof = false) (hnt : s.next_token = (t, s1))
    (ht : t.type = token_type.ocurlbrace_token) :
    at_rule_consumer_loop (fuel + 1) s block =
      simple_block_consumer_fuel fuel s1 block .ecurlbrace_token false := by
  rcases t with ⟨ty, v⟩
  cases ty <;> simp_all [at_rule_consumer_loop]

theorem at_rule_consumer_loop_semicolon (fuel : Nat) (s : parser_state)
    (block : css_consumed_block) (t : css_parser_token) (s1 : parser_state)
    (hE : s.eof = false) (hnt : s.next_token = (t, s1))
    (ht : t.type = token_type.semicolon_token) :
    at_rule_consumer_loop (fuel + 1) s block = (true, block, s1) := by
  rcases t with ⟨ty, v⟩
  cases ty <;> simp_all [at_rule_consumer_loop]

theorem at_rule_consumer_loop_component (fuel : Nat) (s : parser_state)
    (block block1 : css_consumed_block) (t : css_parser_token) (s1 s2 : parser_state)
    (ret : Bool) (hE : s.eof = false) (hnt : s.next_token = (t, s1))
    (h1 : t.type ≠ token_type.eof_token) (h2 : t.type ≠ token_type.cdo_token)
    (h3 : t.type ≠ token_type.cdc_token) (h4 : t.type ≠ token_type.ocurlbrace_token)
    (h5 : t.type ≠ token_type.whitespace_token)
    (h6 : t.type ≠ token_type.semicolon_token)
    (hC : component_value_consumer_fuel fuel (s1.pushback_token t) block =
      (ret, block1, s2)) :
    at_rule_consumer_loop (fuel + 1) s block =
      if ret then at_rule_consumer_loop fuel s2 block1 else (ret, block1, s2) := by
  rcases t with ⟨ty, v⟩
  cases ty <;> simp_all [at_rule_consumer_loop]

theorem consume_css_blocks_loop_eof_flag (fuel : Nat) (s : parser_state)
    (top : css_consumed_block) (hE : s.eof = true) :
    consume_css_blocks_loop (fuel + 1) s top = (top, s) := by
  simp [consume_css_blocks_loop, hE]

theorem consume_css_blocks_loop_ws (fuel : Nat) (s : parser_state)
    (top : css_consumed_block) (t : css_parser_token) (s1 : parser_state)
    (hE : s.eof = false) (hnt : s.next_token = (t, s1))
    (ht : t.type = token_type.whitespace_token) :
    consume_css_blocks_loop (fuel + 1) s top = consume_css_blocks_loop fuel s1 top := by
  rcases t with ⟨ty, v⟩
  cases ty <;> simp_all [consume_css_blocks_loop]

theorem consume_css_blocks_loop_eof (fuel : Nat) (s : parser_state)
    (top : css_consumed_block) (t : css_parser_token) (s1 : parser_state)
    (hE : s.eof = false) (hnt : s.next_token = (t, s1))
    (ht : t.type = token_type.eof_token) :
    consume_css_blocks_loop (fuel + 1) s top = (top, { s1 with eof := true }) := by
  rcases t with ⟨ty, v⟩
  cases ty <;> simp_all [consume_css_blocks_loop]

theorem consume_css_blocks_loop_at (fuel : Nat) (s : parser_state)
    (top top1 : css_consumed_block) (t : css_parser_token) (s1 s2 : parser_state)
    (ret : Bool) (hE : s.eof = false) (hnt : s.next_token = (t, s1))
    (ht : t.type = token_type.at_keyword_token)
    (hA : at_rule_consumer_fuel fuel (s1.pushback_token t) top = (ret, top1, s2)) :
    consume_css_blocks_loop (fuel + 1) s top =
      if ret then consume_css_blocks_loop fuel s2 top1 else (top1, s2) := by
  rcases t with ⟨ty, v⟩
  cases ty <;> simp_all [consume_css_blocks_loop]

theorem consume_css_blocks_loop_qualified (fuel : Nat) (s : parser_state)
    (top top1 : css_consumed_block) (t : css_parser_token) (s1 s2 : parser_state)
    (ret : Bool) (hE : s.eof = false) (hnt : s.next_token = (t, s1))
    (h1 : t.type ≠ token_type.eof_token) (h2 : t.type ≠ token_type.whitespace_token)
    (h3 : t.type ≠ token_type.at_keyword_token)
    (hQ : qualified_rule_consumer_fuel fuel (s1.pushback_token t) top =
      (ret, top1, s2)) :
    consume_css_blocks_loop (fuel + 1) s top =
      if ret then consume_css_blocks_loop fuel s2 top1 else (top1, s2) := by
  rcases t with ⟨ty, v⟩
  cases ty <;> simp_all [consume_css_blocks_loop]

/-! ## The recursion-counter / error invariant

A successful invocation restores the recursion counter and leaves the recorded error
untouched; a failing invocation (the guard tripped in this frame or in a nested one)
returns with the counter one above its entry value — the fail-fast `return false`
skips the `--rec_level` — and with `BAD_NESTING` recorded. -/

/-- The counter/error contract of one bool-returning consumer invocation. -/
abbrev RecErr (s : parser_state) (r : consumer_result) : Prop :=
  (r.1 = true → r.2.2.rec_level = s.rec_level ∧ r.2.2.error = s.error) ∧
  (r.1 = false → r.2.2.rec_level = s.rec_level + 1 ∧
    r.2.2.error = some bad_nesting_error)

/-- The counter/error contract of the two loop drivers that return no bool. -/
abbrev RecErrState (s s2 : parser_state) : Prop :=
  (s2.rec_level = s.rec_level ∧ s2.error = s.error) ∨
    (s2.rec_level = s.rec_level + 1 ∧ s2.error = some bad_nesting_error)

theorem recErr_nesting_failure (s : parser_state) (top : css_consumed_block) :
    RecErr s (nesting_failure s top) :=
  ⟨fun h => by simp [nesting_failure] at h, fun _ => ⟨rfl, rfl⟩⟩

theorem RecErr.pack (s : parser_state) (b : Bool) (blk : css_consumed_block)
    (s2 : parser_state)
    (h1 : b = true → s2.rec_level = s.rec_level ∧ s2.error = s.error)
    (h2 : b = false → s2.rec_level = s.rec_level + 1 ∧
      s2.error = some bad_nesting_error) :
    RecErr s (b, blk, s2) :=
  ⟨h1, h2⟩

theorem RecErr.of_pre (s s1 : parser_state) (r : consumer_result)
    (hrec : s1.rec_level = s.rec_level) (herr : s1.error = s.error)
    (h : RecErr s1 r) : RecErr s r := by
  obtain ⟨a, b⟩ := h
  exact ⟨fun hh => ⟨(a hh).1.trans hrec, (a hh).2.trans herr⟩,
    fun hh => ⟨by rw [(b hh).1, hrec], (b hh).2⟩⟩

/-- RecErr for a successful invocation given directly. -/
theorem RecErr.ok (s : parser_state) (blk : css_consumed_block) (s2 : parser_state)
    (hrec : s2.rec_level = s.rec_level) (herr : s2.error = s.error) :
    RecErr s (true, blk, s2) :=
  ⟨fun _ => ⟨hrec, herr⟩, fun h => by simp at h⟩

/-- RecErr for a failing invocation given directly. -/
theorem RecErr.bad (s : parser_state) (blk : css_consumed_block) (s2 : parser_state)
    (hrec : s2.rec_level = s.rec_level + 1) (herr : s2.error = some bad_nesting_error) :
    RecErr s (false, blk, s2) :=
  ⟨fun h => by simp at h, fun _ => ⟨hrec, herr⟩⟩

theorem rec_error_all (fuel : Nat) :
    (∀ s top, (function_consumer_loop fuel s top).2.rec_level = s.rec_level ∧
      (function_consumer_loop fuel s top).2.error = s.error) ∧
    (∀ s top, RecErr s (function_consumer_fuel fuel s top)) ∧
    (∀ s top, RecErr s (component_value_consumer_fuel fuel s top)) ∧
    (∀ s top, RecErr s (component_value_consumer_loop fuel s top)) ∧
    (∀ s top ee cc, RecErr s (simple_block_consumer_fuel fuel s top ee cc)) ∧
    (∀ s top ee, RecErr s (simple_block_consumer_loop fuel s top ee)) ∧
    (∀ s top, RecErr s (qualified_rule_consumer_fuel fuel s top)) ∧
    (∀ s block, RecErr s (qualified_rule_consumer_loop fuel s block)) ∧
    (∀ s top, RecErr s (at_rule_consumer_fuel fuel s top)) ∧
    (∀ s block, RecErr s (at_rule_consumer_loop fuel s block)) ∧
    (∀ s top, RecErrState s (consume_css_blocks_loop fuel s top).2) := by
  induction fuel with
  | zero =>
    exact ⟨fun s top => ⟨rfl, rfl⟩,
      fun s top => recErr_nesting_failure s top,
      fun s top => recErr_nesting_failure s top,
      fun s top => recErr_nesting_failure s top,
      fun s top ee cc => recErr_nesting_failure s top,
      fun s top ee => recErr_nesting_failure s top,
      fun s top => recErr_nesting_failure s top,
      fun s block => recErr_nesting_failure s block,
      fun s top => recErr_nesting_failure s top,
      fun s block => recErr_nesting_failure s block,
      fun s top => Or.inl ⟨rfl, rfl⟩⟩
  | succ fuel ih =>
    obtain ⟨ihFL, ihFC, ihCV, ihCVL, ihSB, ihSBL, ihQR, ihQRL, ihAR, ihARL, ihCB⟩ := ih
    -- function consumer loop
    have AFL : ∀ s top, (function_consumer_loop (fuel + 1) s top).2.rec_level =
        s.rec_level ∧ (function_consumer_loop (fuel + 1) s top).2.error = s.error := by
      intro s top
      cases hE : s.eof with
      | true => rw [function_consumer_loop_eof_flag fuel s top hE]; exact ⟨rfl, rfl⟩
      | false =>
        rcases hnt : s.next_token with ⟨t, s1⟩
        obtain ⟨hrec, herr, heof, -, -⟩ := next_token_spec s t s1 hnt
        by_cases h1 : t.type = token_type.eof_token
        · rw [function_consumer_loop_eof fuel s top t s1 hE hnt h1]
          exact ⟨hrec, herr⟩
        · by_cases h2 : t.type = token_type.whitespace_token ∨
              t.type = token_type.comma_token ∨ t.type = token_type.delim_token ∨
              t.type = token_type.obrace_token
          · rw [function_consumer_loop_skip fuel s top t s1 hE hnt h2]
            obtain ⟨a, b⟩ := ihFL s1 top
            exact ⟨a.trans hrec, b.trans herr⟩
          · push_neg at h2
            obtain ⟨h2a, h2b, h2c, h2d⟩ := h2
            by_cases h3 : t.type = token_type.ebrace_token
            · rw [function_consumer_loop_ebrace fuel s top t s1 hE hnt h3]
              exact ⟨hrec, herr⟩
            · rw [function_consumer_loop_arg fuel s top t s1 hE hnt h1 h2a h3 h2b h2c h2d]
              obtain ⟨a, b⟩ := ihFL s1
                (top.add_function_argument (.mk .css_function_arg (.token t))).2
              exact ⟨a.trans hrec, b.trans herr⟩
    -- function consumer entry
    have AFC : ∀ s top, RecErr s (function_consumer_fuel (fuel + 1) s top) := by
      intro s top
      by_cases hG : s.rec_level + 1 > max_rec
      · rw [function_consumer_fuel_guard fuel s top hG]
        exact recErr_nesting_failure s top
      · rcases hL : function_consumer_loop fuel
            { s with rec_level := s.rec_level + 1 } top with ⟨top1, s2⟩
        rw [function_consumer_fuel_succ fuel s top top1 s2 hG hL]
        have hIH := ihFL { s with rec_level := s.rec_level + 1 } top
        rw [hL] at hIH
        have a1 : s2.rec_level = s.rec_level + 1 := hIH.1
        have a2 : s2.error = s.error := hIH.2
        exact RecErr.ok s top1 _ (show s2.rec_level - 1 = s.rec_level by omega) a2
    -- component value consumer entry
    have ACV : ∀ s top, RecErr s (component_value_consumer_fuel (fuel + 1) s top) := by
      intro s top
      by_cases hG : s.rec_level + 1 > max_rec
      · rw [component_value_consumer_fuel_guard fuel s top hG]
        exact recErr_nesting_failure s top
      · rcases hL : component_value_consumer_loop fuel
            { s with rec_level := s.rec_level + 1 } top with ⟨ret, top1, s2⟩
        rw [component_value_consumer_fuel_succ fuel s top top1 ret s2 hG hL]
        have hIH := ihCVL { s with rec_level := s.rec_level + 1 } top
        rw [hL] at hIH
        obtain ⟨a, b⟩ := hIH
        cases ret with
        | true =>
          have a1 : s2.rec_level = s.rec_level + 1 := (a rfl).1
          exact RecErr.ok s top1 _ (show s2.rec_level - 1 = s.rec_level by omega) (a rfl).2
        | false =>
          have b1 : s2.rec_level = s.rec_level + 2 := (b rfl).1
          exact RecErr.bad s top1 _
            (show s2.rec_level - 1 = s.rec_level + 1 by omega) (b rfl).2
    -- component value consumer loop
    have ACVL : ∀ s top, RecErr s (component_value_consumer_loop (fuel + 1) s top) := by
      intro s top
      cases hE : s.eof with
      | true =>
        rw [component_value_consumer_loop_eof_flag fuel s top hE]
        exact RecErr.ok s top s rfl rfl
      | false =>
        rcases hnt : s.next_token with ⟨t, s1⟩
        obtain ⟨hrec, herr, heof, -, -⟩ := next_token_spec s t s1 hnt
        by_cases h1 : t.type = token_type.eof_token
        · rw [component_value_consumer_loop_eof fuel s top t s1 hE hnt h1]
          exact RecErr.ok s top _ hrec herr
        by_cases h2 : t.type = token_type.whitespace_token
        · rw [component_value_consumer_loop_ws fuel s top t s1 hE hnt h2]
          exact RecErr.of_pre s s1 _ hrec herr (ihCVL s1 top)
        by_cases h3 : t.type = token_type.ocurlbrace_token
        · rcases hS : simple_block_consumer_fuel fuel s1
              (.mk .css_simple_block .monostate) .ecurlbrace_token true
            with ⟨ret, block1, s2⟩
          rw [component_value_consumer_loop_ocurl fuel s top block1 t s1 s2 ret hE hnt h3 hS]
          have hIH := ihSB s1 (.mk .css_simple_block .monostate) .ecurlbrace_token true
          rw [hS] at hIH
          obtain ⟨a, b⟩ := hIH
          cases ret with
          | true =>
            exact RecErr.ok s _ s2 ((a rfl).1.trans hrec) ((a rfl).2.trans herr)
          | false =>
            exact RecErr.bad s top s2 (by rw [(b rfl).1, hrec]) (b rfl).2
        by_cases h4 : t.type = token_type.obrace_token
        · rcases hS : simple_block_consumer_fuel fuel s1
              (.mk .css_simple_block .monostate) .ebrace_token true
            with ⟨ret, block1, s2⟩
          rw [component_value_consumer_loop_obrace fuel s top block1 t s1 s2 ret hE hnt h4 hS]
          have hIH := ihSB s1 (.mk .css_simple_block .monostate) .ebrace_token true
          rw [hS] at hIH
          obtain ⟨a, b⟩ := hIH
          cases ret with
          | true =>
            exact RecErr.ok s _ s2 ((a rfl).1.trans hrec) ((a rfl).2.trans herr)
          | false =>
            exact RecErr.bad s top s2 (by rw [(b rfl).1, hrec]) (b rfl).2
        by_cases h5 : t.type = token_type.osqbrace_token
        · rcases hS : simple_block_consumer_fuel fuel s1
              (.mk .css_simple_block .monostate) .esqbrace_token true
            with ⟨ret, block1, s2⟩
          rw [component_value_consumer_loop_osqbrace fuel s top block1 t s1 s2 ret hE hnt h5 hS]
          have hIH := ihSB s1 (.mk .css_simple_block .monostate) .esqbrace_token true
          rw [hS] at hIH
          obtain ⟨a, b⟩ := hIH
          cases ret with
          | true =>
            exact RecErr.ok s _ s2 ((a rfl).1.trans hrec) ((a rfl).2.trans herr)
          | false =>
            exact RecErr.bad s top s2 (by rw [(b rfl).1, hrec]) (b rfl).2
        by_cases h6 : t.type = token_type.function_token
        · rcases hF : function_consumer_fuel fuel s1
              (.mk .css_function (.func (.mk t []))) with ⟨ret, block1, s2⟩
          rw [component_value_consumer_loop_function fuel s top block1 t s1 s2 ret hE hnt h6 hF]
          have hIH := ihFC s1 (.mk .css_function (.func (.mk t [])))
          rw [hF] at hIH
          obtain ⟨a, b⟩ := hIH
          cases ret with
          | true =>
            exact RecErr.ok s _ s2 ((a rfl).1.trans hrec) ((a rfl).2.trans herr)
          | false =>
            exact RecErr.bad s top s2 (by rw [(b rfl).1, hrec]) (b rfl).2
        · rw [component_value_consumer_loop_component fuel s top t s1 hE hnt h1 h2 h3 h4 h5 h6]
          exact RecErr.ok s _ s1 hrec herr
    -- simple block consumer loop
    have ASBL : ∀ s top ee, RecErr s (simple_block_consumer_loop (fuel + 1) s top ee) := by
      intro s top ee
      cases hE : s.eof with
      | true =>
        rw [simple_block_consumer_loop_eof_flag fuel s top ee hE]
        exact RecErr.ok s top s rfl rfl
      | false =>
        rcases hnt : s.next_token with ⟨t, s1⟩
        obtain ⟨hrec, herr, heof, -, -⟩ := next_token_spec s t s1 hnt
        by_cases hend : t.type = ee
        · rw [simple_block_consumer_loop_end fuel s top ee t s1 hE hnt hend]
          exact RecErr.ok s top s1 hrec herr
        by_cases h1 : t.type = token_type.eof_token
        · rw [simple_block_consumer_loop_eof fuel s top ee t s1 hE hnt h1 hend]
          exact RecErr.ok s top _ hrec herr
        by_cases h2 : t.type = token_type.whitespace_token
        · rw [simple_block_consumer_loop_ws fuel s top ee t s1 hE hnt h2 hend]
          exact RecErr.of_pre s s1 _ hrec herr (ihSBL s1 top ee)
        · rcases hC : component_value_consumer_fuel fuel (s1.pushback_token t) top
            with ⟨ret, top1, s2⟩
          rw [simple_block_consumer_loop_component fuel s top top1 ee t s1 s2 ret hE hnt
            hend h1 h2 hC]
          obtain ⟨prem, prec, perr, peof⟩ := pushback_after_next s t s1 hnt h1
          have hIH := ihCV (s1.pushback_token t) top
          rw [hC] at hIH
          obtain ⟨a, b⟩ := hIH
          cases ret with
          | true =>
            exact RecErr.of_pre s s2 _ ((a rfl).1.trans prec) ((a rfl).2.trans perr)
              (ihSBL s2 top1 ee)
          | false =>
            exact RecErr.bad s top1 s2 (by rw [(b rfl).1, prec]) (b rfl).2
    -- simple block consumer entry
    have ASB : ∀ s top ee cc, RecErr s (simple_block_consumer_fuel (fuel + 1) s top ee cc) := by
      intro s top ee cc
      cases cc with
      | true =>
        rw [simple_block_consumer_fuel_cc fuel s top ee]
        exact ihSBL s top ee
      | false =>
        by_cases hG : s.rec_level + 1 > max_rec
        · rw [simple_block_consumer_fuel_guard fuel s top ee hG]
          exact recErr_nesting_failure s top
        · rcases hL : simple_block_consumer_loop fuel
              { s with rec_level := s.rec_level + 1 }
              (.mk .css_simple_block .monostate) ee with ⟨ret, block1, s2⟩
          rw [simple_block_consumer_fuel_succ fuel s top block1 ee ret s2 hG hL]
          have hIH := ihSBL { s with rec_level := s.rec_level + 1 }
            (.mk .css_simple_block .monostate) ee
          rw [hL] at hIH
          obtain ⟨a, b⟩ := hIH
          cases ret with
          | true =>
            have a1 : s2.rec_level = s.rec_level + 1 := (a rfl).1
            exact RecErr.ok s _ _ (show s2.rec_level - 1 = s.rec_level by omega) (a rfl).2
          | false =>
            have b1 : s2.rec_level = s.rec_level + 2 := (b rfl).1
            exact RecErr.bad s _ _
              (show s2.rec_level - 1 = s.rec_level + 1 by omega) (b rfl).2
    -- qualified rule consumer loop
    have AQRL : ∀ s block, RecErr s (qualified_rule_consumer_loop (fuel + 1) s block) := by
      intro s block
      cases hE : s.eof with
      | true =>
        rw [qualified_rule_consumer_loop_eof_flag fuel s block hE]
        exact RecErr.ok s block s rfl rfl
      | false =>
        rcases hnt : s.next_token with ⟨t, s1⟩
        obtain ⟨hrec, herr, heof, -, -⟩ := next_token_spec s t s1 hnt
        by_cases h1 : t.type = token_type.eof_token
        · rw [qualified_rule_consumer_loop_eof fuel s block t s1 hE hnt h1]
          exact RecErr.ok s block _ hrec herr
        by_cases h2 : t.type = token_type.cdo_token ∨ t.type = token_type.cdc_token ∨
            t.type = token_type.whitespace_token
        · rw [qualified_rule_consumer_loop_skip fuel s block t s1 hE hnt h2]
          exact RecErr.of_pre s s1 _ hrec herr (ihQRL s1 block)
        · push_neg at h2
          obtain ⟨h2a, h2b, h2c⟩ := h2
          by_cases h3 : t.type = token_type.ocurlbrace_token
          · rw [qualified_rule_consumer_loop_ocurl fuel s block t s1 hE hnt h3]
            exact RecErr.of_pre s s1 _ hrec herr (ihSB s1 block .ecurlbrace_token false)
          · rcases hC : component_value_consumer_fuel fuel (s1.pushback_token t) block
              with ⟨ret, block1, s2⟩
            rw [qualified_rule_consumer_loop_component fuel s block block1 t s1 s2 ret hE hnt
              h1 h2a h2b h3 h2c hC]
            obtain ⟨prem, prec, perr, peof⟩ := pushback_after_next s t s1 hnt h1
            have hIH := ihCV (s1.pushback_token t) block
            rw [hC] at hIH
            obtain ⟨a, b⟩ := hIH
            cases ret with
            | true =>
              exact RecErr.of_pre s s2 _ ((a rfl).1.trans prec) ((a rfl).2.trans perr)
                (ihQRL s2 block1)
            | false =>
              exact RecErr.bad s block1 s2 (by rw [(b rfl).1, prec]) (b rfl).2
    -- qualified rule consumer entry
    have AQR : ∀ s top, RecErr s (qualified_rule_consumer_fuel (fuel + 1) s top) := by
      intro s top
      by_cases hG : s.rec_level + 1 > max_rec
      · rw [qualified_rule_consumer_fuel_guard fuel s top hG]
        exact recErr_nesting_failure s top
      · rcases hL : qualified_rule_consumer_loop fuel
            { s with rec_level := s.rec_level + 1 }
            (.mk .css_qualified_rule .monostate) with ⟨ret, block1, s2⟩
        rw [qualified_rule_consumer_fuel_succ fuel s top block1 ret s2 hG hL]
        have hIH := ihQRL { s with rec_level := s.rec_level + 1 }
          (.mk .css_qualified_rule .monostate)
        rw [hL] at hIH
        obtain ⟨a, b⟩ := hIH
        cases ret with
        | true =>
          have a1 : s2.rec_level = s.rec_level + 1 := (a rfl).1
          exact RecErr.ok s _ _ (show s2.rec_level - 1 = s.rec_level by omega) (a rfl).2
        | false =>
          have b1 : s2.rec_level = s.rec_level + 2 := (b rfl).1
          exact RecErr.bad s _ _
            (show s2.rec_level - 1 = s.rec_level + 1 by omega) (b rfl).2
    -- at rule consumer loop
    have AARL : ∀ s block, RecErr s (at_rule_consumer_loop (fuel + 1) s block) := by
      intro s block
      cases hE : s.eof with
      | true =>
        rw [at_rule_consumer_loop_eof_flag fuel s block hE]
        exact RecErr.ok s block s rfl rfl
      | false =>
        rcases hnt : s.next_token with ⟨t, s1⟩
        obtain ⟨hrec, herr, heof, -, -⟩ := next_token_spec s t s1 hnt
        by_cases h1 : t.type = token_type.eof_token
        · rw [at_rule_consumer_loop_eof fuel s block t s1 hE hnt h1]
          exact RecErr.ok s block _ hrec herr
        by_cases h2 : t.type = token_type.cdo_token ∨ t.type = token_type.cdc_token ∨
            t.type = token_type.whitespace_token
        · rw [at_rule_consumer_loop_skip fuel s block t s1 hE hnt h2]
          exact RecErr.of_pre s s1 _ hrec herr (ihARL s1 block)
        · push_neg at h2
          obtain ⟨h2a, h2b, h2c⟩ := h2
          by_cases h3 : t.type = token_type.ocurlbrace_token
          · rw [at_rule_consumer_loop_ocurl fuel s block t s1 hE hnt h3]
            exact RecErr.of_pre s s1 _ hrec herr (ihSB s1 block .ecurlbrace_token false)
          by_cases h4 : t.type = token_type.semicolon_token
          · rw [at_rule_consumer_loop_semicolon fuel s block t s1 hE hnt h4]
            exact RecErr.ok s block s1 hrec herr
          · rcases hC : component_value_consumer_fuel fuel (s1.pushback_token t) block
              with ⟨ret, block1, s2⟩
            rw [at_rule_consumer_loop_component fuel s block block1 t s1 s2 ret hE hnt
              h1 h2a h2b h3 h2c h4 hC]
            obtain ⟨prem, prec, perr, peof⟩ := pushback_after_next s t s1 hnt h1
            have hIH := ihCV (s1.pushback_token t) block
            rw [hC] at hIH
            obtain ⟨a, b⟩ := hIH
            cases ret with
            | true =>
              exact RecErr.of_pre s s2 _ ((a rfl).1.trans prec) ((a rfl).2.trans perr)
                (ihARL s2 block1)
            | false =>
              exact RecErr.bad s block1 s2 (by rw [(b rfl).1, prec]) (b rfl).2
    -- at rule consumer entry
    have AAR : ∀ s top, RecErr s (at_rule_consumer_fuel (fuel + 1) s top) := by
      intro s top
      by_cases hG : s.rec_level + 1 > max_rec
      · rw [at_rule_consumer_fuel_guard fuel s top hG]
        exact recErr_nesting_failure s top
      · rcases hL : at_rule_consumer_loop fuel
            { s with rec_level := s.rec_level + 1 }
            (.mk .css_at_rule .monostate) with ⟨ret, block1, s2⟩
        rw [at_rule_consumer_fuel_succ fuel s top block1 ret s2 hG hL]
        have hIH := ihARL { s with rec_level := s.rec_level + 1 }
          (.mk .css_at_rule .monostate)
        rw [hL] at hIH
        obtain ⟨a, b⟩ := hIH
        cases ret with
        | true =>
          have a1 : s2.rec_level = s.rec_level + 1 := (a rfl).1
          exact RecErr.ok s _ _ (show s2.rec_level - 1 = s.rec_level by omega) (a rfl).2
        | false =>
          have b1 : s2.rec_level = s.rec_level + 2 := (b rfl).1
          exact RecErr.bad s _ _
            (show s2.rec_level - 1 = s.rec_level + 1 by omega) (b rfl).2
    -- top-level loop
    have ACB : ∀ s top, RecErrState s (consume_css_blocks_loop (fuel + 1) s top).2 := by
      intro s top
      cases hE : s.eof with
      | true =>
        rw [consume_css_blocks_loop_eof_flag fuel s top hE]
        exact Or.inl ⟨rfl, rfl⟩
      | false =>
        rcases hnt : s.next_token with ⟨t, s1⟩
        obtain ⟨hrec, herr, heof, -, -⟩ := next_token_spec s t s1 hnt
        by_cases h2 : t.type = token_type.whitespace_token
        · rw [consume_css_blocks_loop_ws fuel s top t s1 hE hnt h2]
          rcases ihCB s1 top with ⟨a, b⟩ | ⟨a, b⟩
          · exact Or.inl ⟨a.trans hrec, b.trans herr⟩
          · exact Or.inr ⟨by rw [a, hrec], b⟩
        by_cases h1 : t.type = token_type.eof_token
        · rw [consume_css_blocks_loop_eof fuel s top t s1 hE hnt h1]
          exact Or.inl ⟨hrec, herr⟩
        by_cases h3 : t.type = token_type.at_keyword_token
        · rcases hA : at_rule_consumer_fuel fuel (s1.pushback_token t) top
            with ⟨ret, top1, s2⟩
          rw [consume_css_blocks_loop_at fuel s top top1 t s1 s2 ret hE hnt h3 hA]
          obtain ⟨prem, prec, perr, peof⟩ := pushback_after_next s t s1 hnt h1
          have hIH := ihAR (s1.pushback_token t) top
          rw [hA] at hIH
          obtain ⟨a, b⟩ := hIH
          cases ret with
          | true =>
            show RecErrState s (consume_css_blocks_loop fuel s2 top1).2
            rcases ihCB s2 top1 with ⟨c, d⟩ | ⟨c, d⟩
            · exact Or.inl ⟨(c.trans (a rfl).1).trans prec, (d.trans (a rfl).2).trans perr⟩
            · exact Or.inr ⟨by rw [c, (a rfl).1, prec], d⟩
          | false =>
            show RecErrState s s2
            exact Or.inr ⟨by rw [(b rfl).1, prec], (b rfl).2⟩
        · rcases hQ : qualified_rule_consumer_fuel fuel (s1.pushback_token t) top
            with ⟨ret, top1, s2⟩
          rw [consume_css_blocks_loop_qualified fuel s top top1 t s1 s2 ret hE hnt
            h1 h2 h3 hQ]
          obtain ⟨prem, prec, perr, peof⟩ := pushback_after_next s t s1 hnt h1
          have hIH := ihQR (s1.pushback_token t) top
          rw [hQ] at hIH
          obtain ⟨a, b⟩ := hIH
          cases ret with
          | true =>
            show RecErrState s (consume_css_blocks_loop fuel s2 top1).2
            rcases ihCB s2 top1 with ⟨c, d⟩ | ⟨c, d⟩
            · exact Or.inl ⟨(c.trans (a rfl).1).trans prec, (d.trans (a rfl).2).trans perr⟩
            · exact Or.inr ⟨by rw [c, (a rfl).1, prec], d⟩
          | false =>
            show RecErrState s s2
            exact Or.inr ⟨by rw [(b rfl).1, prec], (b rfl).2⟩
    exact ⟨AFL, AFC, ACV, ACVL, ASB, ASBL, AQR, AQRL, AAR, AARL, ACB⟩

/-! ## The shape invariant: a consumer only extends the block it is handed

Every consumer leaves the tag of the block it operates on unchanged and only ever
appends to its child list (or leaves it alone). -/

/-- `b2` is `b` with the same tag and possibly more children appended. -/
def block_extends (b b2 : css_consumed_block) : Prop :=
  b2.tag = b.tag ∧ ∃ δ, b2.get_blocks_or_empty = b.get_blocks_or_empty ++ δ

theorem block_extends_rfl (b : css_consumed_block) : block_extends b b :=
  ⟨rfl, [], by simp⟩

theorem block_extends_trans {a b c : css_consumed_block} (h1 : block_extends a b)
    (h2 : block_extends b c) : block_extends a c := by
  obtain ⟨t1, d1, e1⟩ := h1
  obtain ⟨t2, d2, e2⟩ := h2
  exact ⟨t2.trans t1, d1 ++ d2, by rw [e2, e1, List.append_assoc]⟩

theorem attach_block_extends (b x : css_consumed_block) :
    block_extends b (b.attach_block x).2 := by
  rcases b with ⟨tag, c⟩
  rcases c with _ | l | t | fb <;>
    simp [css_consumed_block.attach_block, block_extends, css_consumed_block.tag,
      css_consumed_block.get_blocks_or_empty]

theorem add_function_argument_extends (b x : css_consumed_block) :
    block_extends b (b.add_function_argument x).2 := by
  rcases b with ⟨tag, c⟩
  rcases c with _ | l | t | ⟨fn, args⟩ <;>
    simp [css_consumed_block.add_function_argument, block_extends,
      css_consumed_block.tag, css_consumed_block.get_blocks_or_empty]

theorem extends_all (fuel : Nat) :
    (∀ s top, block_extends top (function_consumer_loop fuel s top).1) ∧
    (∀ s top, block_extends top (function_consumer_fuel fuel s top).2.1) ∧
    (∀ s top, block_extends top (component_value_consumer_fuel fuel s top).2.1) ∧
    (∀ s top, block_extends top (component_value_consumer_loop fuel s top).2.1) ∧
    (∀ s top ee cc, block_extends top (simple_block_consumer_fuel fuel s top ee cc).2.1) ∧
    (∀ s top ee, block_extends top (simple_block_consumer_loop fuel s top ee).2.1) ∧
    (∀ s top, block_extends top (qualified_rule_consumer_fuel fuel s top).2.1) ∧
    (∀ s block, block_extends block (qualified_rule_consumer_loop fuel s block).2.1) ∧
    (∀ s top, block_extends top (at_rule_consumer_fuel fuel s top).2.1) ∧
    (∀ s block, block_extends block (at_rule_consumer_loop fuel s block).2.1) ∧
    (∀ s top, block_extends top (consume_css_blocks_loop fuel s top).1) := by
  induction fuel with
  | zero =>
    exact ⟨fun s top => block_extends_rfl top, fun s top => block_extends_rfl top,
      fun s top => block_extends_rfl top, fun s top => block_extends_rfl top,
      fun s top ee cc => block_extends_rfl top, fun s top ee => block_extends_rfl top,
      fun s top => block_extends_rfl top, fun s block => block_extends_rfl block,
      fun s top => block_extends_rfl top, fun s block => block_extends_rfl block,
      fun s top => block_extends_rfl top⟩
  | succ fuel ih =>
    obtain ⟨ihFL, ihFC, ihCV, ihCVL, ihSB, ihSBL, ihQR, ihQRL, ihAR, ihARL, ihCB⟩ := ih
    have AFL : ∀ s top, block_extends top (function_consumer_loop (fuel + 1) s top).1 := by
      intro s top
      cases hE : s.eof with
      | true =>
        rw [function_consumer_loop_eof_flag fuel s top hE]; exact block_extends_rfl top
      | false =>
        rcases hnt : s.next_token with ⟨t, s1⟩
        by_cases h1 : t.type = token_type.eof_token
        · rw [function_consumer_loop_eof fuel s top t s1 hE hnt h1]
          exact block_extends_rfl top
        · by_cases h2 : t.type = token_type.whitespace_token ∨
              t.type = token_type.comma_token ∨ t.type = token_type.delim_token ∨
              t.type = token_type.obrace_token
          · rw [function_consumer_loop_skip fuel s top t s1 hE hnt h2]
            exact ihFL s1 top
          · push_neg at h2
            obtain ⟨h2a, h2b, h2c, h2d⟩ := h2
            by_cases h3 : t.type = token_type.ebrace_token
            · rw [function_consumer_loop_ebrace fuel s top t s1 hE hnt h3]
              exact block_extends_rfl top
            · rw [function_consumer_loop_arg fuel s top t s1 hE hnt h1 h2a h3 h2b h2c h2d]
              exact block_extends_trans
                (add_function_argument_extends top (.mk .css_function_arg (.token t)))
                (ihFL s1 _)
    have AFC : ∀ s top, block_extends top (function_consumer_fuel (fuel + 1) s top).2.1 := by
      intro s top
      by_cases hG : s.rec_level + 1 > max_rec
      · rw [function_consumer_fuel_guard fuel s top hG]; exact block_extends_rfl top
      · rcases hL : function_consumer_loop fuel
            { s with rec_level := s.rec_level + 1 } top with ⟨top1, s2⟩
        rw [function_consumer_fuel_succ fuel s top top1 s2 hG hL]
        have h := ihFL { s with rec_level := s.rec_level + 1 } top
        rw [hL] at h
        exact h
    have ACV : ∀ s top,
        block_extends top (component_value_consumer_fuel (fuel + 1) s top).2.1 := by
      intro s top
      by_cases hG : s.rec_level + 1 > max_rec
      · rw [component_value_consumer_fuel_guard fuel s top hG]; exact block_extends_rfl top
      · rcases hL : component_value_consumer_loop fuel
            { s with rec_level := s.rec_level + 1 } top with ⟨ret, top1, s2⟩
        rw [component_value_consumer_fuel_succ fuel s top top1 ret s2 hG hL]
        have h := ihCVL { s with rec_level := s.rec_level + 1 } top
        rw [hL] at h
        exact h
    have ACVL : ∀ s top,
        block_extends top (component_value_consumer_loop (fuel + 1) s top).2.1 := by
      intro s top
      cases hE : s.eof with
      | true =>
        rw [component_value_consumer_loop_eof_flag fuel s top hE]
        exact block_extends_rfl top
      | false =>
        rcases hnt : s.next_token with ⟨t, s1⟩
        by_cases h1 : t.type = token_type.eof_token
        · rw [component_value_consumer_loop_eof fuel s top t s1 hE hnt h1]
          exact block_extends_rfl top
        by_cases h2 : t.type = token_type.whitespace_token
        · rw [component_value_consumer_loop_ws fuel s top t s1 hE hnt h2]
          exact ihCVL s1 top
        by_cases h3 : t.type = token_type.ocurlbrace_token
        · rcases hS : simple_block_consumer_fuel fuel s1
              (.mk .css_simple_block .monostate) .ecurlbrace_token true
            with ⟨ret, block1, s2⟩
          rw [component_value_consumer_loop_ocurl fuel s top block1 t s1 s2 ret hE hnt h3 hS]
          cases ret with
          | true => exact attach_block_extends top block1
          | false => exact block_extends_rfl top
        by_cases h4 : t.type = token_type.obrace_token
        · rcases hS : simple_block_consumer_fuel fuel s1
              (.mk .css_simple_block .monostate) .ebrace_token true
            with ⟨ret, block1, s2⟩
          rw [component_value_consumer_loop_obrace fuel s top block1 t s1 s2 ret hE hnt h4 hS]
          cases ret with
          | true => exact attach_block_extends top block1
          | false => exact block_extends_rfl top
        by_cases h5 : t.type = token_type.osqbrace_token
        · rcases hS : simple_block_consumer_fuel fuel s1
              (.mk .css_simple_block .monostate) .esqbrace_token true
            with ⟨ret, block1, s2⟩
          rw [component_value_consumer_loop_osqbrace fuel s top block1 t s1 s2 ret hE hnt h5 hS]
          cases ret with
          | true => exact attach_block_extends top block1
          | false => exact block_extends_rfl top
        by_cases h6 : t.type = token_type.function_token
        · rcases hF : function_consumer_fuel fuel s1
              (.mk .css_function (.func (.mk t []))) with ⟨ret, block1, s2⟩
          rw [component_value_consumer_loop_function fuel s top block1 t s1 s2 ret hE hnt h6 hF]
          cases ret with
          | true => exact attach_block_extends top block1
          | false => exact block_extends_rfl top
        · rw [component_value_consumer_loop_component fuel s top t s1 hE hnt h1 h2 h3 h4 h5 h6]
          exact attach_block_extends top (.mk .css_component (.token t))
    have ASBL : ∀ s top ee,
        block_extends top (simple_block_consumer_loop (fuel + 1) s top ee).2.1 := by
      intro s top ee
      cases hE : s.eof with
      | true =>
        rw [simple_block_consumer_loop_eof_flag fuel s top ee hE]
        exact block_extends_rfl top
      | false =>
        rcases hnt : s.next_token with ⟨t, s1⟩
        by_cases hend : t.type = ee
        · rw [simple_block_consumer_loop_end fuel s top ee t s1 hE hnt hend]
          exact block_extends_rfl top
        by_cases h1 : t.type = token_type.eof_token
        · rw [simple_block_consumer_loop_eof fuel s top ee t s1 hE hnt h1 hend]
          exact block_extends_rfl top
        by_cases h2 : t.type = token_type.whitespace_token
        · rw [simple_block_consumer_loop_ws fuel s top ee t s1 hE hnt h2 hend]
          exact ihSBL s1 top ee
        · rcases hC : component_value_consumer_fuel fuel (s1.pushback_token t) top
            with ⟨ret, top1, s2⟩
          rw [simple_block_consumer_loop_component fuel s top top1 ee t s1 s2 ret hE hnt
            hend h1 h2 hC]
          have h := ihCV (s1.pushback_token t) top
          rw [hC] at h
          cases ret with
          | true => exact block_extends_trans h (ihSBL s2 top1 ee)
          | false => exact h
    have ASB : ∀ s top ee cc,
        block_extends top (simple_block_consumer_fuel (fuel + 1) s top ee cc).2.1 := by
      intro s top ee cc
      cases cc with
      | true =>
        rw [simple_block_consumer_fuel_cc fuel s top ee]
        exact ihSBL s top ee
      | false =>
        by_cases hG : s.rec_level + 1 > max_rec
        · rw [simple_block_consumer_fuel_guard fuel s top ee hG]
          exact block_extends_rfl top
        · rcases hL : simple_block_consumer_loop fuel
              { s with rec_level := s.rec_level + 1 }
              (.mk .css_simple_block .monostate) ee with ⟨ret, block1, s2⟩
          rw [simple_block_consumer_fuel_succ fuel s top block1 ee ret s2 hG hL]
          cases ret with
          | true => exact attach_block_extends top block1
          | false => exact block_extends_rfl top
    have AQRL : ∀ s block,
        block_extends block (qualified_rule_consumer_loop (fuel + 1) s block).2.1 := by
      intro s block
      cases hE : s.eof with
      | true =>
        rw [qualified_rule_consumer_loop_eof_flag fuel s block hE]
        exact block_extends_rfl block
      | false =>
        rcases hnt : s.next_token with ⟨t, s1⟩
        by_cases h1 : t.type = token_type.eof_token
        · rw [qualified_rule_consumer_loop_eof fuel s block t s1 hE hnt h1]
          exact block_extends_rfl block
        by_cases h2 : t.type = token_type.cdo_token ∨ t.type = token_type.cdc_token ∨
            t.type = token_type.whitespace_token
        · rw [qualified_rule_consumer_loop_skip fuel s block t s1 hE hnt h2]
          exact ihQRL s1 block
        · push_neg at h2
          obtain ⟨h2a, h2b, h2c⟩ := h2
          by_cases h3 : t.type = token_type.ocurlbrace_token
          · rw [qualified_rule_consumer_loop_ocurl fuel s block t s1 hE hnt h3]
            exact ihSB s1 block .ecurlbrace_token false
          · rcases hC : component_value_consumer_fuel fuel (s1.pushback_token t) block
              with ⟨ret, block1, s2⟩
            rw [qualified_rule_consumer_loop_component fuel s block block1 t s1 s2 ret hE hnt
              h1 h2a h2b h3 h2c hC]
            have h := ihCV (s1.pushback_token t) block
            rw [hC] at h
            cases ret with
            | true => exact block_extends_trans h (ihQRL s2 block1)
            | false => exact h
    have AQR : ∀ s top,
        block_extends top (qualified_rule_consumer_fuel (fuel + 1) s top).2.1 := by
      intro s top
      by_cases hG : s.rec_level + 1 > max_rec
      · rw [qualified_rule_consumer_fuel_guard fuel s top hG]; exact block_extends_rfl top
      · rcases hL : qualified_rule_consumer_loop fuel
            { s with rec_level := s.rec_level + 1 }
            (.mk .css_qualified_rule .monostate) with ⟨ret, block1, s2⟩
        rw [qualified_rule_consumer_fuel_succ fuel s top block1 ret s2 hG hL]
        show block_extends top
          (if ret then
            if top.tag = parser_tag_type.css_top_block then (top.attach_block block1).2
            else top
          else top)
        split
        · split
          · exact attach_block_extends top block1
          · exact block_extends_rfl top
        · exact block_extends_rfl top
    have AARL : ∀ s block,
        block_extends block (at_rule_consumer_loop (fuel + 1) s block).2.1 := by
      intro s block
      cases hE : s.eof with
      | true =>
        rw [at_rule_consumer_loop_eof_flag fuel s block hE]
        exact block_extends_rfl block
      | false =>
        rcases hnt : s.next_token with ⟨t, s1⟩
        by_cases h1 : t.type = token_type.eof_token
        · rw [at_rule_consumer_loop_eof fuel s block t s1 hE hnt h1]
          exact block_extends_rfl block
        by_cases h2 : t.type = token_type.cdo_token ∨ t.type = token_type.cdc_token ∨
            t.type = token_type.whitespace_token
        · rw [at_rule_consumer_loop_skip fuel s block t s1 hE hnt h2]
          exact ihARL s1 block
        · push_neg at h2
          obtain ⟨h2a, h2b, h2c⟩ := h2
          by_cases h3 : t.type = token_type.ocurlbrace_token
          · rw [at_rule_consumer_loop_ocurl fuel s block t s1 hE hnt h3]
            exact ihSB s1 block .ecurlbrace_token false
          by_cases h4 : t.type = token_type.semicolon_token
          · rw [at_rule_consumer_loop_semicolon fuel s block t s1 hE hnt h4]
            exact block_extends_rfl block
          · rcases hC : component_value_consumer_fuel fuel (s1.pushback_token t) block
              with ⟨ret, block1, s2⟩
            rw [at_rule_consumer_loop_component fuel s block block1 t s1 s2 ret hE hnt
              h1 h2a h2b h3 h2c h4 hC]
            have h := ihCV (s1.pushback_token t) block
            rw [hC] at h
            cases ret with
            | true => exact block_extends_trans h (ihARL s2 block1)
            | false => exact h
    have AAR : ∀ s top,
        block_extends top (at_rule_consumer_fuel (fuel + 1) s top).2.1 := by
      intro s top
      by_cases hG : s.rec_level + 1 > max_rec
      · rw [at_rule_consumer_fuel_guard fuel s top hG]; exact block_extends_rfl top
      · rcases hL : at_rule_consumer_loop fuel
            { s with rec_level := s.rec_level + 1 }
            (.mk .css_at_rule .monostate) with ⟨ret, block1, s2⟩
        rw [at_rule_consumer_fuel_succ fuel s top block1 ret s2 hG hL]
        show block_extends top
          (if ret then
            if top.tag = parser_tag_type.css_top_block then (top.attach_block block1).2
            else top
          else top)
        split
        · split
          · exact attach_block_extends top block1
          · exact block_extends_rfl top
        · exact block_extends_rfl top
    have ACB : ∀ s top, block_extends top (consume_css_blocks_loop (fuel + 1) s top).1 := by
      intro s top
      cases hE : s.eof with
      | true =>
        rw [consume_css_blocks_loop_eof_flag fuel s top hE]
        exact block_extends_rfl top
      | false =>
        rcases hnt : s.next_token with ⟨t, s1⟩
        by_cases h2 : t.type = token_type.whitespace_token
        · rw [consume_css_blocks_loop_ws fuel s top t s1 hE hnt h2]
          exact ihCB s1 top
        by_cases h1 : t.type = token_type.eof_token
        · rw [consume_css_blocks_loop_eof fuel s top t s1 hE hnt h1]
          exact block_extends_rfl top
        by_cases h3 : t.type = token_type.at_keyword_token
        · rcases hA : at_rule_consumer_fuel fuel (s1.pushback_token t) top
            with ⟨ret, top1, s2⟩
          rw [consume_css_blocks_loop_at fuel s top top1 t s1 s2 ret hE hnt h3 hA]
          have h := ihAR (s1.pushback_token t) top
          rw [hA] at h
          cases ret with
          | true => exact block_extends_trans h (ihCB s2 top1)
          | false => exact h
        · rcases hQ : qualified_rule_consumer_fuel fuel (s1.pushback_token t) top
            with ⟨ret, top1, s2⟩
          rw [consume_css_blocks_loop_qualified fuel s top top1 t s1 s2 ret hE hnt
            h1 h2 h3 hQ]
          have h := ihQR (s1.pushback_token t) top
          rw [hQ] at h
          cases ret with
          | true => exact block_extends_trans h (ihCB s2 top1)
          | false => exact h
    exact ⟨AFL, AFC, ACV, ACVL, ASB, ASBL, AQR, AQRL, AAR, AARL, ACB⟩

/-! ## Node-count accounting -/

theorem block_list_node_count_append (l1 l2 : List css_consumed_block) :
    block_list_node_count (l1 ++ l2) =
      block_list_node_count l1 + block_list_node_count l2 := by
  induction l1 with
  | nil => simp [block_list_node_count]
  | cons b bs ih => simp [block_list_node_count, ih]; omega

theorem node_count_pos (b : css_consumed_block) : 1 ≤ b.node_count := by
  rcases b with ⟨tag, c⟩
  simp [css_consumed_block.node_count]

theorem attach_block_node_count_le (b x : css_consumed_block) :
    (b.attach_block x).2.node_count ≤ b.node_count + x.node_count := by
  rcases b with ⟨tag, c⟩
  cases c with
  | monostate =>
    show (css_consumed_block.mk tag (.blocks [x])).node_count ≤ _
    simp [css_consumed_block.node_count, block_content.content_node_count,
      block_list_node_count]
  | blocks l =>
    show (css_consumed_block.mk tag (.blocks (l ++ [x]))).node_count ≤ _
    simp only [css_consumed_block.node_count, block_content.content_node_count,
      block_list_node_count_append, block_list_node_count]
    omega
  | token t => exact Nat.le_add_right _ _
  | func fb => exact Nat.le_add_right _ _

theorem add_function_argument_node_count_le (b x : css_consumed_block) :
    (b.add_function_argument x).2.node_count ≤ b.node_count + x.node_count := by
  rcases b with ⟨tag, c⟩
  cases c with
  | monostate => exact Nat.le_add_right _ _
  | blocks l => exact Nat.le_add_right _ _
  | token t => exact Nat.le_add_right _ _
  | func fb =>
    rcases fb with ⟨fn, args⟩
    show (css_consumed_block.mk tag (.func (.mk fn (args ++ [x])))).node_count ≤ _
    simp only [css_consumed_block.node_count, block_content.content_node_count,
      block_list_node_count_append, block_list_node_count]
    omega

theorem node_count_single (tag : parser_tag_type) (t : css_parser_token) :
    (css_consumed_block.mk tag (.token t)).node_count = 1 := rfl

theorem node_count_fresh (tag : parser_tag_type) :
    (css_consumed_block.mk tag .monostate).node_count = 1 := rfl

theorem node_count_fresh_function (t : css_parser_token) :
    (css_consumed_block.mk .css_function (.func (.mk t []))).node_count = 1 := rfl

theorem mu_rec_set (s : parser_state) (x : Nat) :
    ({ s with rec_level := x } : parser_state).mu = s.mu := rfl

theorem mu_consume (s : parser_state) (t : css_parser_token) (s1 : parser_state)
    (h : s.next_token = (t, s1)) (ht : t.type ≠ token_type.eof_token) :
    s1.mu + 1 = s.mu := by
  obtain ⟨-, -, heof, -, -⟩ := next_token_spec s t s1 h
  have hr := next_token_consumes s t s1 h ht
  simp only [parser_state.mu, heof]
  omega

theorem mu_eof_pull (s : parser_state) (t : css_parser_token) (s1 : parser_state)
    (h : s.next_token = (t, s1)) (hE : s.eof = false) :
    ({ s1 with eof := true } : parser_state).mu + 1 ≤ s.mu := by
  obtain ⟨-, -, heof, -, hrem⟩ := next_token_spec s t s1 h
  have h1 : s1.remaining ≤ s.remaining := by
    rcases hrem with h1 | ⟨-, rfl, -⟩
    · omega
    · exact le_rfl
  simp only [parser_state.mu, hE]
  show s1.remaining + 0 + 1 ≤ s.remaining + 1
  omega

theorem mu_pushback (s : parser_state) (t : css_parser_token) (s1 : parser_state)
    (h : s.next_token = (t, s1)) (ht : t.type ≠ token_type.eof_token) :
    (s1.pushback_token t).mu = s.mu := by
  obtain ⟨prem, -, -, peof⟩ := pushback_after_next s t s1 h ht
  simp only [parser_state.mu, prem, peof]

/-! ## The node-count invariant

`mu` (tokens still deliverable plus one unit for the not-yet-consumed synthetic eof)
pays for every node a consumer attaches: each attached node is financed by a distinct
consumed token, except that a rule frame may be financed by the single eof unit.
The three clause shapes are:
* plain — nodes added never exceed the measure consumed;
* eof spare — a run that raises the eof flag has consumed one unit it did not spend;
* ret spare — a successful simple-block/rule loop has one unit of slack (its
  terminator token or the eof unit), which pays for the frame node the caller built. -/

theorem node_count_all (fuel : Nat) :
    (∀ s top,
      ((function_consumer_loop fuel s top).1.node_count +
          (function_consumer_loop fuel s top).2.mu ≤ top.node_count + s.mu) ∧
        ((function_consumer_loop fuel s top).2.eof = true → s.eof = false →
          (function_consumer_loop fuel s top).1.node_count +
            (function_consumer_loop fuel s top).2.mu + 1 ≤ top.node_count + s.mu)) ∧
    (∀ s top,
      ((function_consumer_fuel fuel s top).2.1.node_count +
          (function_consumer_fuel fuel s top).2.2.mu ≤ top.node_count + s.mu) ∧
        ((function_consumer_fuel fuel s top).2.2.eof = true → s.eof = false →
          (function_consumer_fuel fuel s top).2.1.node_count +
            (function_consumer_fuel fuel s top).2.2.mu + 1 ≤ top.node_count + s.mu)) ∧
    (∀ s top,
      ((component_value_consumer_fuel fuel s top).2.1.node_count +
          (component_value_consumer_fuel fuel s top).2.2.mu ≤ top.node_count + s.mu) ∧
        ((component_value_consumer_fuel fuel s top).2.2.eof = true → s.eof = false →
          (component_value_consumer_fuel fuel s top).2.1.node_count +
            (component_value_consumer_fuel fuel s top).2.2.mu + 1 ≤
              top.node_count + s.mu)) ∧
    (∀ s top,
      ((component_value_consumer_loop fuel s top).2.1.node_count +
          (component_value_consumer_loop fuel s top).2.2.mu ≤ top.node_count + s.mu) ∧
        ((component_value_consumer_loop fuel s top).2.2.eof = true → s.eof = false →
          (component_value_consumer_loop fuel s top).2.1.node_count +
            (component_value_consumer_loop fuel s top).2.2.mu + 1 ≤
              top.node_count + s.mu)) ∧
    (∀ s top ee,
      ((simple_block_consumer_loop fuel s top ee).2.1.node_count +
          (simple_block_consumer_loop fuel s top ee).2.2.mu ≤ top.node_count + s.mu) ∧
        ((simple_block_consumer_loop fuel s top ee).2.2.eof = true → s.eof = false →
          (simple_block_consumer_loop fuel s top ee).2.1.node_count +
            (simple_block_consumer_loop fuel s top ee).2.2.mu + 1 ≤
              top.node_count + s.mu) ∧
        (ee ≠ token_type.eof_token →
          (simple_block_consumer_loop fuel s top ee).1 = true → s.eof = false →
          (simple_block_consumer_loop fuel s top ee).2.1.node_count +
            (simple_block_consumer_loop fuel s top ee).2.2.mu + 1 ≤
              top.node_count + s.mu)) ∧
    (∀ s top ee cc,
      (cc = true →
        ((simple_block_consumer_fuel fuel s top ee cc).2.1.node_count +
            (simple_block_consumer_fuel fuel s top ee cc).2.2.mu ≤
              top.node_count + s.mu) ∧
          ((simple_block_consumer_fuel fuel s top ee cc).2.2.eof = true →
            s.eof = false →
            (simple_block_consumer_fuel fuel s top ee cc).2.1.node_count +
              (simple_block_consumer_fuel fuel s top ee cc).2.2.mu + 1 ≤
                top.node_count + s.mu)) ∧
      (cc = false → ee ≠ token_type.eof_token → s.eof = false →
        (simple_block_consumer_fuel fuel s top ee cc).2.1.node_count +
          (simple_block_consumer_fuel fuel s top ee cc).2.2.mu ≤
            top.node_count + s.mu)) ∧
    (∀ s block,
      ((qualified_rule_consumer_loop fuel s block).2.1.node_count +
          (qualified_rule_consumer_loop fuel s block).2.2.mu ≤
            block.node_count + s.mu) ∧
        ((qualified_rule_consumer_loop fuel s block).1 = true → s.eof = false →
          (qualified_rule_consumer_loop fuel s block).2.1.node_count +
            (qualified_rule_consumer_loop fuel s block).2.2.mu + 1 ≤
              block.node_count + s.mu)) ∧
    (∀ s top, s.eof = false →
      (qualified_rule_consumer_fuel fuel s top).2.1.node_count +
        (qualified_rule_consumer_fuel fuel s top).2.2.mu ≤ top.node_count + s.mu) ∧
    (∀ s block,
      ((at_rule_consumer_loop fuel s block).2.1.node_count +
          (at_rule_consumer_loop fuel s block).2.2.mu ≤ block.node_count + s.mu) ∧
        ((at_rule_consumer_loop fuel s block).1 = true → s.eof = false →
          (at_rule_consumer_loop fuel s block).2.1.node_count +
            (at_rule_consumer_loop fuel s block).2.2.mu + 1 ≤
              block.node_count + s.mu)) ∧
    (∀ s top, s.eof = false →
      (at_rule_consumer_fuel fuel s top).2.1.node_count +
        (at_rule_consumer_fuel fuel s top).2.2.mu ≤ top.node_count + s.mu) ∧
    (∀ s top,
      (consume_css_blocks_loop fuel s top).1.node_count +
        (consume_css_blocks_loop fuel s top).2.mu ≤ top.node_count + s.mu) := by
  induction fuel with
  | zero =>
    refine ⟨?_, ?_, ?_, ?_, ?_, ?_, ?_, ?_, ?_, ?_, ?_⟩
    · exact fun s top => ⟨le_rfl, fun h1 h2 => by
        have h1b : s.eof = true := h1
        rw [h2] at h1b; exact Bool.noConfusion h1b⟩
    · exact fun s top => ⟨le_rfl, fun h1 h2 => by
        have h1b : s.eof = true := h1
        rw [h2] at h1b; exact Bool.noConfusion h1b⟩
    · exact fun s top => ⟨le_rfl, fun h1 h2 => by
        have h1b : s.eof = true := h1
        rw [h2] at h1b; exact Bool.noConfusion h1b⟩
    · exact fun s top => ⟨le_rfl, fun h1 h2 => by
        have h1b : s.eof = true := h1
        rw [h2] at h1b; exact Bool.noConfusion h1b⟩
    · exact fun s top ee => ⟨le_rfl,
        fun h1 h2 => by
          have h1b : s.eof = true := h1
          rw [h2] at h1b; exact Bool.noConfusion h1b,
        fun _ h1 _ => by
          have h1b : (false : Bool) = true := h1
          exact Bool.noConfusion h1b⟩
    · exact fun s top ee cc => ⟨fun _ => ⟨le_rfl, fun h1 h2 => by
        have h1b : s.eof = true := h1
        rw [h2] at h1b; exact Bool.noConfusion h1b⟩,
        fun _ _ _ => le_rfl⟩
    · exact fun s block => ⟨le_rfl, fun h1 _ => by
        have h1b : (false : Bool) = true := h1
        exact Bool.noConfusion h1b⟩
    · exact fun s top _ => le_rfl
    · exact fun s block => ⟨le_rfl, fun h1 _ => by
        have h1b : (false : Bool) = true := h1
        exact Bool.noConfusion h1b⟩
    · exact fun s top _ => le_rfl
    · exact fun s top => le_rfl
  | succ fuel ih =>
    obtain ⟨ihFL, ihFC, ihCV, ihCVL, ihSBL, ihSB, ihQRL, ihQR, ihARL, ihAR, ihCB⟩ := ih
    -- function consumer loop
    have AFL : ∀ s top,
        ((function_consumer_loop (fuel + 1) s top).1.node_count +
            (function_consumer_loop (fuel + 1) s top).2.mu ≤ top.node_count + s.mu) ∧
          ((function_consumer_loop (fuel + 1) s top).2.eof = true → s.eof = false →
            (function_consumer_loop (fuel + 1) s top).1.node_count +
              (function_consumer_loop (fuel + 1) s top).2.mu + 1 ≤
                top.node_count + s.mu) := by
      intro s top
      by_cases hE : s.eof = true
      · rw [function_consumer_loop_eof_flag fuel s top hE]
        exact ⟨le_rfl, fun _ hy => Bool.noConfusion (hE.symm.trans hy)⟩
      · have hEf : s.eof = false := by simpa using hE
        rcases hnt : s.next_token with ⟨t, s1⟩
        obtain ⟨hrec, herr, heof, -, -⟩ := next_token_spec s t s1 hnt
        have heof1 : s1.eof = false := heof.trans hEf
        by_cases h1 : t.type = token_type.eof_token
        · rw [function_consumer_loop_eof fuel s top t s1 hEf hnt h1]
          have hm := mu_eof_pull s t s1 hnt hEf
          refine ⟨?_, fun _ _ => ?_⟩
          · show top.node_count + ({ s1 with eof := true } : parser_state).mu ≤
              top.node_count + s.mu
            omega
          · show top.node_count + ({ s1 with eof := true } : parser_state).mu + 1 ≤
              top.node_count + s.mu
            omega
        · have hm := mu_consume s t s1 hnt h1
          by_cases h2 : t.type = token_type.whitespace_token ∨
              t.type = token_type.comma_token ∨ t.type = token_type.delim_token ∨
              t.type = token_type.obrace_token
          · rw [function_consumer_loop_skip fuel s top t s1 hEf hnt h2]
            obtain ⟨hihp, -⟩ := ihFL s1 top
            exact ⟨by omega, fun _ _ => by omega⟩
          · push_neg at h2
            obtain ⟨h2a, h2b, h2c, h2d⟩ := h2
            by_cases h3 : t.type = token_type.ebrace_token
            · rw [function_consumer_loop_ebrace fuel s top t s1 hEf hnt h3]
              refine ⟨?_, fun hx _ => ?_⟩
              · show top.node_count + s1.mu ≤ top.node_count + s.mu
                omega
              · have hxb : s1.eof = true := hx
                rw [heof1] at hxb
                exact Bool.noConfusion hxb
            · rw [function_consumer_loop_arg fuel s top t s1 hEf hnt h1 h2a h3 h2b h2c h2d]
              have hadd := add_function_argument_node_count_le top
                (.mk .css_function_arg (.token t))
              rw [node_count_single] at hadd
              obtain ⟨hihp, hihs⟩ := ihFL s1
                (top.add_function_argument (.mk .css_function_arg (.token t))).2
              refine ⟨by omega, fun hx _ => ?_⟩
              have := hihs hx heof1
              omega
    -- function consumer entry
    have AFC : ∀ s top,
        ((function_consumer_fuel (fuel + 1) s top).2.1.node_count +
            (function_consumer_fuel (fuel + 1) s top).2.2.mu ≤ top.node_count + s.mu) ∧
          ((function_consumer_fuel (fuel + 1) s top).2.2.eof = true → s.eof = false →
            (function_consumer_fuel (fuel + 1) s top).2.1.node_count +
              (function_consumer_fuel (fuel + 1) s top).2.2.mu + 1 ≤
                top.node_count + s.mu) := by
      intro s top
      by_cases hG : s.rec_level + 1 > max_rec
      · rw [function_consumer_fuel_guard fuel s top hG]
        refine ⟨le_rfl, fun hx hy => ?_⟩
        have hxb : s.eof = true := hx
        rw [hy] at hxb
        exact Bool.noConfusion hxb
      · rcases hL : function_consumer_loop fuel
            { s with rec_level := s.rec_level + 1 } top with ⟨top1, s2⟩
        rw [function_consumer_fuel_succ fuel s top top1 s2 hG hL]
        obtain ⟨hihp, hihs⟩ := ihFL { s with rec_level := s.rec_level + 1 } top
        rw [hL] at hihp hihs
        have hp : top1.node_count + s2.mu ≤ top.node_count + s.mu := hihp
        have hs : s2.eof = true → s.eof = false →
            top1.node_count + s2.mu + 1 ≤ top.node_count + s.mu := hihs
        refine ⟨?_, fun hx hy => ?_⟩
        · show top1.node_count + s2.mu ≤ top.node_count + s.mu
          exact hp
        · show top1.node_count + s2.mu + 1 ≤ top.node_count + s.mu
          exact hs hx hy
    -- component value consumer entry
    have ACV : ∀ s top,
        ((component_value_consumer_fuel (fuel + 1) s top).2.1.node_count +
            (component_value_consumer_fuel (fuel + 1) s top).2.2.mu ≤
              top.node_count + s.mu) ∧
          ((component_value_consumer_fuel (fuel + 1) s top).2.2.eof = true →
            s.eof = false →
            (component_value_consumer_fuel (fuel + 1) s top).2.1.node_count +
              (component_value_consumer_fuel (fuel + 1) s top).2.2.mu + 1 ≤
                top.node_count + s.mu) := by
      intro s top
      by_cases hG : s.rec_level + 1 > max_rec
      · rw [component_value_consumer_fuel_guard fuel s top hG]
        refine ⟨le_rfl, fun hx hy => ?_⟩
        have hxb : s.eof = true := hx
        rw [hy] at hxb
        exact Bool.noConfusion hxb
      · rcases hL : component_value_consumer_loop fuel
            { s with rec_level := s.rec_level + 1 } top with ⟨ret, top1, s2⟩
        rw [component_value_consumer_fuel_succ fuel s top top1 ret s2 hG hL]
        obtain ⟨hihp, hihs⟩ := ihCVL { s with rec_level := s.rec_level + 1 } top
        rw [hL] at hihp hihs
        have hp : top1.node_count + s2.mu ≤ top.node_count + s.mu := hihp
        have hs : s2.eof = true → s.eof = false →
            top1.node_count + s2.mu + 1 ≤ top.node_count + s.mu := hihs
        refine ⟨?_, fun hx hy => ?_⟩
        · show top1.node_count + s2.mu ≤ top.node_count + s.mu
          exact hp
        · show top1.node_count + s2.mu + 1 ≤ top.node_count + s.mu
          exact hs hx hy
    -- component value consumer loop
    have ACVL : ∀ s top,
        ((component_value_consumer_loop (fuel + 1) s top).2.1.node_count +
            (component_value_consumer_loop (fuel + 1) s top).2.2.mu ≤
              top.node_count + s.mu) ∧
          ((component_value_consumer_loop (fuel + 1) s top).2.2.eof = true →
            s.eof = false →
            (component_value_consumer_loop (fuel + 1) s top).2.1.node_count +
              (component_value_consumer_loop (fuel + 1) s top).2.2.mu + 1 ≤
                top.node_count + s.mu) := by
      intro s top
      by_cases hE : s.eof = true
      · rw [component_value_consumer_loop_eof_flag fuel s top hE]
        exact ⟨le_rfl, fun _ hy => Bool.noConfusion (hE.symm.trans hy)⟩
      · have hEf : s.eof = false := by simpa using hE
        rcases hnt : s.next_token with ⟨t, s1⟩
        obtain ⟨hrec, herr, heof, -, -⟩ := next_token_spec s t s1 hnt
        have heof1 : s1.eof = false := heof.trans hEf
        by_cases h1 : t.type = token_type.eof_token
        · rw [component_value_consumer_loop_eof fuel s top t s1 hEf hnt h1]
          have hm := mu_eof_pull s t s1 hnt hEf
          refine ⟨?_, fun _ _ => ?_⟩
          · show top.node_count + ({ s1 with eof := true } : parser_state).mu ≤
              top.node_count + s.mu
            omega
          · show top.node_count + ({ s1 with eof := true } : parser_state).mu + 1 ≤
              top.node_count + s.mu
            omega
        by_cases h2 : t.type = token_type.whitespace_token
        · rw [component_value_consumer_loop_ws fuel s top t s1 hEf hnt h2]
          have hm := mu_consume s t s1 hnt h1
          obtain ⟨hihp, -⟩ := ihCVL s1 top
          exact ⟨by omega, fun _ _ => by omega⟩
        by_cases h3 : t.type = token_type.ocurlbrace_token
        · have hm := mu_consume s t s1 hnt h1
          rcases hS : simple_block_consumer_fuel fuel s1
              (.mk .css_simple_block .monostate) .ecurlbrace_token true
            with ⟨ret, block1, s2⟩
          rw [component_value_consumer_loop_ocurl fuel s top block1 t s1 s2 ret hEf hnt h3 hS]
          obtain ⟨hihp, hihs⟩ := (ihSB s1 (.mk .css_simple_block .monostate)
            .ecurlbrace_token true).1 rfl
          rw [hS] at hihp hihs
          have sp : block1.node_count + s2.mu ≤ 1 + s1.mu := hihp
          have ss : s2.eof = true → s1.eof = false →
              block1.node_count + s2.mu + 1 ≤ 1 + s1.mu := hihs
          cases ret with
          | true =>
            have hat := attach_block_node_count_le top block1
            refine ⟨?_, fun hx hy => ?_⟩
            · show (top.attach_block block1).2.node_count + s2.mu ≤
                top.node_count + s.mu
              omega
            · show (top.attach_block block1).2.node_count + s2.mu + 1 ≤
                top.node_count + s.mu
              have hxb : s2.eof = true := hx
              have := ss hxb heof1
              omega
          | false =>
            have hpos := node_count_pos block1
            refine ⟨?_, fun _ _ => ?_⟩
            · show top.node_count + s2.mu ≤ top.node_count + s.mu
              omega
            · show top.node_count + s2.mu + 1 ≤ top.node_count + s.mu
              omega
        by_cases h4 : t.type = token_type.obrace_token
        · have hm := mu_consume s t s1 hnt h1
          rcases hS : simple_block_consumer_fuel fuel s1
              (.mk .css_simple_block .monostate) .ebrace_token true
            with ⟨ret, block1, s2⟩
          rw [component_value_consumer_loop_obrace fuel s top block1 t s1 s2 ret hEf hnt h4 hS]
          obtain ⟨hihp, hihs⟩ := (ihSB s1 (.mk .css_simple_block .monostate)
            .ebrace_token true).1 rfl
          rw [hS] at hihp hihs
          have sp : block1.node_count + s2.mu ≤ 1 + s1.mu := hihp
          have ss : s2.eof = true → s1.eof = false →
              block1.node_count + s2.mu + 1 ≤ 1 + s1.mu := hihs
          cases ret with
          | true =>
            have hat := attach_block_node_count_le top block1
            refine ⟨?_, fun hx hy => ?_⟩
            · show (top.attach_block block1).2.node_count + s2.mu ≤
                top.node_count + s.mu
              omega
            · show (top.attach_block block1).2.node_count + s2.mu + 1 ≤
                top.node_count + s.mu
              have hxb : s2.eof = true := hx
              have := ss hxb heof1
              omega
          | false =>
            have hpos := node_count_pos block1
            refine ⟨?_, fun _ _ => ?_⟩
            · show top.node_count + s2.mu ≤ top.node_count + s.mu
              omega
            · show top.node_count + s2.mu + 1 ≤ top.node_count + s.mu
              omega
        by_cases h5 : t.type = token_type.osqbrace_token
        · have hm := mu_consume s t s1 hnt h1
          rcases hS : simple_block_consumer_fuel fuel s1
              (.mk .css_simple_block .monostate) .esqbrace_token true
            with ⟨ret, block1, s2⟩
          rw [component_value_consumer_loop_osqbrace fuel s top block1 t s1 s2 ret hEf hnt h5 hS]
          obtain ⟨hihp, hihs⟩ := (ihSB s1 (.mk .css_simple_block .monostate)
            .esqbrace_token true).1 rfl
          rw [hS] at hihp hihs
          have sp : block1.node_count + s2.mu ≤ 1 + s1.mu := hihp
          have ss : s2.eof = true → s1.eof = false →
              block1.node_count + s2.mu + 1 ≤ 1 + s1.mu := hihs
          cases ret with
          | true =>
            have hat := attach_block_node_count_le top block1
            refine ⟨?_, fun hx hy => ?_⟩
            · show (top.attach_block block1).2.node_count + s2.mu ≤
                top.node_count + s.mu
              omega
            · show (top.attach_block block1).2.node_count + s2.mu + 1 ≤
                top.node_count + s.mu
              have hxb : s2.eof = true := hx
              have := ss hxb heof1
              omega
          | false =>
            have hpos := node_count_pos block1
            refine ⟨?_, fun _ _ => ?_⟩
            · show top.node_count + s2.mu ≤ top.node_count + s.mu
              omega
            · show top.node_count + s2.mu + 1 ≤ top.node_count + s.mu
              omega
        by_cases h6 : t.type = token_type.function_token
        · have hm := mu_consume s t s1 hnt h1
          rcases hF : function_consumer_fuel fuel s1
              (.mk .css_function (.func (.mk t []))) with ⟨ret, block1, s2⟩
          rw [component_value_consumer_loop_function fuel s top block1 t s1 s2 ret hEf hnt h6 hF]
          obtain ⟨hihp, hihs⟩ := ihFC s1 (.mk .css_function (.func (.mk t [])))
          rw [hF] at hihp hihs
          have sp : block1.node_count + s2.mu ≤ 1 + s1.mu := hihp
          have ss : s2.eof = true → s1.eof = false →
              block1.node_count + s2.mu + 1 ≤ 1 + s1.mu := hihs
          cases ret with
          | true =>
            have hat := attach_block_node_count_le top block1
            refine ⟨?_, fun hx hy => ?_⟩
            · show (top.attach_block block1).2.node_count + s2.mu ≤
                top.node_count + s.mu
              omega
            · show (top.attach_block block1).2.node_count + s2.mu + 1 ≤
                top.node_count + s.mu
              have hxb : s2.eof = true := hx
              have := ss hxb heof1
              omega
          | false =>
            have hpos := node_count_pos block1
            refine ⟨?_, fun _ _ => ?_⟩
            · show top.node_count + s2.mu ≤ top.node_count + s.mu
              omega
            · show top.node_count + s2.mu + 1 ≤ top.node_count + s.mu
              omega
        · rw [component_value_consumer_loop_component fuel s top t s1 hEf hnt h1 h2 h3 h4 h5 h6]
          have hm := mu_consume s t s1 hnt h1
          have hat := attach_block_node_count_le top (.mk .css_component (.token t))
          rw [node_count_single] at hat
          refine ⟨?_, fun hx _ => ?_⟩
          · show (top.attach_block (.mk .css_component (.token t))).2.node_count + s1.mu ≤
              top.node_count + s.mu
            omega
          · have hxb : s1.eof = true := hx
            rw [heof1] at hxb
            exact Bool.noConfusion hxb
    -- simple block consumer loop
    have ASBL : ∀ s top ee,
        ((simple_block_consumer_loop (fuel + 1) s top ee).2.1.node_count +
            (simple_block_consumer_loop (fuel + 1) s top ee).2.2.mu ≤
              top.node_count + s.mu) ∧
          ((simple_block_consumer_loop (fuel + 1) s top ee).2.2.eof = true →
            s.eof = false →
            (simple_block_consumer_loop (fuel + 1) s top ee).2.1.node_count +
              (simple_block_consumer_loop (fuel + 1) s top ee).2.2.mu + 1 ≤
                top.node_count + s.mu) ∧
          (ee ≠ token_type.eof_token →
            (simple_block_consumer_loop (fuel + 1) s top ee).1 = true → s.eof = false →
            (simple_block_consumer_loop (fuel + 1) s top ee).2.1.node_count +
              (simple_block_consumer_loop (fuel + 1) s top ee).2.2.mu + 1 ≤
                top.node_count + s.mu) := by
      intro s top ee
      by_cases hE : s.eof = true
      · rw [simple_block_consumer_loop_eof_flag fuel s top ee hE]
        exact ⟨le_rfl, fun _ hy => Bool.noConfusion (hE.symm.trans hy),
          fun _ _ hy => Bool.noConfusion (hE.symm.trans hy)⟩
      · have hEf : s.eof = false := by simpa using hE
        rcases hnt : s.next_token with ⟨t, s1⟩
        obtain ⟨hrec, herr, heof, -, hrem⟩ := next_token_spec s t s1 hnt
        have heof1 : s1.eof = false := heof.trans hEf
        by_cases hend : t.type = ee
        · rw [simple_block_consumer_loop_end fuel s top ee t s1 hEf hnt hend]
          refine ⟨?_, fun hx _ => ?_, fun hne _ _ => ?_⟩
          · show top.node_count + s1.mu ≤ top.node_count + s.mu
            rcases hrem with hr | ⟨-, hs1, -, -⟩
            · have hmm : s1.mu + 1 = s.mu := by
                simp only [parser_state.mu, heof]; omega
              omega
            · rw [hs1]
          · have hxb : s1.eof = true := hx
            rw [heof1] at hxb
            exact Bool.noConfusion hxb
          · have h1 : t.type ≠ token_type.eof_token := by rw [hend]; exact hne
            have hm := mu_consume s t s1 hnt h1
            show top.node_count + s1.mu + 1 ≤ top.node_count + s.mu
            omega
        by_cases h1 : t.type = token_type.eof_token
        · rw [simple_block_consumer_loop_eof fuel s top ee t s1 hEf hnt h1 hend]
          have hm := mu_eof_pull s t s1 hnt hEf
          refine ⟨?_, fun _ _ => ?_, fun _ _ _ => ?_⟩
          · show top.node_count + ({ s1 with eof := true } : parser_state).mu ≤
              top.node_count + s.mu
            omega
          · show top.node_count + ({ s1 with eof := true } : parser_state).mu + 1 ≤
              top.node_count + s.mu
            omega
          · show top.node_count + ({ s1 with eof := true } : parser_state).mu + 1 ≤
              top.node_count + s.mu
            omega
        by_cases h2 : t.type = token_type.whitespace_token
        · rw [simple_block_consumer_loop_ws fuel s top ee t s1 hEf hnt h2 hend]
          have hm := mu_consume s t s1 hnt h1
          obtain ⟨hihp, -, -⟩ := ihSBL s1 top ee
          exact ⟨by omega, fun _ _ => by omega, fun _ _ _ => by omega⟩
        · have hm := mu_consume s t s1 hnt h1
          have hmp := mu_pushback s t s1 hnt h1
          obtain ⟨-, -, -, hpeof⟩ := pushback_after_next s t s1 hnt h1
          have hpf : (s1.pushback_token t).eof = false := by rw [hpeof]; exact hEf
          rcases hC : component_value_consumer_fuel fuel (s1.pushback_token t) top
            with ⟨ret, top1, s2⟩
          rw [simple_block_consumer_loop_component fuel s top top1 ee t s1 s2 ret hEf hnt
            hend h1 h2 hC]
          obtain ⟨cp0, cs0⟩ := ihCV (s1.pushback_token t) top
          rw [hC] at cp0 cs0
          have cp : top1.node_count + s2.mu ≤
              top.node_count + (s1.pushback_token t).mu := cp0
          have cs : s2.eof = true → (s1.pushback_token t).eof = false →
              top1.node_count + s2.mu + 1 ≤
                top.node_count + (s1.pushback_token t).mu := cs0
          cases ret with
          | true =>
            obtain ⟨ip, is2, ir⟩ := ihSBL s2 top1 ee
            refine ⟨?_, fun hx hy => ?_, fun hne hx hy => ?_⟩
            · show (simple_block_consumer_loop fuel s2 top1 ee).2.1.node_count +
                (simple_block_consumer_loop fuel s2 top1 ee).2.2.mu ≤
                  top.node_count + s.mu
              omega
            · have hx2 : (simple_block_consumer_loop fuel s2 top1 ee).2.2.eof = true := hx
              show (simple_block_consumer_loop fuel s2 top1 ee).2.1.node_count +
                (simple_block_consumer_loop fuel s2 top1 ee).2.2.mu + 1 ≤
                  top.node_count + s.mu
              by_cases hs2 : s2.eof = true
              · have hc1 := cs hs2 hpf
                omega
              · have hs2f : s2.eof = false := by simpa using hs2
                have := is2 hx2 hs2f
                omega
            · have hx2 : (simple_block_consumer_loop fuel s2 top1 ee).1 = true := hx
              show (simple_block_consumer_loop fuel s2 top1 ee).2.1.node_count +
                (simple_block_consumer_loop fuel s2 top1 ee).2.2.mu + 1 ≤
                  top.node_count + s.mu
              by_cases hs2 : s2.eof = true
              · have hc1 := cs hs2 hpf
                omega
              · have hs2f : s2.eof = false := by simpa using hs2
                have := ir hne hx2 hs2f
                omega
          | false =>
            refine ⟨?_, fun hx hy => ?_, fun _ hx _ => ?_⟩
            · show top1.node_count + s2.mu ≤ top.node_count + s.mu
              omega
            · have hx2 : s2.eof = true := hx
              have := cs hx2 hpf
              show top1.node_count + s2.mu + 1 ≤ top.node_count + s.mu
              omega
            · have hx2 : (false : Bool) = true := hx
              exact Bool.noConfusion hx2
    -- simple block consumer entry
    have ASB : ∀ s top ee cc,
        (cc = true →
          ((simple_block_consumer_fuel (fuel + 1) s top ee cc).2.1.node_count +
              (simple_block_consumer_fuel (fuel + 1) s top ee cc).2.2.mu ≤
                top.node_count + s.mu) ∧
            ((simple_block_consumer_fuel (fuel + 1) s top ee cc).2.2.eof = true →
              s.eof = false →
              (simple_block_consumer_fuel (fuel + 1) s top ee cc).2.1.node_count +
                (simple_block_consumer_fuel (fuel + 1) s top ee cc).2.2.mu + 1 ≤
                  top.node_count + s.mu)) ∧
        (cc = false → ee ≠ token_type.eof_token → s.eof = false →
          (simple_block_consumer_fuel (fuel + 1) s top ee cc).2.1.node_count +
            (simple_block_consumer_fuel (fuel + 1) s top ee cc).2.2.mu ≤
              top.node_count + s.mu) := by
      intro s top ee cc
      cases cc with
      | true =>
        refine ⟨fun _ => ?_, fun hcc _ _ => Bool.noConfusion hcc⟩
        rw [simple_block_consumer_fuel_cc fuel s top ee]
        exact ⟨(ihSBL s top ee).1, (ihSBL s top ee).2.1⟩
      | false =>
        refine ⟨fun hcc => Bool.noConfusion hcc, fun _ hne hEf => ?_⟩
        by_cases hG : s.rec_level + 1 > max_rec
        · rw [simple_block_consumer_fuel_guard fuel s top ee hG]
          exact le_rfl
        · rcases hL : simple_block_consumer_loop fuel
              { s with rec_level := s.rec_level + 1 }
              (.mk .css_simple_block .monostate) ee with ⟨ret, block1, s2⟩
          rw [simple_block_consumer_fuel_succ fuel s top block1 ee ret s2 hG hL]
          obtain ⟨lp0, -, lr0⟩ := ihSBL { s with rec_level := s.rec_level + 1 }
            (.mk .css_simple_block .monostate) ee
          rw [hL] at lp0 lr0
          have lp : block1.node_count + s2.mu ≤ 1 + s.mu := lp0
          have lr : ee ≠ token_type.eof_token → ret = true → s.eof = false →
              block1.node_count + s2.mu + 1 ≤ 1 + s.mu := lr0
          cases ret with
          | true =>
            have hat := attach_block_node_count_le top block1
            have hr := lr hne rfl hEf
            show (top.attach_block block1).2.node_count + s2.mu ≤
              top.node_count + s.mu
            omega
          | false =>
            have hpos := node_count_pos block1
            show top.node_count + s2.mu ≤ top.node_count + s.mu
            omega
    -- qualified rule consumer loop
    have AQRL : ∀ s block,
        ((qualified_rule_consumer_loop (fuel + 1) s block).2.1.node_count +
            (qualified_rule_consumer_loop (fuel + 1) s block).2.2.mu ≤
              block.node_count + s.mu) ∧
          ((qualified_rule_consumer_loop (fuel + 1) s block).1 = true →
            s.eof = false →
            (qualified_rule_consumer_loop (fuel + 1) s block).2.1.node_count +
              (qualified_rule_consumer_loop (fuel + 1) s block).2.2.mu + 1 ≤
                block.node_count + s.mu) := by
      intro s block
      by_cases hE : s.eof = true
      · rw [qualified_rule_consumer_loop_eof_flag fuel s block hE]
        exact ⟨le_rfl, fun _ hy => Bool.noConfusion (hE.symm.trans hy)⟩
      · have hEf : s.eof = false := by simpa using hE
        rcases hnt : s.next_token with ⟨t, s1⟩
        obtain ⟨hrec, herr, heof, -, -⟩ := next_token_spec s t s1 hnt
        have heof1 : s1.eof = false := heof.trans hEf
        by_cases h1 : t.type = token_type.eof_token
        · rw [qualified_rule_consumer_loop_eof fuel s block t s1 hEf hnt h1]
          have hm := mu_eof_pull s t s1 hnt hEf
          refine ⟨?_, fun _ _ => ?_⟩
          · show block.node_count + ({ s1 with eof := true } : parser_state).mu ≤
              block.node_count + s.mu
            omega
          · show block.node_count + ({ s1 with eof := true } : parser_state).mu + 1 ≤
              block.node_count + s.mu
            omega
        by_cases h2 : t.type = token_type.cdo_token ∨ t.type = token_type.cdc_token ∨
            t.type = token_type.whitespace_token
        · rw [qualified_rule_consumer_loop_skip fuel s block t s1 hEf hnt h2]
          have hm := mu_consume s t s1 hnt h1
          obtain ⟨hihp, -⟩ := ihQRL s1 block
          exact ⟨by omega, fun _ _ => by omega⟩
        · push_neg at h2
          obtain ⟨h2a, h2b, h2c⟩ := h2
          by_cases h3 : t.type = token_type.ocurlbrace_token
          · rw [qualified_rule_consumer_loop_ocurl fuel s block t s1 hEf hnt h3]
            have hm := mu_consume s t s1 hnt h1
            have ep := (ihSB s1 block .ecurlbrace_token false).2 rfl (by decide) heof1
            exact ⟨by omega, fun _ _ => by omega⟩
          · have hm := mu_consume s t s1 hnt h1
            have hmp := mu_pushback s t s1 hnt h1
            obtain ⟨-, -, -, hpeof⟩ := pushback_after_next s t s1 hnt h1
            have hpf : (s1.pushback_token t).eof = false := by rw [hpeof]; exact hEf
            rcases hC : component_value_consumer_fuel fuel (s1.pushback_token t) block
              with ⟨ret, block1, s2⟩
            rw [qualified_rule_consumer_loop_component fuel s block block1 t s1 s2 ret hEf
              hnt h1 h2a h2b h3 h2c hC]
            obtain ⟨cp0, cs0⟩ := ihCV (s1.pushback_token t) block
            rw [hC] at cp0 cs0
            have cp : block1.node_count + s2.mu ≤
                block.node_count + (s1.pushback_token t).mu := cp0
            have cs : s2.eof = true → (s1.pushback_token t).eof = false →
                block1.node_count + s2.mu + 1 ≤
                  block.node_count + (s1.pushback_token t).mu := cs0
            cases ret with
            | true =>
              obtain ⟨ip, ir⟩ := ihQRL s2 block1
              refine ⟨?_, fun hx hy => ?_⟩
              · show (qualified_rule_consumer_loop fuel s2 block1).2.1.node_count +
                  (qualified_rule_consumer_loop fuel s2 block1).2.2.mu ≤
                    block.node_count + s.mu
                omega
              · have hx2 : (qualified_rule_consumer_loop fuel s2 block1).1 = true := hx
                show (qualified_rule_consumer_loop fuel s2 block1).2.1.node_count +
                  (qualified_rule_consumer_loop fuel s2 block1).2.2.mu + 1 ≤
                    block.node_count + s.mu
                by_cases hs2 : s2.eof = true
                · have hc1 := cs hs2 hpf
                  omega
                · have hs2f : s2.eof = false := by simpa using hs2
                  have := ir hx2 hs2f
                  omega
            | false =>
              refine ⟨?_, fun hx _ => ?_⟩
              · show block1.node_count + s2.mu ≤ block.node_count + s.mu
                omega
              · have hx2 : (false : Bool) = true := hx
                exact Bool.noConfusion hx2
    -- qualified rule consumer entry
    have AQR : ∀ s top, s.eof = false →
        (qualified_rule_consumer_fuel (fuel + 1) s top).2.1.node_count +
          (qualified_rule_consumer_fuel (fuel + 1) s top).2.2.mu ≤
            top.node_count + s.mu := by
      intro s top hEf
      by_cases hG : s.rec_level + 1 > max_rec
      · rw [qualified_rule_consumer_fuel_guard fuel s top hG]
        exact le_rfl
      · rcases hL : qualified_rule_consumer_loop fuel
            { s with rec_level := s.rec_level + 1 }
            (.mk .css_qualified_rule .monostate) with ⟨ret, block1, s2⟩
        rw [qualified_rule_consumer_fuel_succ fuel s top block1 ret s2 hG hL]
        obtain ⟨lp0, lr0⟩ := ihQRL { s with rec_level := s.rec_level + 1 }
          (.mk .css_qualified_rule .monostate)
        rw [hL] at lp0 lr0
        have lp : block1.node_count + s2.mu ≤ 1 + s.mu := lp0
        have lr : ret = true → s.eof = false →
            block1.node_count + s2.mu + 1 ≤ 1 + s.mu := lr0
        cases ret with
        | true =>
          have hr := lr rfl hEf
          show (if top.tag = parser_tag_type.css_top_block then
              (top.attach_block block1).2 else top).node_count + s2.mu ≤
            top.node_count + s.mu
          by_cases htag : top.tag = parser_tag_type.css_top_block
          · rw [if_pos htag]
            have hat := attach_block_node_count_le top block1
            omega
          · rw [if_neg htag]
            have hpos := node_count_pos block1
            omega
        | false =>
          have hpos := node_count_pos block1
          show top.node_count + s2.mu ≤ top.node_count + s.mu
          omega
    -- at rule consumer loop
    have AARL : ∀ s block,
        ((at_rule_consumer_loop (fuel + 1) s block).2.1.node_count +
            (at_rule_consumer_loop (fuel + 1) s block).2.2.mu ≤
              block.node_count + s.mu) ∧
          ((at_rule_consumer_loop (fuel + 1) s block).1 = true → s.eof = false →
            (at_rule_consumer_loop (fuel + 1) s block).2.1.node_count +
              (at_rule_consumer_loop (fuel + 1) s block).2.2.mu + 1 ≤
                block.node_count + s.mu) := by
      intro s block
      by_cases hE : s.eof = true
      · rw [at_rule_consumer_loop_eof_flag fuel s block hE]
        exact ⟨le_rfl, fun _ hy => Bool.noConfusion (hE.symm.trans hy)⟩
      · have hEf : s.eof = false := by simpa using hE
        rcases hnt : s.next_token with ⟨t, s1⟩
        obtain ⟨hrec, herr, heof, -, -⟩ := next_token_spec s t s1 hnt
        have heof1 : s1.eof = false := heof.trans hEf
        by_cases h1 : t.type = token_type.eof_token
        · rw [at_rule_consumer_loop_eof fuel s block t s1 hEf hnt h1]
          have hm := mu_eof_pull s t s1 hnt hEf
          refine ⟨?_, fun _ _ => ?_⟩
          · show block.node_count + ({ s1 with eof := true } : parser_state).mu ≤
              block.node_count + s.mu
            omega
          · show block.node_count + ({ s1 with eof := true } : parser_state).mu + 1 ≤
              block.node_count + s.mu
            omega
        by_cases h2 : t.type = token_type.cdo_token ∨ t.type = token_type.cdc_token ∨
            t.type = token_type.whitespace_token
        · rw [at_rule_consumer_loop_skip fuel s block t s1 hEf hnt h2]
          have hm := mu_consume s t s1 hnt h1
          obtain ⟨hihp, -⟩ := ihARL s1 block
          exact ⟨by omega, fun _ _ => by omega⟩
        · push_neg at h2
          obtain ⟨h2a, h2b, h2c⟩ := h2
          by_cases h3 : t.type = token_type.ocurlbrace_token
          · rw [at_rule_consumer_loop_ocurl fuel s block t s1 hEf hnt h3]
            have hm := mu_consume s t s1 hnt h1
            have ep := (ihSB s1 block .ecurlbrace_token false).2 rfl (by decide) heof1
            exact ⟨by omega, fun _ _ => by omega⟩
          by_cases h4 : t.type = token_type.semicolon_token
          · rw [at_rule_consumer_loop_semicolon fuel s block t s1 hEf hnt h4]
            have hm := mu_consume s t s1 hnt h1
            refine ⟨?_, fun _ _ => ?_⟩
            · show block.node_count + s1.mu ≤ block.node_count + s.mu
              omega
            · show block.node_count + s1.mu + 1 ≤ block.node_count + s.mu
              omega
          · have hm := mu_consume s t s1 hnt h1
            have hmp := mu_pushback s t s1 hnt h1
            obtain ⟨-, -, -, hpeof⟩ := pushback_after_next s t s1 hnt h1
            have hpf : (s1.pushback_token t).eof = false := by rw [hpeof]; exact hEf
            rcases hC : component_value_consumer_fuel fuel (s1.pushback_token t) block
              with ⟨ret, block1, s2⟩
            rw [at_rule_consumer_loop_component fuel s block block1 t s1 s2 ret hEf hnt
              h1 h2a h2b h3 h2c h4 hC]
            obtain ⟨cp0, cs0⟩ := ihCV (s1.pushback_token t) block
            rw [hC] at cp0 cs0
            have cp : block1.node_count + s2.mu ≤
                block.node_count + (s1.pushback_token t).mu := cp0
            have cs : s2.eof = true → (s1.pushback_token t).eof = false →
                block1.node_count + s2.mu + 1 ≤
                  block.node_count + (s1.pushback_token t).mu := cs0
            cases ret with
            | true =>
              obtain ⟨ip, ir⟩ := ihARL s2 block1
              refine ⟨?_, fun hx hy => ?_⟩
              · show (at_rule_consumer_loop fuel s2 block1).2.1.node_count +
                  (at_rule_consumer_loop fuel s2 block1).2.2.mu ≤
                    block.node_count + s.mu
                omega
              · have hx2 : (at_rule_consumer_loop fuel s2 block1).1 = true := hx
                show (at_rule_consumer_loop fuel s2 block1).2.1.node_count +
                  (at_rule_consumer_loop fuel s2 block1).2.2.mu + 1 ≤
                    block.node_count + s.mu
                by_cases hs2 : s2.eof = true
                · have hc1 := cs hs2 hpf
                  omega
                · have hs2f : s2.eof = false := by simpa using hs2
                  have := ir hx2 hs2f
                  omega
            | false =>
              refine ⟨?_, fun hx _ => ?_⟩
              · show block1.node_count + s2.mu ≤ block.node_count + s.mu
                omega
              · have hx2 : (false : Bool) = true := hx
                exact Bool.noConfusion hx2
    -- at rule consumer entry
    have AAR : ∀ s top, s.eof = false →
        (at_rule_consumer_fuel (fuel + 1) s top).2.1.node_count +
          (at_rule_consumer_fuel (fuel + 1) s top).2.2.mu ≤ top.node_count + s.mu := by
      intro s top hEf
      by_cases hG : s.rec_level + 1 > max_rec
      · rw [at_rule_consumer_fuel_guard fuel s top hG]
        exact le_rfl
      · rcases hL : at_rule_consumer_loop fuel
            { s with rec_level := s.rec_level + 1 }
            (.mk .css_at_rule .monostate) with ⟨ret, block1, s2⟩
        rw [at_rule_consumer_fuel_succ fuel s top block1 ret s2 hG hL]
        obtain ⟨lp0, lr0⟩ := ihARL { s with rec_level := s.rec_level + 1 }
          (.mk .css_at_rule .monostate)
        rw [hL] at lp0 lr0
        have lp : block1.node_count + s2.mu ≤ 1 + s.mu := lp0
        have lr : ret = true → s.eof = false →
            block1.node_count + s2.mu + 1 ≤ 1 + s.mu := lr0
        cases ret with
        | true =>
          have hr := lr rfl hEf
          show (if top.tag = parser_tag_type.css_top_block then
              (top.attach_block block1).2 else top).node_count + s2.mu ≤
            top.node_count + s.mu
          by_cases htag : top.tag = parser_tag_type.css_top_block
          · rw [if_pos htag]
            have hat := attach_block_node_count_le top block1
            omega
          · rw [if_neg htag]
            have hpos := node_count_pos block1
            omega
        | false =>
          have hpos := node_count_pos block1
          show top.node_count + s2.mu ≤ top.node_count + s.mu
          omega
    -- top-level loop
    have ACB : ∀ s top,
        (consume_css_blocks_loop (fuel + 1) s top).1.node_count +
          (consume_css_blocks_loop (fuel + 1) s top).2.mu ≤
            top.node_count + s.mu := by
      intro s top
      by_cases hE : s.eof = true
      · rw [consume_css_blocks_loop_eof_flag fuel s top hE]
      · have hEf : s.eof = false := by simpa using hE
        rcases hnt : s.next_token with ⟨t, s1⟩
        obtain ⟨hrec, herr, heof, -, -⟩ := next_token_spec s t s1 hnt
        by_cases h2 : t.type = token_type.whitespace_token
        · rw [consume_css_blocks_loop_ws fuel s top t s1 hEf hnt h2]
          have h1 : t.type ≠ token_type.eof_token := by rw [h2]; decide
          have hm := mu_consume s t s1 hnt h1
          have hih := ihCB s1 top
          omega
        by_cases h1 : t.type = token_type.eof_token
        · rw [consume_css_blocks_loop_eof fuel s top t s1 hEf hnt h1]
          have hm := mu_eof_pull s t s1 hnt hEf
          show top.node_count + ({ s1 with eof := true } : parser_state).mu ≤
            top.node_count + s.mu
          omega
        by_cases h3 : t.type = token_type.at_keyword_token
        · have hmp := mu_pushback s t s1 hnt h1
          obtain ⟨-, -, -, hpeof⟩ := pushback_after_next s t s1 hnt h1
          have hpf : (s1.pushback_token t).eof = false := by rw [hpeof]; exact hEf
          rcases hA : at_rule_consumer_fuel fuel (s1.pushback_token t) top
            with ⟨ret, top1, s2⟩
          rw [consume_css_blocks_loop_at fuel s top top1 t s1 s2 ret hEf hnt h3 hA]
          have ap0 := ihAR (s1.pushback_token t) top hpf
          rw [hA] at ap0
          have ap : top1.node_count + s2.mu ≤
              top.node_count + (s1.pushback_token t).mu := ap0
          cases ret with
          | true =>
            have hcb := ihCB s2 top1
            show (consume_css_blocks_loop fuel s2 top1).1.node_count +
              (consume_css_blocks_loop fuel s2 top1).2.mu ≤ top.node_count + s.mu
            omega
          | false =>
            show top1.node_count + s2.mu ≤ top.node_count + s.mu
            omega
        · have hmp := mu_pushback s t s1 hnt h1
          obtain ⟨-, -, -, hpeof⟩ := pushback_after_next s t s1 hnt h1
          have hpf : (s1.pushback_token t).eof = false := by rw [hpeof]; exact hEf
          rcases hQ : qualified_rule_consumer_fuel fuel (s1.pushback_token t) top
            with ⟨ret, top1, s2⟩
          rw [consume_css_blocks_loop_qualified fuel s top top1 t s1 s2 ret hEf hnt
            h1 h2 h3 hQ]
          have qp0 := ihQR (s1.pushback_token t) top hpf
          rw [hQ] at qp0
          have qp : top1.node_count + s2.mu ≤
              top.node_count + (s1.pushback_token t).mu := qp0
          cases ret with
          | true =>
            have hcb := ihCB s2 top1
            show (consume_css_blocks_loop fuel s2 top1).1.node_count +
              (consume_css_blocks_loop fuel s2 top1).2.mu ≤ top.node_count + s.mu
            omega
          | false =>
            show top1.node_count + s2.mu ≤ top.node_count + s.mu
            omega
    exact ⟨AFL, AFC, ACV, ACVL, ASBL, ASB, AQRL, AQR, AARL, AAR, ACB⟩

/-! ## Named corollaries of the big invariants -/

theorem component_value_consumer_fuel_rec_error (fuel : Nat) (s : parser_state)
    (top : css_consumed_block) : RecErr s (component_value_consumer_fuel fuel s top) :=
  (rec_error_all fuel).2.2.1 s top

theorem function_consumer_fuel_rec_error (fuel : Nat) (s : parser_state)
    (top : css_consumed_block) : RecErr s (function_consumer_fuel fuel s top) :=
  (rec_error_all fuel).2.1 s top

theorem simple_block_consumer_fuel_rec_error (fuel : Nat) (s : parser_state)
    (top : css_consumed_block) (ee : token_type) (cc : Bool) :
    RecErr s (simple_block_consumer_fuel fuel s top ee cc) :=
  (rec_error_all fuel).2.2.2.2.1 s top ee cc

theorem qualified_rule_consumer_fuel_rec_error (fuel : Nat) (s : parser_state)
    (top : css_consumed_block) : RecErr s (qualified_rule_consumer_fuel fuel s top) :=
  (rec_error_all fuel).2.2.2.2.2.2.1 s top

theorem at_rule_consumer_fuel_rec_error (fuel : Nat) (s : parser_state)
    (top : css_consumed_block) : RecErr s (at_rule_consumer_fuel fuel s top) :=
  (rec_error_all fuel).2.2.2.2.2.2.2.2.1 s top

theorem consume_css_blocks_loop_rec_error (fuel : Nat) (s : parser_state)
    (top : css_consumed_block) :
    RecErrState s (consume_css_blocks_loop fuel s top).2 :=
  (rec_error_all fuel).2.2.2.2.2.2.2.2.2.2 s top

theorem qualified_rule_consumer_loop_extends (fuel : Nat) (s : parser_state)
    (block : css_consumed_block) :
    block_extends block (qualified_rule_consumer_loop fuel s block).2.1 :=
  (extends_all fuel).2.2.2.2.2.2.2.1 s block

theorem at_rule_consumer_loop_extends (fuel : Nat) (s : parser_state)
    (block : css_consumed_block) :
    block_extends block (at_rule_consumer_loop fuel s block).2.1 :=
  (extends_all fuel).2.2.2.2.2.2.2.2.2.1 s block

theorem simple_block_consumer_loop_extends (fuel : Nat) (s : parser_state)
    (top : css_consumed_block) (ee : token_type) :
    block_extends top (simple_block_consumer_loop fuel s top ee).2.1 :=
  (extends_all fuel).2.2.2.2.2.1 s top ee

theorem simple_block_consumer_fuel_extends (fuel : Nat) (s : parser_state)
    (top : css_consumed_block) (ee : token_type) (cc : Bool) :
    block_extends top (simple_block_consumer_fuel fuel s top ee cc).2.1 :=
  (extends_all fuel).2.2.2.2.1 s top ee cc

theorem consume_css_blocks_loop_node_count (fuel : Nat) (s : parser_state)
    (top : css_consumed_block) :
    (consume_css_blocks_loop fuel s top).1.node_count +
      (consume_css_blocks_loop fuel s top).2.mu ≤ top.node_count + s.mu :=
  (node_count_all fuel).2.2.2.2.2.2.2.2.2.2 s top

theorem initial_state_mu (input : List css_parser_token) :
    (initial_state input).mu = input.length + 1 := by
  simp [initial_state, parser_state.mu, parser_state.remaining, css_tokeniser.remaining]

/-- The consumed-block tree never holds more than `n + 2` nodes on an `n`-token
input: every attached node other than the top node and at most one
end-of-input-financed rule frame is financed by a distinct consumed token. -/
theorem consume_css_blocks_node_count_le (input : List css_parser_token) :
    (consume_css_blocks input).1.node_count ≤ input.length + 2 := by
  have h := consume_css_blocks_loop_node_count (parse_fuel (initial_state input))
    (initial_state input) (.mk .css_top_block .monostate)
  rw [initial_state_mu, node_count_fresh] at h
  show (consume_css_blocks_loop (parse_fuel (initial_state input))
    (initial_state input) (.mk .css_top_block .monostate)).1.node_count ≤
      input.length + 2
  omega

/-! ## The component-value consumer attaches at most one child -/

theorem attach_block_children_le (b x : css_consumed_block) :
    (b.attach_block x).2.get_blocks_or_empty.length ≤
      b.get_blocks_or_empty.length + 1 := by
  rcases b with ⟨tag, c⟩
  cases c with
  | monostate => simp [css_consumed_block.attach_block, css_consumed_block.get_blocks_or_empty]
  | blocks l => simp [css_consumed_block.attach_block, css_consumed_block.get_blocks_or_empty]
  | token t => simp [css_consumed_block.attach_block, css_consumed_block.get_blocks_or_empty]
  | func fb => simp [css_consumed_block.attach_block, css_consumed_block.get_blocks_or_empty]

theorem component_value_consumer_loop_children_le (fuel : Nat) :
    ∀ (s : parser_state) (top : css_consumed_block),
      (component_value_consumer_loop fuel s top).2.1.get_blocks_or_empty.length ≤
        top.get_blocks_or_empty.length + 1 := by
  induction fuel with
  | zero => exact fun s top => Nat.le_succ _
  | succ fuel ih =>
    intro s top
    by_cases hE : s.eof = true
    · rw [component_value_consumer_loop_eof_flag fuel s top hE]
      exact Nat.le_succ _
    · have hEf : s.eof = false := by simpa using hE
      rcases hnt : s.next_token with ⟨t, s1⟩
      by_cases h1 : t.type = token_type.eof_token
      · rw [component_value_consumer_loop_eof fuel s top t s1 hEf hnt h1]
        exact Nat.le_succ _
      by_cases h2 : t.type = token_type.whitespace_token
      · rw [component_value_consumer_loop_ws fuel s top t s1 hEf hnt h2]
        exact ih s1 top
      by_cases h3 : t.type = token_type.ocurlbrace_token
      · rcases hS : simple_block_consumer_fuel fuel s1
            (.mk .css_simple_block .monostate) .ecurlbrace_token true
          with ⟨ret, block1, s2⟩
        rw [component_value_consumer_loop_ocurl fuel s top block1 t s1 s2 ret hEf hnt h3 hS]
        cases ret with
        | true => exact attach_block_children_le top block1
        | false => exact Nat.le_succ _
      by_cases h4 : t.type = token_type.obrace_token
      · rcases hS : simple_block_consumer_fuel fuel s1
            (.mk .css_simple_block .monostate) .ebrace_token true
          with ⟨ret, block1, s2⟩
        rw [component_value_consumer_loop_obrace fuel s top block1 t s1 s2 ret hEf hnt h4 hS]
        cases ret with
        | true => exact attach_block_children_le top block1
        | false => exact Nat.le_succ _
      by_cases h5 : t.type = token_type.osqbrace_token
      · rcases hS : simple_block_consumer_fuel fuel s1
            (.mk .css_simple_block .monostate) .esqbrace_token true
          with ⟨ret, block1, s2⟩
        rw [component_value_consumer_loop_osqbrace fuel s top block1 t s1 s2 ret hEf hnt h5 hS]
        cases ret with
        | true => exact attach_block_children_le top block1
        | false => exact Nat.le_succ _
      by_cases h6 : t.type = token_type.function_token
      · rcases hF : function_consumer_fuel fuel s1
            (.mk .css_function (.func (.mk t []))) with ⟨ret, block1, s2⟩
        rw [component_value_consumer_loop_function fuel s top block1 t s1 s2 ret hEf hnt h6 hF]
        cases ret with
        | true => exact attach_block_children_le top block1
        | false => exact Nat.le_succ _
      · rw [component_value_consumer_loop_component fuel s top t s1 hEf hnt h1 h2 h3 h4 h5 h6]
        exact attach_block_children_le top (.mk .css_component (.token t))

theorem component_value_consumer_fuel_children_le (fuel : Nat) (s : parser_state)
    (top : css_consumed_block) :
    (component_value_consumer_fuel fuel s top).2.1.get_blocks_or_empty.length ≤
      top.get_blocks_or_empty.length + 1 := by
  cases fuel with
  | zero => exact Nat.le_succ _
  | succ fuel =>
    by_cases hG : s.rec_level + 1 > max_rec
    · rw [component_value_consumer_fuel_guard fuel s top hG]
      exact Nat.le_succ _
    · rcases hL : component_value_consumer_loop fuel
          { s with rec_level := s.rec_level + 1 } top with ⟨ret, top1, s2⟩
      rw [component_value_consumer_fuel_succ fuel s top top1 ret s2 hG hL]
      have h := component_value_consumer_loop_children_le fuel
        { s with rec_level := s.rec_level + 1 } top
      rw [hL] at h
      exact h

/-! ## Whitespace-only runs -/

/-- Every token the tokenizer can still deliver is whitespace. -/
def stream_all_ws (s : parser_state) : Prop :=
  (∀ t ∈ s.tokeniser.tokens, t.type = token_type.whitespace_token) ∧
    (∀ t, s.tokeniser.pushback = some t → t.type = token_type.whitespace_token)

theorem next_token_ws (s : parser_state) (t : css_parser_token) (s1 : parser_state)
    (hws : stream_all_ws s) (h : s.next_token = (t, s1)) :
    (t.type = token_type.whitespace_token ∧ stream_all_ws s1 ∧
        s1.remaining + 1 = s.remaining) ∨
      (t = css_parser_eof_token ∧ s1 = s) := by
  obtain ⟨hts, hpb⟩ := hws
  rcases s with ⟨⟨ts, pb⟩, rec, eo, err⟩
  rcases pb with _ | pt
  · rcases ts with _ | ⟨t0, ts⟩
    · simp only [parser_state.next_token, css_tokeniser.next_token,
        Prod.mk.injEq] at h
      obtain ⟨rfl, rfl⟩ := h
      exact Or.inr ⟨rfl, rfl⟩
    · simp only [parser_state.next_token, css_tokeniser.next_token,
        Prod.mk.injEq] at h
      obtain ⟨rfl, rfl⟩ := h
      refine Or.inl ⟨hts t0 (by simp), ⟨fun x hx => hts x (by simp [hx]),
        fun x hx => by simp at hx⟩, ?_⟩
      simp [parser_state.remaining, css_tokeniser.remaining]
  · simp only [parser_state.next_token, css_tokeniser.next_token,
      Prod.mk.injEq] at h
    obtain ⟨rfl, rfl⟩ := h
    refine Or.inl ⟨hpb pt rfl, ⟨hts, fun x hx => by simp at hx⟩, ?_⟩
    simp [parser_state.remaining, css_tokeniser.remaining]

theorem component_value_consumer_loop_ws_only (fuel : Nat) :
    ∀ (s : parser_state) (top : css_consumed_block), s.remaining < fuel →
      stream_all_ws s →
      ∃ s2, component_value_consumer_loop fuel s top = (true, top, s2) := by
  induction fuel with
  | zero => intro s top h; exact absurd h (Nat.not_lt_zero _)
  | succ fuel ih =>
    intro s top hrem hws
    by_cases hE : s.eof = true
    · exact ⟨s, component_value_consumer_loop_eof_flag fuel s top hE⟩
    · have hEf : s.eof = false := by simpa using hE
      rcases hnt : s.next_token with ⟨t, s1⟩
      rcases next_token_ws s t s1 hws hnt with ⟨hty, hws1, hr⟩ | ⟨ht, hs1⟩
      · rw [component_value_consumer_loop_ws fuel s top t s1 hEf hnt hty]
        exact ih s1 top (by omega) hws1
      · exact ⟨_, component_value_consumer_loop_eof fuel s top t s1 hEf hnt
          (by rw [ht]; rfl)⟩

theorem component_value_consumer_fuel_ws_only (fuel : Nat) (s : parser_state)
    (top : css_consumed_block) (hrem : s.remaining + 1 < fuel)
    (hG : ¬ s.rec_level + 1 > max_rec) (hws : stream_all_ws s) :
    ∃ s2, component_value_consumer_fuel fuel s top = (true, top, s2) := by
  cases fuel with
  | zero => exact absurd hrem (Nat.not_lt_zero _)
  | succ fuel =>
    obtain ⟨s2, hL⟩ := component_value_consumer_loop_ws_only fuel
      { s with rec_level := s.rec_level + 1 } top (by
        show s.remaining < fuel
        omega) hws
    exact ⟨_, component_value_consumer_fuel_succ fuel s top top true s2 hG hL⟩

theorem consume_css_blocks_loop_ws_only (fuel : Nat) :
    ∀ (s : parser_state) (top : css_consumed_block), s.remaining < fuel →
      stream_all_ws s →
      ∃ s2, consume_css_blocks_loop fuel s top = (top, s2) := by
  induction fuel with
  | zero => intro s top h; exact absurd h (Nat.not_lt_zero _)
  | succ fuel ih =>
    intro s top hrem hws
    by_cases hE : s.eof = true
    · exact ⟨s, consume_css_blocks_loop_eof_flag fuel s top hE⟩
    · have hEf : s.eof = false := by simpa using hE
      rcases hnt : s.next_token with ⟨t, s1⟩
      rcases next_token_ws s t s1 hws hnt with ⟨hty, hws1, hr⟩ | ⟨ht, hs1⟩
      · rw [consume_css_blocks_loop_ws fuel s top t s1 hEf hnt hty]
        exact ih s1 top (by omega) hws1
      · exact ⟨_, consume_css_blocks_loop_eof fuel s top t s1 hEf hnt
          (by rw [ht]; rfl)⟩

theorem initial_state_remaining (input : List css_parser_token) :
    (initial_state input).remaining = input.length := by
  simp [initial_state, parser_state.remaining, css_tokeniser.remaining]

/-- A whitespace-only input consumes to an empty top block. -/
theorem consume_css_blocks_ws_only (input : List css_parser_token)
    (h : ∀ t ∈ input, t.type = token_type.whitespace_token) :
    ∃ s2, consume_css_blocks input = (.mk .css_top_block .monostate, s2) := by
  have hws : stream_all_ws (initial_state input) :=
    ⟨h, fun t ht => by simp [initial_state] at ht⟩
  have hrem : (initial_state input).remaining < parse_fuel (initial_state input) := by
    rw [initial_state_remaining]
    simp only [parse_fuel, initial_state_remaining]
    omega
  exact consume_css_blocks_loop_ws_only (parse_fuel (initial_state input))
    (initial_state input) (.mk .css_top_block .monostate) hrem hws

/-! ## The function consumer, characterized -/

/-- The tokens the function consumer keeps as arguments: whitespace, comma, delim and
obrace are dropped, eof and ebrace terminate, everything else is kept in order (spec
§4.8). -/
def fc_kept : List css_parser_token → List css_parser_token
  | [] => []
  | t :: ts =>
    match t.type with
    | .eof_token => []
    | .ebrace_token => []
    | .whitespace_token => fc_kept ts
    | .comma_token => fc_kept ts
    | .delim_token => fc_kept ts
    | .obrace_token => fc_kept ts
    | _ => t :: fc_kept ts

theorem fc_kept_cons_stop (t : css_parser_token) (ts : List css_parser_token)
    (h : t.type = token_type.eof_token ∨ t.type = token_type.ebrace_token) :
    fc_kept (t :: ts) = [] := by
  rcases t with ⟨ty, v⟩
  cases ty <;> simp_all [fc_kept]

theorem fc_kept_cons_skip (t : css_parser_token) (ts : List css_parser_token)
    (h : t.type = token_type.whitespace_token ∨ t.type = token_type.comma_token ∨
      t.type = token_type.delim_token ∨ t.type = token_type.obrace_token) :
    fc_kept (t :: ts) = fc_kept ts := by
  rcases t with ⟨ty, v⟩
  cases ty <;> simp_all [fc_kept]

theorem fc_kept_cons_keep (t : css_parser_token) (ts : List css_parser_token)
    (h1 : t.type ≠ token_type.eof_token) (h2 : t.type ≠ token_type.whitespace_token)
    (h3 : t.type ≠ token_type.ebrace_token) (h4 : t.type ≠ token_type.comma_token)
    (h5 : t.type ≠ token_type.delim_token) (h6 : t.type ≠ token_type.obrace_token) :
    fc_kept (t :: ts) = t :: fc_kept ts := by
  rcases t with ⟨ty, v⟩
  cases ty <;> simp_all [fc_kept]

/-- A kept token, wrapped the way the function consumer wraps it. -/
def fc_arg (t : css_parser_token) : css_consumed_block :=
  .mk .css_function_arg (.token t)

theorem function_consumer_loop_characterized (fuel : Nat) :
    ∀ (ts : List css_parser_token) (rec : Nat) (err : Option css_parse_error)
      (tag : parser_tag_type) (f : css_parser_token)
      (args : List css_consumed_block), ts.length < fuel →
      ∃ s2, function_consumer_loop fuel
          ⟨⟨ts, none⟩, rec, false, err⟩ (.mk tag (.func (.mk f args))) =
        (.mk tag (.func (.mk f (args ++ (fc_kept ts).map fc_arg))), s2) := by
  induction fuel with
  | zero => intro ts _ _ _ _ _ h; exact absurd h (Nat.not_lt_zero _)
  | succ fuel ih =>
    intro ts rec err tag f args hlen
    rcases ts with _ | ⟨t, ts2⟩
    · refine ⟨⟨⟨[], none⟩, rec, true, err⟩, ?_⟩
      rw [function_consumer_loop_eof fuel ⟨⟨[], none⟩, rec, false, err⟩
        (.mk tag (.func (.mk f args))) css_parser_eof_token
        ⟨⟨[], none⟩, rec, false, err⟩ rfl rfl rfl]
      simp [fc_kept]
    · have hnt : (⟨⟨t :: ts2, none⟩, rec, false, err⟩ : parser_state).next_token =
          (t, ⟨⟨ts2, none⟩, rec, false, err⟩) := rfl
      by_cases h1 : t.type = token_type.eof_token
      · refine ⟨⟨⟨ts2, none⟩, rec, true, err⟩, ?_⟩
        rw [function_consumer_loop_eof fuel _ _ t _ rfl hnt h1]
        rw [fc_kept_cons_stop t ts2 (Or.inl h1)]
        simp
      by_cases h3 : t.type = token_type.ebrace_token
      · refine ⟨⟨⟨ts2, none⟩, rec, false, err⟩, ?_⟩
        rw [function_consumer_loop_ebrace fuel _ _ t _ rfl hnt h3]
        rw [fc_kept_cons_stop t ts2 (Or.inr h3)]
        simp
      by_cases h2 : t.type = token_type.whitespace_token ∨
          t.type = token_type.comma_token ∨ t.type = token_type.delim_token ∨
          t.type = token_type.obrace_token
      · rw [function_consumer_loop_skip fuel _ _ t _ rfl hnt h2]
        rw [fc_kept_cons_skip t ts2 h2]
        exact ih ts2 rec err tag f args
          (by simp only [List.length_cons] at hlen; omega)
      · push_neg at h2
        obtain ⟨h2a, h2b, h2c, h2d⟩ := h2
        rw [function_consumer_loop_arg fuel _ _ t _ rfl hnt h1 h2a h3 h2b h2c h2d]
        have hadd : ((css_consumed_block.mk tag (.func (.mk f args))).add_function_argument
            (.mk .css_function_arg (.token t))).2 =
            .mk tag (.func (.mk f (args ++ [fc_arg t]))) := rfl
        rw [hadd]
        obtain ⟨s2, hh⟩ := ih ts2 rec err tag f (args ++ [fc_arg t])
          (by simp only [List.length_cons] at hlen; omega)
        refine ⟨s2, ?_⟩
        rw [hh, fc_kept_cons_keep t ts2 h1 h2a h3 h2b h2c h2d]
        simp [fc_arg]

/-- `function_consumer`, fully characterized on a pushback-free, non-eof state whose
recursion guard admits the call: it succeeds and appends exactly the kept tokens as
`css_function_arg` children, in order. -/
theorem function_consumer_fuel_characterized (fuel : Nat)
    (ts : List css_parser_token) (rec : Nat) (err : Option css_parse_error)
    (tag : parser_tag_type) (f : css_parser_token) (args : List css_consumed_block)
    (hlen : ts.length + 1 < fuel) (hG : ¬ rec + 1 > max_rec) :
    ∃ s2, function_consumer_fuel fuel ⟨⟨ts, none⟩, rec, false, err⟩
        (.mk tag (.func (.mk f args))) =
      (true, .mk tag (.func (.mk f (args ++ (fc_kept ts).map fc_arg))), s2) := by
  cases fuel with
  | zero => exact absurd hlen (Nat.not_lt_zero _)
  | succ fuel =>
    obtain ⟨s2, hL⟩ := function_consumer_loop_characterized fuel ts (rec + 1) err
      tag f args (by omega)
    exact ⟨_, function_consumer_fuel_succ fuel _ _ _ _ hG hL⟩

/-! ## Deeply nested braces trip the recursion guard -/

/-- The `{` token. -/
def braceTok : css_parser_token := { type := .ocurlbrace_token }

/-- A parser state with `m` pending `{` tokens at recursion depth `r`. -/
def brace_state (m r : Nat) (err : Option css_parse_error) : parser_state :=
  ⟨⟨List.replicate m braceTok, none⟩, r, false, err⟩

/-- As `brace_state`, with one more `{` sitting in the pushback slot. -/
def brace_state_pb (m r : Nat) (err : Option css_parse_error) : parser_state :=
  ⟨⟨List.replicate m braceTok, some braceTok⟩, r, false, err⟩

theorem brace_state_next (m r : Nat) (err : Option css_parse_error) :
    (brace_state (m + 1) r err).next_token = (braceTok, brace_state m r err) := rfl

theorem brace_state_pb_next (m r : Nat) (err : Option css_parse_error) :
    (brace_state_pb m r err).next_token = (braceTok, brace_state m r err) := by
  cases m <;> rfl

theorem brace_state_pushback (m r : Nat) (err : Option css_parse_error) :
    (brace_state m r err).pushback_token braceTok = brace_state_pb m r err := rfl

/-- Nested braces past the budget fail, at every fuel: with `m` pending `{` tokens
the simple-block loop at depth `r` fails whenever `m + r ≥ 21`, and the
component-value consumer over a pushed-back `{` at depth `r` fails whenever
`m + r ≥ 20`. -/
theorem braces_fail_all (fuel : Nat) :
    (∀ m r err block, 1 ≤ m → 21 ≤ m + r →
      (simple_block_consumer_loop fuel (brace_state m r err) block
        token_type.ecurlbrace_token).1 = false) ∧
    (∀ m r err top, 20 ≤ m + r →
      (component_value_consumer_fuel fuel (brace_state_pb m r err) top).1 =
        false) := by
  induction fuel using Nat.strong_induction_on with
  | _ fuel ih =>
    cases fuel with
    | zero => exact ⟨fun _ _ _ _ _ _ => rfl, fun _ _ _ _ _ => rfl⟩
    | succ F =>
      constructor
      · intro m r err block hm hsum
        obtain ⟨m, rfl⟩ : ∃ k, m = k + 1 := ⟨m - 1, by omega⟩
        rcases hval : component_value_consumer_fuel F
            ((brace_state m r err).pushback_token braceTok) block
          with ⟨ret, top1, s2⟩
        have hret : ret = false := by
          have h := (ih F (by omega)).2 m r err block (by omega)
          rw [brace_state_pushback] at hval
          rw [hval] at h
          exact h
        subst hret
        rw [simple_block_consumer_loop_component F (brace_state (m + 1) r err) block
          top1 token_type.ecurlbrace_token braceTok (brace_state m r err) s2 false rfl
          (brace_state_next m r err) (by decide) (by decide) (by decide) hval]
        rfl
      · intro m r err top hsum
        by_cases hG : (brace_state_pb m r err).rec_level + 1 > max_rec
        · rw [component_value_consumer_fuel_guard F (brace_state_pb m r err) top hG]
          rfl
        · have hr20 : r + 1 ≤ 20 := Nat.le_of_not_lt hG
          have hm1 : 1 ≤ m := by omega
          have hloop : (component_value_consumer_loop F (brace_state_pb m (r + 1) err)
              top).1 = false := by
            cases F with
            | zero => rfl
            | succ F2 =>
              have hsbcfail : (simple_block_consumer_fuel F2 (brace_state m (r + 1) err)
                  (.mk .css_simple_block .monostate) token_type.ecurlbrace_token
                  true).1 = false := by
                cases F2 with
                | zero => rfl
                | succ F3 =>
                  rw [simple_block_consumer_fuel_cc F3 (brace_state m (r + 1) err)
                    (.mk .css_simple_block .monostate) token_type.ecurlbrace_token]
                  exact (ih F3 (by omega)).1 m (r + 1) err
                    (.mk .css_simple_block .monostate) hm1 (by omega)
              rcases hsbc : simple_block_consumer_fuel F2 (brace_state m (r + 1) err)
                  (.mk .css_simple_block .monostate) token_type.ecurlbrace_token true
                with ⟨ret2, block2, s3⟩
              have hret2 : ret2 = false := by rw [hsbc] at hsbcfail; exact hsbcfail
              subst hret2
              rw [component_value_consumer_loop_ocurl F2 (brace_state_pb m (r + 1) err)
                top block2 braceTok (brace_state m (r + 1) err) s3 false rfl
                (brace_state_pb_next m (r + 1) err) rfl hsbc]
              rfl
          rcases hval : component_value_consumer_loop F (brace_state_pb m (r + 1) err)
              top with ⟨ret, top1, s2⟩
          have hret : ret = false := by rw [hval] at hloop; exact hloop
          subst hret
          rw [component_value_consumer_fuel_succ F (brace_state_pb m r err) top top1
            false s2 hG
            (show component_value_consumer_loop F
              { brace_state_pb m r err with
                rec_level := (brace_state_pb m r err).rec_level + 1 } top =
              (false, top1, s2) from hval)]

/-- A pushed-back `{` followed by at least 19 further `{` tokens makes the
qualified-rule consumer fail from recursion depth 0, leaving the caller's node
unchanged and recording `BAD_NESTING`. -/
theorem braces_qrc_fails (F3 m : Nat) (err : Option css_parse_error)
    (top : css_consumed_block) (hm : 19 ≤ m) :
    ∃ s2, qualified_rule_consumer_fuel (F3 + 1 + 1 + 1) (brace_state_pb m 0 err) top =
      (false, top, s2) ∧ s2.error = some bad_nesting_error := by
  have hL : (simple_block_consumer_loop F3 (brace_state m 2 err)
      (.mk .css_simple_block .monostate) token_type.ecurlbrace_token).1 = false :=
    (braces_fail_all F3).1 m 2 err (.mk .css_simple_block .monostate)
      (by omega) (by omega)
  rcases hsb : simple_block_consumer_loop F3 (brace_state m 2 err)
      (.mk .css_simple_block .monostate) token_type.ecurlbrace_token
    with ⟨ret, blk, s3⟩
  have hret : ret = false := by rw [hsb] at hL; exact hL
  subst hret
  have hsbf : simple_block_consumer_fuel (F3 + 1) (brace_state m 1 err)
      (.mk .css_qualified_rule .monostate) token_type.ecurlbrace_token false =
      (false, .mk .css_qualified_rule .monostate,
        { s3 with rec_level := s3.rec_level - 1 }) := by
    rw [simple_block_consumer_fuel_succ F3 (brace_state m 1 err)
      (.mk .css_qualified_rule .monostate) blk token_type.ecurlbrace_token false s3
      (by show ¬ 1 + 1 > max_rec; decide)
      (show simple_block_consumer_loop F3
        { brace_state m 1 err with
          rec_level := (brace_state m 1 err).rec_level + 1 }
        (.mk .css_simple_block .monostate) token_type.ecurlbrace_token =
        (false, blk, s3) from hsb)]
    rfl
  have hqloop : qualified_rule_consumer_loop (F3 + 1 + 1) (brace_state_pb m 1 err)
      (.mk .css_qualified_rule .monostate) =
      (false, .mk .css_qualified_rule .monostate,
        { s3 with rec_level := s3.rec_level - 1 }) := by
    rw [qualified_rule_consumer_loop_ocurl (F3 + 1) (brace_state_pb m 1 err)
      (.mk .css_qualified_rule .monostate) braceTok (brace_state m 1 err) rfl
      (brace_state_pb_next m 1 err) rfl]
    exact hsbf
  have hqf : qualified_rule_consumer_fuel (F3 + 1 + 1 + 1) (brace_state_pb m 0 err)
      top = (false, top,
        { { s3 with rec_level := s3.rec_level - 1 } with
          rec_level := { s3 with rec_level := s3.rec_level - 1 }.rec_level - 1 }) := by
    rw [qualified_rule_consumer_fuel_succ (F3 + 1 + 1) (brace_state_pb m 0 err) top
      (.mk .css_qualified_rule .monostate) false
      { s3 with rec_level := s3.rec_level - 1 } (by show ¬ 0 + 1 > max_rec; decide)
      (show qualified_rule_consumer_loop (F3 + 1 + 1)
        { brace_state_pb m 0 err with
          rec_level := (brace_state_pb m 0 err).rec_level + 1 }
        (.mk .css_qualified_rule .monostate) =
        (false, .mk .css_qualified_rule .monostate,
          { s3 with rec_level := s3.rec_level - 1 }) from hqloop)]
    rfl
  refine ⟨_, hqf, ?_⟩
  have hre := qualified_rule_consumer_fuel_rec_error (F3 + 1 + 1 + 1)
    (brace_state_pb m 0 err) top
  rw [hqf] at hre
  exact (hre.2 rfl).2

/-- 20 or more `{` tokens: `consume_css_blocks` returns a childless top block with
`BAD_NESTING` recorded in the final parser state. -/
theorem braces_consume_css_blocks (n : Nat) (hn : 20 ≤ n) :
    ∃ s2, consume_css_blocks (List.replicate n braceTok) =
      (.mk .css_top_block .monostate, s2) ∧ s2.error = some bad_nesting_error := by
  obtain ⟨m, rfl⟩ : ∃ k, n = k + 1 := ⟨n - 1, by omega⟩
  have hfuel : parse_fuel (initial_state (List.replicate (m + 1) braceTok)) =
      8 * m + 12 + 1 + 1 + 1 + 1 := by
    simp only [parse_fuel, initial_state_remaining, List.length_replicate]
    omega
  obtain ⟨s2, hqf, herr⟩ := braces_qrc_fails (8 * m + 12) m none
    (.mk .css_top_block .monostate) (by omega)
  refine ⟨s2, ?_, herr⟩
  show consume_css_blocks_loop
    (parse_fuel (initial_state (List.replicate (m + 1) braceTok)))
    (initial_state (List.replicate (m + 1) braceTok))
    (.mk .css_top_block .monostate) = (.mk .css_top_block .monostate, s2)
  rw [hfuel]
  rw [show initial_state (List.replicate (m + 1) braceTok) =
    brace_state (m + 1) 0 none from rfl]
  rw [consume_css_blocks_loop_qualified (8 * m + 12 + 1 + 1 + 1)
    (brace_state (m + 1) 0 none) (.mk .css_top_block .monostate)
    (.mk .css_top_block .monostate) braceTok (brace_state m 0 none) s2 false rfl
    (brace_state_next m 0 none) (by decide) (by decide) (by decide)
    (show qualified_rule_consumer_fuel (8 * m + 12 + 1 + 1 + 1)
      ((brace_state m 0 none).pushback_token braceTok)
      (.mk .css_top_block .monostate) =
      (false, .mk .css_top_block .monostate, s2) from hqf)]
  rfl

/-- Deep nesting surfaces as a fresh `INVALID_SYNTAX` error from `parse_css`; the
`BAD_NESTING` testimony stays in the parser state, which `parse_css` drops. -/
theorem braces_parse_css (n : Nat) (hn : 20 ≤ n) :
    parse_css (List.replicate n braceTok) =
      Except.error
        { type := .PARSE_ERROR_INVALID_SYNTAX, description := "cannot parse input" } := by
  obtain ⟨s2, hc, herr⟩ := braces_consume_css_blocks n hn
  have hci : (consume_input (List.replicate n braceTok)).1 = false := by
    simp [consume_input, hc, css_consumed_block.get_blocks_or_empty]
  simp [parse_css, hci]

/-- The internal error recorded on a deeply nested input is `BAD_NESTING`. -/
theorem braces_internal_error (n : Nat) (hn : 20 ≤ n) :
    (consume_input (List.replicate n braceTok)).2.error = some bad_nesting_error := by
  obtain ⟨s2, hc, herr⟩ := braces_consume_css_blocks n hn
  simp [consume_input, hc, herr]


/-! ## Attach policy of the rule consumers -/

/-- A successful qualified-rule run attaches the completed rule node to the caller's
node exactly when the caller's tag is `css_top_block`; otherwise the rule is dropped
and the caller's node is returned unchanged. -/
theorem qualified_rule_attach_policy (fuel : Nat) (s : parser_state)
    (top top1 : css_consumed_block) (s2 : parser_state)
    (h : qualified_rule_consumer_fuel fuel s top = (true, top1, s2)) :
    (top.tag = parser_tag_type.css_top_block →
      ∃ blk, blk.tag = parser_tag_type.css_qualified_rule ∧
        top1 = (top.attach_block blk).2) ∧
    (top.tag ≠ parser_tag_type.css_top_block → top1 = top) := by
  cases fuel with
  | zero => simp [qualified_rule_consumer_fuel, nesting_failure] at h
  | succ F =>
    by_cases hG : s.rec_level + 1 > max_rec
    · rw [qualified_rule_consumer_fuel_guard F s top hG] at h
      simp [nesting_failure] at h
    · rcases hL : qualified_rule_consumer_loop F { s with rec_level := s.rec_level + 1 }
          (.mk .css_qualified_rule .monostate) with ⟨ret, blk, s3⟩
      rw [qualified_rule_consumer_fuel_succ F s top blk ret s3 hG hL] at h
      have hret : ret = true := by
        have hx := congrArg (fun p => p.1) h
        simpa using hx
      subst hret
      have hblk : blk.tag = parser_tag_type.css_qualified_rule := by
        have hx := qualified_rule_consumer_loop_extends F
          { s with rec_level := s.rec_level + 1 } (.mk .css_qualified_rule .monostate)
        rw [hL] at hx
        exact hx.1
      have htop : (if top.tag = parser_tag_type.css_top_block then
          (top.attach_block blk).2 else top) = top1 := by
        have hx := congrArg (fun p => p.2.1) h
        simpa using hx
      constructor
      · intro heq
        refine ⟨blk, hblk, ?_⟩
        rw [← htop, if_pos heq]
      · intro hne
        rw [← htop, if_neg hne]

/-- As `qualified_rule_attach_policy`, for the at-rule consumer. -/
theorem at_rule_attach_policy (fuel : Nat) (s : parser_state)
    (top top1 : css_consumed_block) (s2 : parser_state)
    (h : at_rule_consumer_fuel fuel s top = (true, top1, s2)) :
    (top.tag = parser_tag_type.css_top_block →
      ∃ blk, blk.tag = parser_tag_type.css_at_rule ∧
        top1 = (top.attach_block blk).2) ∧
    (top.tag ≠ parser_tag_type.css_top_block → top1 = top) := by
  cases fuel with
  | zero => simp [at_rule_consumer_fuel, nesting_failure] at h
  | succ F =>
    by_cases hG : s.rec_level + 1 > max_rec
    · rw [at_rule_consumer_fuel_guard F s top hG] at h
      simp [nesting_failure] at h
    · rcases hL : at_rule_consumer_loop F { s with rec_level := s.rec_level + 1 }
          (.mk .css_at_rule .monostate) with ⟨ret, blk, s3⟩
      rw [at_rule_consumer_fuel_succ F s top blk ret s3 hG hL] at h
      have hret : ret = true := by
        have hx := congrArg (fun p => p.1) h
        simpa using hx
      subst hret
      have hblk : blk.tag = parser_tag_type.css_at_rule := by
        have hx := at_rule_consumer_loop_extends F
          { s with rec_level := s.rec_level + 1 } (.mk .css_at_rule .monostate)
        rw [hL] at hx
        exact hx.1
      have htop : (if top.tag = parser_tag_type.css_top_block then
          (top.attach_block blk).2 else top) = top1 := by
        have hx := congrArg (fun p => p.2.1) h
        simpa using hx
      constructor
      · intro heq
        refine ⟨blk, hblk, ?_⟩
        rw [← htop, if_pos heq]
      · intro hne
        rw [← htop, if_neg hne]

/-- With `consume_current = false`, the simple-block consumer leaves the caller's
node untouched on failure and, on success, attaches exactly one fresh
`css_simple_block` node to it. -/
theorem simple_block_attach_policy (fuel : Nat) (s : parser_state)
    (top top1 : css_consumed_block) (ee : token_type) (ret : Bool)
    (s2 : parser_state)
    (h : simple_block_consumer_fuel fuel s top ee false = (ret, top1, s2)) :
    (ret = false → top1 = top) ∧
    (ret = true → ∃ blk, blk.tag = parser_tag_type.css_simple_block ∧
      top1 = (top.attach_block blk).2) := by
  cases fuel with
  | zero =>
    simp only [simple_block_consumer_fuel, nesting_failure, Prod.mk.injEq] at h
    obtain ⟨h1, h2, -⟩ := h
    exact ⟨fun _ => h2.symm, fun ht => absurd (h1.trans ht) (by simp)⟩
  | succ F =>
    by_cases hG : s.rec_level + 1 > max_rec
    · rw [simple_block_consumer_fuel_guard F s top ee hG] at h
      simp only [nesting_failure, Prod.mk.injEq] at h
      obtain ⟨h1, h2, -⟩ := h
      exact ⟨fun _ => h2.symm, fun ht => absurd (h1.trans ht) (by simp)⟩
    · rcases hL : simple_block_consumer_loop F { s with rec_level := s.rec_level + 1 }
          (.mk .css_simple_block .monostate) ee with ⟨ret0, blk, s3⟩
      rw [simple_block_consumer_fuel_succ F s top blk ee ret0 s3 hG hL] at h
      have hret : ret0 = ret := by
        have hx := congrArg (fun p => p.1) h
        simpa using hx
      subst hret
      have hblk : blk.tag = parser_tag_type.css_simple_block := by
        have hx := simple_block_consumer_loop_extends F
          { s with rec_level := s.rec_level + 1 } (.mk .css_simple_block .monostate) ee
        rw [hL] at hx
        exact hx.1
      have htop : (if ret0 = true then (top.attach_block blk).2 else top) = top1 := by
        have hx := congrArg (fun p => p.2.1) h
        simpa using hx
      constructor
      · intro hf
        subst hf
        rw [← htop, if_neg (by simp)]
      · intro ht
        subst ht
        exact ⟨blk, hblk, by rw [← htop, if_pos rfl]⟩


/-! ## The claims -/

/-- C1: the spec claims that inputs whose nesting exceeds the hard limit of 20 (for
example 21 nested curly braces) make `parse` return a `BAD_NESTING` error.  In the
code, the recursion guard does trip and `BAD_NESTING` is recorded inside the parser,
but `parse_css` never consults that record: it returns a freshly constructed
`INVALID_SYNTAX` error ("cannot parse input").  Corrected statement: on `n ≥ 21`
nested `{` tokens, `parse_css` returns `INVALID_SYNTAX` while the parser state holds
`BAD_NESTING`. -/
theorem claim_C1 (n : Nat) (hn : 21 ≤ n) :
    parse_css (List.replicate n braceTok) =
      Except.error
        { type := .PARSE_ERROR_INVALID_SYNTAX, description := "cannot parse input" } ∧
    (consume_input (List.replicate n braceTok)).2.error = some bad_nesting_error :=
  ⟨braces_parse_css n (by omega), braces_internal_error n (by omega)⟩

theorem claim_C1_witness :
    21 ≤ 21 ∧
      (parse_css (List.replicate 21 braceTok) =
        Except.error
          { type := .PARSE_ERROR_INVALID_SYNTAX,
            description := "cannot parse input" } ∧
      (consume_input (List.replicate 21 braceTok)).2.error =
        some bad_nesting_error) :=
  ⟨by decide, claim_C1 21 (by decide)⟩

/-- C1 counterexample: on 21 nested braces the error kind `parse` returns is not
`BAD_NESTING`. -/
theorem claim_C1_counterexample :
    parse_error_kind (parse_css (List.replicate 21 braceTok)) ≠
      some css_parse_error_type.PARSE_ERROR_BAD_NESTING := by
  rw [braces_parse_css 21 (by omega)]
  simp [parse_error_kind]

/-- C2: the spec claims `parse` reports `INVALID_SYNTAX` whenever no rules could be
recognized, in particular when the consumed tree has top-level children but the rule
assembler recognizes none of them.  In the code, `consume_input` returns false — and
`parse_css` errors — exactly when the top block has no children at all; when children
exist but none passes the rule filter, the parse still succeeds with a style sheet.
Corrected statement: `parse_css` errors iff the consumed top block is childless. -/
theorem claim_C2 (input : List css_parser_token) :
    parse_css input =
      Except.error
        { type := .PARSE_ERROR_INVALID_SYNTAX, description := "cannot parse input" } ↔
    (consume_css_blocks input).1.get_blocks_or_empty = [] := by
  rcases h : consume_css_blocks input with ⟨blocks, s⟩
  simp only [parse_css, consume_input, h]
  by_cases he : blocks.get_blocks_or_empty.isEmpty
  · simp [he, List.isEmpty_iff.mp he]
  · have hne : blocks.get_blocks_or_empty ≠ [] := by
      simpa [List.isEmpty_iff] using he
    simp [he, hne]

/-- C2 counterexample: a lone `ident` token yields a top block with one child that
the rule filter rejects (no recognizable rule), yet `parse_css` succeeds instead of
returning `INVALID_SYNTAX`. -/
theorem claim_C2_counterexample :
    (consume_css_blocks [⟨token_type.ident_token, 1⟩]).1.get_blocks_or_empty.countP
        consume_input_rule_filter = 0 ∧
    (consume_css_blocks
        [⟨token_type.ident_token, 1⟩]).1.get_blocks_or_empty.length = 1 ∧
    parse_error_kind (parse_css [⟨token_type.ident_token, 1⟩]) = none := by decide

/-- C3: the spec claims every consumer invocation restores the shared recursion
counter whether it succeeds or fails.  In the code, the fail-fast `return false`
paths skip the decrement, so a failing invocation returns with the counter one above
its entry value.  Corrected statement: for each of the five consumers, success
restores the counter and failure leaves it at entry + 1. -/
theorem claim_C3 (fuel : Nat) (s : parser_state) (top : css_consumed_block)
    (ee : token_type) (cc : Bool) :
    (((function_consumer_fuel fuel s top).1 = true →
        (function_consumer_fuel fuel s top).2.2.rec_level = s.rec_level) ∧
      ((function_consumer_fuel fuel s top).1 = false →
        (function_consumer_fuel fuel s top).2.2.rec_level = s.rec_level + 1)) ∧
    (((component_value_consumer_fuel fuel s top).1 = true →
        (component_value_consumer_fuel fuel s top).2.2.rec_level = s.rec_level) ∧
      ((component_value_consumer_fuel fuel s top).1 = false →
        (component_value_consumer_fuel fuel s top).2.2.rec_level =
          s.rec_level + 1)) ∧
    (((simple_block_consumer_fuel fuel s top ee cc).1 = true →
        (simple_block_consumer_fuel fuel s top ee cc).2.2.rec_level =
          s.rec_level) ∧
      ((simple_block_consumer_fuel fuel s top ee cc).1 = false →
        (simple_block_consumer_fuel fuel s top ee cc).2.2.rec_level =
          s.rec_level + 1)) ∧
    (((qualified_rule_consumer_fuel fuel s top).1 = true →
        (qualified_rule_consumer_fuel fuel s top).2.2.rec_level = s.rec_level) ∧
      ((qualified_rule_consumer_fuel fuel s top).1 = false →
        (qualified_rule_consumer_fuel fuel s top).2.2.rec_level =
          s.rec_level + 1)) ∧
    (((at_rule_consumer_fuel fuel s top).1 = true →
        (at_rule_consumer_fuel fuel s top).2.2.rec_level = s.rec_level) ∧
      ((at_rule_consumer_fuel fuel s top).1 = false →
        (at_rule_consumer_fuel fuel s top).2.2.rec_level = s.rec_level + 1)) := by
  have h1 := function_consumer_fuel_rec_error fuel s top
  have h2 := component_value_consumer_fuel_rec_error fuel s top
  have h3 := simple_block_consumer_fuel_rec_error fuel s top ee cc
  have h4 := qualified_rule_consumer_fuel_rec_error fuel s top
  have h5 := at_rule_consumer_fuel_rec_error fuel s top
  exact ⟨⟨fun h => (h1.1 h).1, fun h => (h1.2 h).1⟩,
    ⟨fun h => (h2.1 h).1, fun h => (h2.2 h).1⟩,
    ⟨fun h => (h3.1 h).1, fun h => (h3.2 h).1⟩,
    ⟨fun h => (h4.1 h).1, fun h => (h4.2 h).1⟩,
    ⟨fun h => (h5.1 h).1, fun h => (h5.2 h).1⟩⟩

theorem claim_C3_witness :
    (component_value_consumer_fuel 3
      ⟨⟨[⟨token_type.ident_token, 1⟩], none⟩, 5, false, none⟩
      (.mk .css_qualified_rule .monostate)).2.2.rec_level = 5 :=
  (claim_C3 3 ⟨⟨[⟨token_type.ident_token, 1⟩], none⟩, 5, false, none⟩
    (.mk .css_qualified_rule .monostate) token_type.ecurlbrace_token true).2.1.1
    (by decide)

/-- C3 counterexample: a component-value invocation entered at counter 20 trips the
guard, fails, and returns with the counter at 21 — not restored to 20. -/
theorem claim_C3_counterexample :
    (component_value_consumer_fuel 3
      ⟨⟨[⟨token_type.ident_token, 1⟩], none⟩, 20, false, none⟩
      (.mk .css_qualified_rule .monostate)).1 = false ∧
    (component_value_consumer_fuel 3
      ⟨⟨[⟨token_type.ident_token, 1⟩], none⟩, 20, false, none⟩
      (.mk .css_qualified_rule .monostate)).2.2.rec_level = 21 := by decide

/-- C4: the spec claims the consumed tree holds at most `n + 1` nodes on an
`n`-token input.  A lone `{` already produces 3 nodes (top, rule, simple block): the
end of input finances one extra rule frame.  Corrected statement: the tree holds at
most `n + 2` nodes. -/
theorem claim_C4 (input : List css_parser_token) :
    (consume_css_blocks input).1.node_count ≤ input.length + 2 :=
  consume_css_blocks_node_count_le input

/-- C4 counterexample: the one-token input `{` produces a 3-node tree,
violating the claimed `n + 1` bound. -/
theorem claim_C4_counterexample :
    (consume_css_blocks [braceTok]).1.node_count = 3 ∧
    ¬ (consume_css_blocks [braceTok]).1.node_count ≤ [braceTok].length + 1 := by
  decide

/-- C5: `attach_block` fails on a node whose content is a single token or a function
record, `add_function_argument` fails unless the content is a function record, and
every failing call returns the node unchanged — as claimed. -/
theorem claim_C5 (tag : parser_tag_type) (c : block_content)
    (x : css_consumed_block) :
    (((∃ t, c = .token t) ∨ (∃ f, c = .func f)) →
      (css_consumed_block.mk tag c).attach_block x = (false, .mk tag c)) ∧
    ((∀ f, c ≠ .func f) →
      (css_consumed_block.mk tag c).add_function_argument x = (false, .mk tag c)) := by
  constructor
  · rintro (⟨t, rfl⟩ | ⟨f, rfl⟩) <;> rfl
  · intro h
    cases c with
    | monostate => rfl
    | blocks l => rfl
    | token t => rfl
    | func f => exact absurd rfl (h f)

theorem claim_C5_witness :
    (css_consumed_block.mk parser_tag_type.css_component
        (.token ⟨token_type.ident_token, 1⟩)).attach_block
        (.mk .css_component .monostate) =
      (false, .mk parser_tag_type.css_component
        (.token ⟨token_type.ident_token, 1⟩)) ∧
    (css_consumed_block.mk parser_tag_type.css_component
        block_content.monostate).add_function_argument
        (.mk .css_component .monostate) =
      (false, .mk parser_tag_type.css_component block_content.monostate) :=
  ⟨(claim_C5 parser_tag_type.css_component (.token ⟨token_type.ident_token, 1⟩)
      (.mk .css_component .monostate)).1 (Or.inl ⟨_, rfl⟩),
    (claim_C5 parser_tag_type.css_component block_content.monostate
      (.mk .css_component .monostate)).2 (fun _ h => block_content.noConfusion h)⟩

/-- C6: a successful qualified-rule (resp. at-rule) run attaches the completed rule
to the caller's node only when that node's tag is `css_top_block`; with any other
tag the rule is dropped and the caller's node is returned unchanged — as claimed. -/
theorem claim_C6 (fuel : Nat) (s : parser_state) (top top1 : css_consumed_block)
    (s2 : parser_state) :
    (qualified_rule_consumer_fuel fuel s top = (true, top1, s2) →
      (top.tag = parser_tag_type.css_top_block →
        ∃ blk, blk.tag = parser_tag_type.css_qualified_rule ∧
          top1 = (top.attach_block blk).2) ∧
      (top.tag ≠ parser_tag_type.css_top_block → top1 = top)) ∧
    (at_rule_consumer_fuel fuel s top = (true, top1, s2) →
      (top.tag = parser_tag_type.css_top_block →
        ∃ blk, blk.tag = parser_tag_type.css_at_rule ∧
          top1 = (top.attach_block blk).2) ∧
      (top.tag ≠ parser_tag_type.css_top_block → top1 = top)) :=
  ⟨fun h => qualified_rule_attach_policy fuel s top top1 s2 h,
    fun h => at_rule_attach_policy fuel s top top1 s2 h⟩

theorem claim_C6_witness :
    ∃ blk, blk.tag = parser_tag_type.css_qualified_rule ∧
      css_consumed_block.mk parser_tag_type.css_top_block
        (block_content.blocks
          [css_consumed_block.mk parser_tag_type.css_qualified_rule
            block_content.monostate]) =
      ((css_consumed_block.mk parser_tag_type.css_top_block
        block_content.monostate).attach_block blk).2 :=
  ((claim_C6 2 ⟨⟨[], none⟩, 0, false, none⟩ (.mk .css_top_block .monostate)
      (.mk .css_top_block (.blocks [.mk .css_qualified_rule .monostate]))
      ⟨⟨[], none⟩, 0, true, none⟩).1 rfl).1 rfl

/-- C7: the spec claims `consume_current = true` never changes the recursion counter,
allocates no node and fills the caller's block in place, while `consume_current =
false` attaches a fresh simple block exactly on success.  The in-place fill and the
`false` attach policy hold, but a failing `consume_current = true` run leaves the
counter one above entry (the guard trips inside a nested component-value call and the
fail-fast return skips the decrement).  Corrected statement: with `true`, the
caller's block is extended in place, the counter is restored on success and left at
entry + 1 on failure; with `false`, the caller's node is untouched on failure and
gains exactly one fresh `css_simple_block` child on success. -/
theorem claim_C7 (fuel : Nat) (s : parser_state) (top top1 : css_consumed_block)
    (ee : token_type) (ret : Bool) (s2 : parser_state) :
    (simple_block_consumer_fuel fuel s top ee true = (ret, top1, s2) →
      block_extends top top1 ∧
      (ret = true → s2.rec_level = s.rec_level) ∧
      (ret = false → s2.rec_level = s.rec_level + 1)) ∧
    (simple_block_consumer_fuel fuel s top ee false = (ret, top1, s2) →
      (ret = false → top1 = top) ∧
      (ret = true → ∃ blk, blk.tag = parser_tag_type.css_simple_block ∧
        top1 = (top.attach_block blk).2)) := by
  constructor
  · intro h
    have hx := simple_block_consumer_fuel_extends fuel s top ee true
    have hr := simple_block_consumer_fuel_rec_error fuel s top ee true
    rw [h] at hx hr
    exact ⟨hx, fun ht => (hr.1 ht).1, fun hf => (hr.2 hf).1⟩
  · exact fun h => simple_block_attach_policy fuel s top top1 ee ret s2 h

theorem claim_C7_witness :
    ∃ blk, blk.tag = parser_tag_type.css_simple_block ∧
      css_consumed_block.mk parser_tag_type.css_qualified_rule
        (block_content.blocks
          [css_consumed_block.mk parser_tag_type.css_simple_block
            block_content.monostate]) =
      ((css_consumed_block.mk parser_tag_type.css_qualified_rule
        block_content.monostate).attach_block blk).2 :=
  ((claim_C7 3 ⟨⟨[⟨token_type.ecurlbrace_token, 0⟩], none⟩, 0, false, none⟩
      (.mk .css_qualified_rule .monostate)
      (.mk .css_qualified_rule (.blocks [.mk .css_simple_block .monostate]))
      token_type.ecurlbrace_token true ⟨⟨[], none⟩, 0, false, none⟩).2 rfl).2 rfl

/-- C7 counterexample: a `consume_current = true` invocation entered at counter 20
over `{` fails and returns with the counter at 21 — the counter is not unchanged. -/
theorem claim_C7_counterexample :
    (simple_block_consumer_fuel 4 ⟨⟨[braceTok], none⟩, 20, false, none⟩
      (.mk .css_simple_block .monostate) token_type.ecurlbrace_token true).1 =
      false ∧
    (simple_block_consumer_fuel 4 ⟨⟨[braceTok], none⟩, 20, false, none⟩
      (.mk .css_simple_block .monostate) token_type.ecurlbrace_token
      true).2.2.rec_level = 21 := by decide

/-- C8: the spec claims that in every function-consumer invocation whitespace, comma,
delim and obrace add no child, ebrace and eof end it with success, and every other
token (nested `function` tokens included) is appended as a plain `css_function_arg`
token child.  This holds only when the recursion guard admits the call: entered at
counter 20 the consumer fails immediately and appends nothing.  Corrected statement:
with guard headroom (and fuel covering the stream), the consumer succeeds and appends
exactly the kept tokens — everything except whitespace/comma/delim/obrace up to the
first ebrace or eof — in order, as token-carrying `css_function_arg` children. -/
theorem claim_C8 (fuel : Nat) (ts : List css_parser_token) (rec : Nat)
    (err : Option css_parse_error) (tag : parser_tag_type) (f : css_parser_token)
    (args : List css_consumed_block) (hlen : ts.length + 1 < fuel)
    (hG : ¬ rec + 1 > max_rec) :
    ∃ s2, function_consumer_fuel fuel ⟨⟨ts, none⟩, rec, false, err⟩
        (.mk tag (.func (.mk f args))) =
      (true, .mk tag (.func (.mk f (args ++ (fc_kept ts).map fc_arg))), s2) :=
  function_consumer_fuel_characterized fuel ts rec err tag f args hlen hG

theorem claim_C8_witness :
    ∃ s2, function_consumer_fuel 6
        ⟨⟨[⟨token_type.ident_token, 1⟩, ⟨token_type.comma_token, 0⟩,
           ⟨token_type.function_token, 2⟩, ⟨token_type.ebrace_token, 0⟩], none⟩,
          0, false, none⟩
        (.mk .css_function (.func (.mk ⟨token_type.function_token, 9⟩ []))) =
      (true, .mk .css_function (.func (.mk ⟨token_type.function_token, 9⟩
        ([] ++ (fc_kept [⟨token_type.ident_token, 1⟩, ⟨token_type.comma_token, 0⟩,
          ⟨token_type.function_token, 2⟩,
          ⟨token_type.ebrace_token, 0⟩]).map fc_arg))), s2) :=
  claim_C8 6
    [⟨token_type.ident_token, 1⟩, ⟨token_type.comma_token, 0⟩,
     ⟨token_type.function_token, 2⟩, ⟨token_type.ebrace_token, 0⟩]
    0 none .css_function ⟨token_type.function_token, 9⟩ [] (by decide) (by decide)

/-- C8 counterexample: entered at counter 20 on a lone `ebrace`, the function
consumer does not end with success — it fails on the recursion guard. -/
theorem claim_C8_counterexample :
    (function_consumer_fuel 3 ⟨⟨[⟨token_type.ebrace_token, 0⟩], none⟩, 20, false,
      none⟩ (.mk .css_function (.func (.mk ⟨token_type.function_token, 2⟩ [])))).1 =
      false := by decide

/-- C9: one component-value invocation grows the argument block by at most one child
(unconditionally, via an in-place extension), as claimed; but a whitespace-only
stream yields a no-op success only when the recursion guard admits the call —
entered at counter 20 the invocation fails instead.  Corrected statement: the
at-most-one-child bound holds always, and the whitespace-only no-op success holds
under guard headroom. -/
theorem claim_C9 (fuel : Nat) (s : parser_state) (top : css_consumed_block) :
    ((component_value_consumer_fuel fuel s top).2.1.get_blocks_or_empty.length ≤
      top.get_blocks_or_empty.length + 1) ∧
    (stream_all_ws s → ¬ s.rec_level + 1 > max_rec →
      ∃ s2, component_value_consumer s top = (true, top, s2)) := by
  refine ⟨component_value_consumer_fuel_children_le fuel s top, fun hws hG => ?_⟩
  exact component_value_consumer_fuel_ws_only (parse_fuel s) s top
    (by show s.remaining + 1 < 8 * s.remaining + 8; omega) hG hws

theorem claim_C9_witness :
    ∃ s2, component_value_consumer
        ⟨⟨[⟨token_type.whitespace_token, 0⟩], none⟩, 0, false, none⟩
        (.mk .css_qualified_rule .monostate) =
      (true, .mk .css_qualified_rule .monostate, s2) :=
  (claim_C9 1 ⟨⟨[⟨token_type.whitespace_token, 0⟩], none⟩, 0, false, none⟩
      (.mk .css_qualified_rule .monostate)).2
    (by constructor
        · intro t ht
          simp only [List.mem_singleton] at ht
          rw [ht]
        · intro t ht
          simp at ht)
    (by decide)

/-- C9 counterexample: a whitespace-only stream does not yield success when the
invocation enters at counter 20 — the guard makes it fail. -/
theorem claim_C9_counterexample :
    (component_value_consumer_fuel 2
      ⟨⟨[⟨token_type.whitespace_token, 0⟩], none⟩, 20, false, none⟩
      (.mk .css_qualified_rule .monostate)).1 = false := by decide

/-- C10: on an input yielding no top-level rule — whitespace-only or empty — the
first-rule lookup of `get_selectors_parser_functor` is out of bounds and the
embedded access returns `none`, as claimed. -/
theorem claim_C10 (input : List css_parser_token)
    (h : ∀ t ∈ input, t.type = token_type.whitespace_token) :
    get_selectors_parser_functor input = none := by
  obtain ⟨s2, hc⟩ := consume_css_blocks_ws_only input h
  simp [get_selectors_parser_functor, hc, css_consumed_block.get_blocks_or_empty]

theorem claim_C10_witness :
    get_selectors_parser_functor [⟨token_type.whitespace_token, 0⟩] = none :=
  claim_C10 [⟨token_type.whitespace_token, 0⟩] (by decide)


end RspamdCss
